import Mathlib

/-!
# Mython: lexer and object model

A shallow embedding of `src/src/lexer.cpp` and of the method lookup of
`src/src/runtime.cpp`.

* Bytes are natural numbers (`0 .. 255`); a C++ `char` is represented by its byte value.
* `std::istream` is a zipper over the byte sequence plus the three state bits; the member
  functions used by the lexer (`peek`, `get`, `unget`, `clear`, `ignore`, `operator>>`)
  follow the C++ standard library (libstdc++).
* Every C++ loop is a recursion on a fuel counter; `Result.fuel` means that the loop was
  still running when the counter reached zero.
-/

namespace Mython

/-! ## Results -/

/-- Outcome of running a piece of the program with a bounded number of loop iterations. -/
inductive Result (α : Type) where
  | ok (a : α) : Result α
  | fuel : Result α
  | raise (what : String) : Result α
deriving DecidableEq, Repr

/-! ## Character classification (`<cctype>`, "C" locale) -/

/-- Library `isdigit`. -/
def isdigit (c : Nat) : Bool := decide (48 ≤ c ∧ c ≤ 57)

/-- Library `isalpha`. -/
def isalpha (c : Nat) : Bool := decide ((65 ≤ c ∧ c ≤ 90) ∨ (97 ≤ c ∧ c ≤ 122))

/-- Library `isalnum`. -/
def isalnum (c : Nat) : Bool := isalpha c || isdigit c

/-- Library `ispunct`. -/
def ispunct (c : Nat) : Bool :=
  decide ((33 ≤ c ∧ c ≤ 47) ∨ (58 ≤ c ∧ c ≤ 64) ∨ (91 ≤ c ∧ c ≤ 96) ∨ (123 ≤ c ∧ c ≤ 126))

/-- Library `isspace`. -/
def isspace (c : Nat) : Bool := decide ((9 ≤ c ∧ c ≤ 13) ∨ c = 32)

/-- Library `iscntrl`. -/
def iscntrl (c : Nat) : Bool := decide (c ≤ 31 ∨ c = 127)

/-- Conversion of an `int_type` to `char`: `EOF` (`none`, the value `-1`) becomes the
byte `255`. -/
def toChar : Option Nat → Nat
  | none => 255
  | some c => c

/-- Comparison `i == c` of an `int_type` with a `char` after integral promotion (`char` is
signed: a byte above 127 is negative and can only equal `EOF`). -/
def eqIntChar (i : Option Nat) (c : Nat) : Bool :=
  match i with
  | none => decide (c = 255)
  | some b => decide (b = c ∧ c < 128)

/-- Conversion to a 32-bit `int`. -/
def toInt32 (i : Int) : Int := (i + 2147483648) % 4294967296 - 2147483648

/-- Conversion to a 64-bit `size_t`. -/
def toSizeT (i : Int) : Nat := (i % 18446744073709551616).toNat

/-! ## std::istream -/

/-- Input stream: the bytes already read (most recent first), the bytes still to read and
the state bits. -/
structure IStream where
  before : List Nat
  rest : List Nat
  eofbit : Bool
  failbit : Bool
  badbit : Bool
deriving DecidableEq, Repr

namespace IStream

/-- Fresh stream over a byte sequence. -/
def ofBytes (bs : List Nat) : IStream := ⟨[], bs, false, false, false⟩

/-- Library `good()`. -/
def good (s : IStream) : Bool := !s.eofbit && !s.failbit && !s.badbit

/-- Library `operator bool`, that is `!fail()`. -/
def toBool (s : IStream) : Bool := !s.failbit && !s.badbit

/-- Library `peek()`: the sentry sets `failbit` on a stream that is not good; at the end of
the data `eofbit` is set. -/
def peek (s : IStream) : Option Nat × IStream :=
  if s.good then
    match s.rest with
    | [] => (none, { s with eofbit := true })
    | c :: _ => (some c, s)
  else (none, { s with failbit := true })

/-- Library `get()`. -/
def get (s : IStream) : Option Nat × IStream :=
  if s.good then
    match s.rest with
    | [] => (none, { s with eofbit := true, failbit := true })
    | c :: r => (some c, { s with before := c :: s.before, rest := r })
  else (none, { s with failbit := true })

/-- Library `clear()`. -/
def clear (s : IStream) : IStream :=
  { s with eofbit := false, failbit := false, badbit := false }

/-- Library `unget()`: clears `eofbit`, then steps back one byte; `badbit` when there is no
byte to step back to. -/
def unget (s : IStream) : IStream :=
  if !s.failbit && !s.badbit then
    match s.before with
    | [] => { s with eofbit := false, badbit := true }
    | c :: b => { s with eofbit := false, before := b, rest := c :: s.rest }
  else { s with eofbit := false, failbit := true }

/-- Bytes skipped by `ignore`: up to and including the first `delim`. The flag tells that
the data ended before a `delim` was found. -/
def skipLine (delim : Nat) : List Nat → List Nat → List Nat × List Nat × Bool
  | before, [] => (before, [], true)
  | before, c :: r =>
    if c = delim then (c :: before, r, false) else skipLine delim (c :: before) r

/-- Library `ignore(numeric_limits<streamsize>::max(), delim)`. -/
def ignore (s : IStream) (delim : Nat) : IStream :=
  if s.good then
    match skipLine delim s.before s.rest with
    | (b, r, hitEof) => { s with before := b, rest := r, eofbit := hitEof }
  else { s with failbit := true }

/-- Maximal run of decimal digits at the front, with its value. -/
def digitRun : List Nat → List Nat → Nat → List Nat × List Nat × Nat
  | before, [], acc => (before, [], acc)
  | before, c :: r, acc =>
    if isdigit c then digitRun (c :: before) r (acc * 10 + (c - 48)) else (before, c :: r, acc)

/-- Library `operator>>(int&)` for input that starts with a decimal digit (the only way the
lexer reaches it): the whole run of digits is read, a value above `INT_MAX` is stored as
`INT_MAX` with `failbit`, and `eofbit` is set when the run ends the data. For any other
input the extraction fails with value `0`. -/
def extractInt (s : IStream) : Int × IStream :=
  if s.good then
    match s.rest with
    | [] => (0, { s with eofbit := true, failbit := true })
    | c :: _ =>
      if isdigit c then
        match digitRun s.before s.rest 0 with
        | (b, r, v) =>
          let s1 := { s with before := b, rest := r, eofbit := r.isEmpty }
          if v > 2147483647 then (2147483647, { s1 with failbit := true }) else ((v : Int), s1)
      else (0, { s with failbit := true })
  else (0, { s with failbit := true })

end IStream

/-! ## Tokens (`lexer.h`) -/

/-- Token: the alternatives of `TokenBase`. -/
inductive Token where
  | Number (value : Int)
  | Id (value : List Nat)
  | Char (value : Nat)
  | String (value : List Nat)
  | Class | Return | If | Else | Def | Newline | Print | Indent | Dedent
  | And | Or | Not | Eq | NotEq | LessOrEq | GreaterOrEq | None | True | False | Eof
deriving DecidableEq, Repr

/-- Global table `keywords` of `lexer.cpp`. -/
def keywords : List (List Nat × Token) :=
  [ ([99, 108, 97, 115, 115], Token.Class),      -- "class"
    ([114, 101, 116, 117, 114, 110], Token.Return), -- "return"
    ([105, 102], Token.If),                      -- "if"
    ([101, 108, 115, 101], Token.Else),          -- "else"
    ([100, 101, 102], Token.Def),                -- "def"
    ([112, 114, 105, 110, 116], Token.Print),    -- "print"
    ([111, 114], Token.Or),                      -- "or"
    ([78, 111, 110, 101], Token.None),           -- "None"
    ([97, 110, 100], Token.And),                 -- "and"
    ([84, 114, 117, 101], Token.True),           -- "True"
    ([70, 97, 108, 115, 101], Token.False),      -- "False"
    ([110, 111, 116], Token.Not),                -- "not"
    ([61, 61], Token.Eq),                        -- "=="
    ([33, 61], Token.NotEq),                     -- "!="
    ([62, 61], Token.GreaterOrEq),               -- ">="
    ([60, 61], Token.LessOrEq) ]                 -- "<="

/-- Lookup in an association list, the model of `unordered_map::count` / `at`. -/
def lookupKey (k : List Nat) : List (List Nat × Token) → Option Token
  | [] => none
  | (k1, t) :: tl => if k = k1 then some t else lookupKey k tl

/-! ## Lexer (`lexer.cpp`) -/

/-- Lexer state: the members of `Lexer` and the function-local static `prev_indent` of
`GetIndentLevel`. -/
structure Lexer where
  input_ : IStream
  current_token_ : Token
  indent_level_ : Int
  prev_indent : Nat
deriving DecidableEq, Repr

/-- `Lexer::IgnoreEmptyLines`. -/
def IgnoreEmptyLines : Nat → IStream → Result IStream
  | 0, _ => Result.fuel
  | fuel + 1, s =>
    if (s.peek).1 = some 10 then IgnoreEmptyLines fuel ((s.peek).2.get).2
    else Result.ok (s.peek).2

/-- The `while` loop of `Lexer::GetIndentLevel`, counting leading spaces. -/
def countSpaces : Nat → IStream → Nat → Result (Nat × IStream)
  | 0, _, _ => Result.fuel
  | fuel + 1, s, space_count =>
    if (s.peek).1 = some 32 then
      countSpaces fuel ((s.peek).2.get).2 ((space_count + 1) % 18446744073709551616)
    else Result.ok (space_count, (s.peek).2)

/-- `Lexer::GetIndentLevel`: returns the signed change of level and stores the new level in
the static `prev_indent`. -/
def GetIndentLevel (fuel : Nat) (lx : Lexer) : Result (Int × Lexer) :=
  match countSpaces fuel lx.input_ 0 with
  | Result.ok (space_count, s) =>
    let now_indent : Int := toInt32 ((space_count / 2 : Nat) : Int)
    let level : Int := toInt32 (now_indent - (lx.prev_indent : Int))
    Result.ok (level, { lx with input_ := s, prev_indent := toSizeT now_indent })
  | Result.fuel => Result.fuel
  | Result.raise e => Result.raise e

/-- `Lexer::GetIndent`. -/
def GetIndent (fuel : Nat) (lx : Lexer) : Result (Token × Lexer) :=
  let measured : Result Lexer :=
    if lx.indent_level_ = 0 then
      match GetIndentLevel fuel lx with
      | Result.ok (level, lx1) => Result.ok { lx1 with indent_level_ := level }
      | Result.fuel => Result.fuel
      | Result.raise e => Result.raise e
    else Result.ok lx
  match measured with
  | Result.ok lx1 =>
    if lx1.indent_level_ > 0 then
      Result.ok (Token.Indent, { lx1 with indent_level_ := toInt32 (lx1.indent_level_ - 1) })
    else if lx1.indent_level_ < 0 then
      Result.ok (Token.Dedent, { lx1 with indent_level_ := toInt32 (lx1.indent_level_ + 1) })
    else Result.ok (Token.None, lx1)
  | Result.fuel => Result.fuel
  | Result.raise e => Result.raise e

/-- The `while` loop of `Lexer::GetId`. -/
def GetIdLoop : Nat → IStream → List Nat → Result (List Nat × IStream)
  | 0, _, _ => Result.fuel
  | fuel + 1, s, id_word =>
    if (s.peek).1 = none then Result.ok (id_word, (s.peek).2)
    else
      let q := (s.peek).2.peek
      let ch := toChar q.1
      if iscntrl ch || isspace ch || (ispunct ch && ch != 95) then Result.ok (id_word, q.2)
      else GetIdLoop fuel (q.2.get).2 (id_word ++ [toChar (q.2.get).1])

/-- `Lexer::GetId`. -/
def GetId (fuel : Nat) (s : IStream) : Result (Token × IStream) :=
  match GetIdLoop fuel s [] with
  | Result.ok (id_word, s1) =>
    match lookupKey id_word keywords with
    | some t => Result.ok (t, s1)
    | none => Result.ok (Token.Id id_word, s1)
  | Result.fuel => Result.fuel
  | Result.raise e => Result.raise e

/-- `Lexer::GetCompOperator`; `keywords.at` throws `std::out_of_range` on a missing key. -/
def GetCompOperator (s : IStream) : Result (Token × IStream) :=
  let c := toChar (s.get).1
  let s1 := (s.get).2
  if (s1.peek).1 = some 61 then
    let s2 := (s1.peek).2
    match lookupKey [c, toChar (s2.get).1] keywords with
    | some t => Result.ok (t, (s2.get).2)
    | none => Result.raise "out_of_range"
  else Result.ok (Token.Char c, (s1.peek).2)

/-- The `while` loop of `Lexer::GetString`. -/
def GetStringLoop : Nat → Nat → IStream → List Nat → Result (List Nat × IStream)
  | 0, _, _, _ => Result.fuel
  | fuel + 1, end_quote, s, str =>
    if eqIntChar (s.peek).1 end_quote then Result.ok (str, (s.peek).2)
    else
      let s1 := (s.peek).2
      let ch := toChar (s1.get).1
      let s2 := (s1.get).2
      if ch = 92 then
        let sc := toChar (s2.get).1
        let s3 := (s2.get).2
        if sc = 110 then GetStringLoop fuel end_quote s3 (str ++ [10])
        else if sc = 116 then GetStringLoop fuel end_quote s3 (str ++ [9])
        else if sc = 34 then GetStringLoop fuel end_quote s3 (str ++ [34])
        else if sc = 39 then GetStringLoop fuel end_quote s3 (str ++ [39])
        else GetStringLoop fuel end_quote s3.unget (str ++ [ch])
      else GetStringLoop fuel end_quote s2 (str ++ [ch])

/-- `Lexer::GetString`. -/
def GetString (fuel : Nat) (s : IStream) : Result (Token × IStream) :=
  let end_quote := toChar (s.get).1
  match GetStringLoop fuel end_quote (s.get).2 [] with
  | Result.ok (str, s1) => Result.ok (Token.String str, (s1.get).2)
  | Result.fuel => Result.fuel
  | Result.raise e => Result.raise e

/-- `Lexer::GetDigit`. -/
def GetDigit (s : IStream) : Result (Token × IStream) :=
  Result.ok (Token.Number (s.extractInt).1, (s.extractInt).2)

/-- Lifts a token function on the stream to the lexer state. -/
def onInput (lx : Lexer) (r : Result (Token × IStream)) : Result (Option Token × Lexer) :=
  match r with
  | Result.ok (t, s) => Result.ok (some t, { lx with input_ := s })
  | Result.fuel => Result.fuel
  | Result.raise e => Result.raise e

/-- The `while (input_)` loop of `Lexer::GetNextToken`: `some t` when the loop returns the
token `t`, `none` when the loop is left because the stream has failed. -/
def GetNextTokenLoop : Nat → Lexer → Result (Option Token × Lexer)
  | 0, _ => Result.fuel
  | fuel + 1, lx =>
    if !lx.input_.toBool then Result.ok (none, lx)
    else
      let ch := toChar (lx.input_.peek).1
      let s := (lx.input_.peek).2
      if ch = 32 then GetNextTokenLoop fuel { lx with input_ := (s.get).2 }
      else if ch = 10 then Result.ok (some Token.Newline, { lx with input_ := (s.get).2 })
      else if ch = 35 then
        match IgnoreEmptyLines fuel (s.ignore 10) with
        | Result.ok s1 =>
          if (s1.peek).1 ≠ none ∧ lx.current_token_ ≠ Token.Newline then
            Result.ok (some Token.Newline, { lx with input_ := (s1.peek).2 })
          else GetNextTokenLoop fuel { lx with input_ := (s1.peek).2 }
        | Result.fuel => Result.fuel
        | Result.raise e => Result.raise e
      else if ispunct ch then
        if ch = 34 ∨ ch = 39 then onInput lx (GetString fuel s)
        else if ch = 95 then onInput lx (GetId fuel s)
        else if ch = 33 ∨ ch = 61 ∨ ch = 62 ∨ ch = 60 then onInput lx (GetCompOperator s)
        else Result.ok (some (Token.Char (toChar (s.get).1)), { lx with input_ := (s.get).2 })
      else if isalpha ch then onInput lx (GetId fuel s)
      else if isdigit ch then onInput lx (GetDigit s)
      else GetNextTokenLoop fuel { lx with input_ := s }

/-- The part of `Lexer::GetNextToken` after the indentation block: the loop and the code
that follows it. -/
def GetNextTokenBody (fuel : Nat) (lx : Lexer) : Result (Token × Lexer) :=
  match GetNextTokenLoop fuel lx with
  | Result.ok (some t, lx1) => Result.ok (t, lx1)
  | Result.ok (none, lx1) =>
    if lx1.current_token_ ≠ Token.Newline then
      let s := lx1.input_.clear.unget
      let c := toChar (s.get).1
      if isalnum c || ispunct c then Result.ok (Token.Newline, { lx1 with input_ := (s.get).2 })
      else Result.ok (Token.Eof, { lx1 with input_ := (s.get).2 })
    else Result.ok (Token.Eof, lx1)
  | Result.fuel => Result.fuel
  | Result.raise e => Result.raise e

/-- `Lexer::GetNextToken`. -/
def GetNextToken (fuel : Nat) (lx : Lexer) : Result (Token × Lexer) :=
  if lx.current_token_ = Token.Newline ∨ lx.indent_level_ ≠ 0 then
    match IgnoreEmptyLines fuel lx.input_ with
    | Result.ok s =>
      match GetIndent fuel { lx with input_ := s } with
      | Result.ok (indent_token, lx1) =>
        if indent_token ≠ Token.None then Result.ok (indent_token, lx1)
        else GetNextTokenBody fuel lx1
      | Result.fuel => Result.fuel
      | Result.raise e => Result.raise e
    | Result.fuel => Result.fuel
    | Result.raise e => Result.raise e
  else GetNextTokenBody fuel lx

/-- `Lexer::NextToken`: the returned token is also the new current token. -/
def NextToken (fuel : Nat) (lx : Lexer) : Result (Token × Lexer) :=
  if lx.input_.toBool then
    match GetNextToken fuel lx with
    | Result.ok (t, lx1) => Result.ok (t, { lx1 with current_token_ := t })
    | Result.fuel => Result.fuel
    | Result.raise e => Result.raise e
  else Result.ok (Token.Eof, { lx with current_token_ := Token.Eof })

/-- Constructor `Lexer::Lexer`; `prev_indent` is the value the static of `GetIndentLevel`
has at that time (`0` for the first lexer of a process). A default-constructed `Token` holds
the first alternative, `Number{0}`. -/
def Lexer.new (fuel : Nat) (input : IStream) (prev_indent : Nat) : Result Lexer :=
  let lx0 : Lexer :=
    { input_ := input,
      current_token_ := if input.toBool then Token.Newline else Token.Number 0,
      indent_level_ := 0,
      prev_indent := prev_indent }
  match GetNextToken fuel lx0 with
  | Result.ok (t, lx1) => Result.ok { lx1 with current_token_ := t }
  | Result.fuel => Result.fuel
  | Result.raise e => Result.raise e

/-- The lexer after construction and `n` calls of `NextToken`. -/
def lexerAfter (fuel : Nat) (input : List Nat) : Nat → Result Lexer
  | 0 => Lexer.new fuel (IStream.ofBytes input) 0
  | n + 1 =>
    match lexerAfter fuel input n with
    | Result.ok lx =>
      match NextToken fuel lx with
      | Result.ok (_, lx1) => Result.ok lx1
      | Result.fuel => Result.fuel
      | Result.raise e => Result.raise e
    | Result.fuel => Result.fuel
    | Result.raise e => Result.raise e

/-- Tokens read from a lexer: its current token followed by the results of `NextToken`, up
to and including the first `Eof`, together with the lexer at that point. -/
def tokensFrom (fuel : Nat) : Nat → Lexer → Result (List Token × Lexer)
  | 0, _ => Result.fuel
  | n + 1, lx =>
    if lx.current_token_ = Token.Eof then Result.ok ([Token.Eof], lx)
    else
      match NextToken fuel lx with
      | Result.ok (_, lx1) =>
        match tokensFrom fuel n lx1 with
        | Result.ok (ts, lx2) => Result.ok (lx.current_token_ :: ts, lx2)
        | Result.fuel => Result.fuel
        | Result.raise e => Result.raise e
      | Result.fuel => Result.fuel
      | Result.raise e => Result.raise e

/-- Token sequence of a whole input read by the first lexer of a process. -/
def tokenize (fuel : Nat) (input : List Nat) : Result (List Token × Lexer) :=
  match Lexer.new fuel (IStream.ofBytes input) 0 with
  | Result.ok lx => tokensFrom fuel fuel lx
  | Result.fuel => Result.fuel
  | Result.raise e => Result.raise e

/-- Number of `Indent` tokens minus number of `Dedent` tokens. -/
def indentBalance (ts : List Token) : Int :=
  (ts.count Token.Indent : Int) - (ts.count Token.Dedent : Int)

/-- Tokens and final `prev_indent` of a run of `tokenize`. -/
def tokensAndLevel (r : Result (List Token × Lexer)) : Result (List Token × Nat) :=
  match r with
  | Result.ok (ts, lx) => Result.ok (ts, lx.prev_indent)
  | Result.fuel => Result.fuel
  | Result.raise e => Result.raise e

/-! ## Reference functions for the lexer claims -/

/-- The twelve reserved words of the language and their tokens. -/
def reservedWord (w : List Nat) : Option Token :=
  if w = [99, 108, 97, 115, 115] then some Token.Class          -- "class"
  else if w = [114, 101, 116, 117, 114, 110] then some Token.Return -- "return"
  else if w = [105, 102] then some Token.If                     -- "if"
  else if w = [101, 108, 115, 101] then some Token.Else         -- "else"
  else if w = [100, 101, 102] then some Token.Def               -- "def"
  else if w = [112, 114, 105, 110, 116] then some Token.Print   -- "print"
  else if w = [111, 114] then some Token.Or                     -- "or"
  else if w = [97, 110, 100] then some Token.And                -- "and"
  else if w = [110, 111, 116] then some Token.Not               -- "not"
  else if w = [78, 111, 110, 101] then some Token.None          -- "None"
  else if w = [84, 114, 117, 101] then some Token.True          -- "True"
  else if w = [70, 97, 108, 115, 101] then some Token.False     -- "False"
  else none

/-- Token of a word: its keyword token when the word is reserved, `Id` otherwise. -/
def wordToken (w : List Nat) : Token :=
  match reservedWord w with
  | some t => t
  | none => Token.Id w

/-- Byte that may continue an identifier: a letter, a digit or `_`. -/
def isWordByte (c : Nat) : Bool := isalnum c || c == 95

/-- Value of a string literal body when every backslash starts a two-byte escape: `\n` is a
line feed, `\t` a tab, an escaped quote the quote, and any other escape yields the byte
after the backslash (preceded by the backslash itself when `keep` is set). -/
def unescapePairs (keep : Bool) : List Nat → List Nat
  | [] => []
  | [c] => [c]
  | c :: e :: r =>
    if c = 92 then
      if e = 110 then 10 :: unescapePairs keep r
      else if e = 116 then 9 :: unescapePairs keep r
      else if e = 34 then 34 :: unescapePairs keep r
      else if e = 39 then 39 :: unescapePairs keep r
      else if keep then 92 :: e :: unescapePairs keep r
      else e :: unescapePairs keep r
    else c :: unescapePairs keep (e :: r)

/-- Prepends a byte to the value of a scanned literal. -/
def consValue (c : Nat) : Option (List Nat × List Nat) → Option (List Nat × List Nat)
  | some (v, tail) => some (c :: v, tail)
  | none => none

/-- String literal at the front of the input, after its opening quote `q`: the value and the
input that follows the closing quote, or `none` when the input ends before a closing quote.
A backslash followed by `n`, `t`, `"` or `'` is decoded; any other backslash is copied and
the byte after it is read again as ordinary input. -/
def scanString (q : Nat) : List Nat → Option (List Nat × List Nat)
  | [] => none
  | [c] => if c = q then some ([], []) else none
  | c :: e :: r =>
    if c = q then some ([], e :: r)
    else if c = 92 then
      if e = 110 then consValue 10 (scanString q r)
      else if e = 116 then consValue 9 (scanString q r)
      else if e = 34 then consValue 34 (scanString q r)
      else if e = 39 then consValue 39 (scanString q r)
      else consValue 92 (scanString q (e :: r))
    else consValue c (scanString q (e :: r))

/-- Stream invariant: `eofbit` is only set when no byte is left. -/
def IStream.WF (s : IStream) : Prop := s.eofbit = true → s.rest = []

/-- Stream invariant inside the token loop: a stream that is not good has no byte left. -/
def IStream.Settled (s : IStream) : Prop := s.good = false → s.rest = []

/-- Lexer at the end of the token stream: the stream has failed, or it is good and
exhausted, nothing is pending and the byte read last is neither alphanumeric nor
punctuation. -/
def Lexer.AtEof (lx : Lexer) : Prop :=
  lx.input_.toBool = false ∨
    (lx.input_.good = true ∧ lx.input_.rest = [] ∧ lx.indent_level_ = 0 ∧
      ∃ c bs, lx.input_.before = c :: bs ∧ (isalnum c || ispunct c) = false)

/-- Invariant of the lexer between calls of `NextToken`. -/
def Lexer.Inv (lx : Lexer) : Prop :=
  lx.input_.WF ∧ (lx.current_token_ = Token.Eof → lx.AtEof)

/-- The next token of the lexer is a content token when the line starts with `k` spaces:
nothing is pending and, at the start of a line, `k` spaces are the indentation that was
measured last. -/
def Lexer.NoLayoutDue (lx : Lexer) (k : Nat) : Prop :=
  lx.indent_level_ = 0 ∧
    (lx.current_token_ = Token.Newline → lx.prev_indent = k / 2 ∧ k < 4294967296)

/-! ## Classes (`runtime.cpp`) -/

/-- Modelled from the spec: the declaration of `Method` in `runtime.h` is not part of the
sources; a method has a name, formal parameters and a body. -/
structure Method (Body : Type) where
  name : String
  formal_params : List String
  body : Body
deriving DecidableEq, Repr

/-- Modelled from the spec: the declaration of `Class` in `runtime.h` is not part of the
sources; a class has a name, an ordered sequence of methods and an optional parent. -/
inductive Class (Body : Type) where
  | mk (name_ : String) (methods_ : List (Method Body)) (parent_ : Option (Class Body)) :
      Class Body

/-- Member `methods_`. -/
def Class.methods_ {Body : Type} : Class Body → List (Method Body)
  | Class.mk _ ms _ => ms

/-- Member `parent_`. -/
def Class.parent_ {Body : Type} : Class Body → Option (Class Body)
  | Class.mk _ _ p => p

/-- The loop `for (const auto &method : methods) if (method.name == name) return &method`. -/
def findMethod {Body : Type} (name : String) : List (Method Body) → Option (Method Body)
  | [] => none
  | m :: ms => if m.name = name then some m else findMethod name ms

/-- `Class::GetMethod`: the own methods, then the methods of the parent. -/
def Class.GetMethod {Body : Type} (c : Class Body) (name : String) : Option (Method Body) :=
  match findMethod name c.methods_ with
  | some m => some m
  | none =>
    match c.parent_ with
    | some p => findMethod name p.methods_
    | none => none

/-- Method lookup as the specification words it: the own methods, then the same search in
the parent, up the whole chain. -/
def Class.resolve {Body : Type} : Class Body → String → Option (Method Body)
  | Class.mk _ ms p, name =>
    match findMethod name ms with
    | some m => some m
    | none =>
      match p with
      | some q => Class.resolve q name
      | none => none

/-! ## Object model (`runtime.cpp`) -/

/-- Modelled from the spec: the comparison functions a `Comparison` node can hold
(`statement.h` is not part of the sources). -/
inductive Comparator where
  | Equal | NotEqual | Less | Greater | LessOrEqual | GreaterOrEqual
deriving DecidableEq, Repr

/-- Modelled from the spec: the node classes of `statement.h`, which is not part of the
sources, with the members that `statement.cpp` uses. `Extern id` stands for a node of any
class defined elsewhere (a constant, for instance); what it does is a parameter of the
evaluator. -/
inductive Statement where
  | VariableValue (dotted_ids : List String)
  | Assignment (var : String) (rv : Statement)
  | FieldAssignment (object : List String) (field_name : String) (rv : Statement)
  | Print (args : List Statement)
  | MethodCall (object : Statement) (method : String) (args : List Statement)
  | Stringify (arg : Statement)
  | Add (lhs rhs : Statement)
  | Sub (lhs rhs : Statement)
  | Mult (lhs rhs : Statement)
  | Div (lhs rhs : Statement)
  | Compound (statements : List Statement)
  | Return (statement : Statement)
  | ClassDefinition (cls : Class Statement)
  | IfElse (condition if_body : Statement) (else_body : Option Statement)
  | Or (lhs rhs : Statement)
  | And (lhs rhs : Statement)
  | Not (arg : Statement)
  | Comparison (cmp : Comparator) (lhs rhs : Statement)
  | NewInstance (cls : Class Statement) (args : List Statement)
  | MethodBody (body : Statement)
  | Extern (id : Nat)

/-- Modelled from the spec: an `ObjectHolder` (`runtime.h` is not part of the sources): empty,
or holding a number, a string, a bool, a class, or a class instance. Instances are mutable
and shared, so the holder keeps the index of the instance in the heap. -/
inductive Value where
  | None
  | Number (value : Int)
  | String (value : List Nat)
  | Bool (value : Bool)
  | Class (cls : Mython.Class Statement)
  | ClassInstance (ref : Nat)

/-- Modelled from the spec: `Closure`, a map from names to holders. -/
abbrev Closure := List (String × Value)

/-- Library `unordered_map::find`. -/
def Closure.find : Closure → String → Option Value
  | [], _ => none
  | (k, v) :: rest, name => if k = name then some v else Closure.find rest name

/-- Library `unordered_map::operator[]` followed by an assignment. -/
def Closure.set : Closure → String → Value → Closure
  | [], name, v => [(name, v)]
  | (k, w) :: rest, name, v =>
    if k = name then (k, v) :: rest else (k, w) :: Closure.set rest name v

/-- Modelled from the spec: a `ClassInstance`: its class and its fields. -/
structure Instance where
  cls : Class Statement
  fields : Closure

/-- Instance held at an index of the heap. -/
def heapGet : List Instance → Nat → Option Instance
  | [], _ => none
  | i :: _, 0 => some i
  | _ :: rest, n + 1 => heapGet rest n

/-- Heap with the fields of one instance replaced. -/
def heapSetFields : List Instance → Nat → Closure → List Instance
  | [], _, _ => []
  | i :: rest, 0, f => { i with fields := f } :: rest
  | i :: rest, n + 1, f => i :: heapSetFields rest n f

/-- State of a run: the closure of the current frame, the instances created so far, the
bytes written to the output stream of the context, and the text that `os << this` writes
for each instance (an address, fixed by the implementation). -/
structure Config where
  closure : Closure
  heap : List Instance
  output : List Nat
  addr : Nat → List Nat

/-- How a piece of code ends: with a value, with a `std::runtime_error`, with the thrown
`ObjectHolder` of a `Return`, or with undefined behaviour (a null pointer is dereferenced). -/
inductive Flow (α : Type) where
  | value (a : α) : Flow α
  | error (what : String) : Flow α
  | returned (v : Value) : Flow α
  | crash : Flow α

/-- Result of running code from a state: how it ends and the state it leaves, or
`Result.fuel`. -/
abbrev Run (α : Type) := Result (Flow α × Config)

/-- Sequencing: the continuation runs only after a normal completion; an exception or the
lack of fuel ends the whole computation. -/
def Run.bind {α β : Type} (r : Run α) (k : α → Config → Run β) : Run β :=
  match r with
  | Result.ok (Flow.value a, c) => k a c
  | Result.ok (Flow.error e, c) => Result.ok (Flow.error e, c)
  | Result.ok (Flow.returned v, c) => Result.ok (Flow.returned v, c)
  | Result.ok (Flow.crash, c) => Result.ok (Flow.crash, c)
  | Result.fuel => Result.fuel
  | Result.raise e => Result.raise e

/-- Bytes of a name. -/
def bytesOf (s : String) : List Nat := s.toList.map Char.toNat

/-- Decimal digits of a natural number, most significant first. -/
def natDigits : Nat → Nat → List Nat
  | 0, _ => []
  | fuel + 1, n => if n < 10 then [48 + n] else natDigits fuel (n / 10) ++ [48 + n % 10]

/-- Modelled from the spec: `Number.print` writes the decimal integer. -/
def decimal (i : Int) : List Nat :=
  if i < 0 then 45 :: natDigits (i.natAbs + 1) i.natAbs else natDigits (i.natAbs + 1) i.natAbs

/-- `IsTrue`. -/
def IsTrue (object : Value) : Bool :=
  match object with
  | Value.Number value => decide (value ≠ 0)
  | Value.String value => !value.isEmpty
  | Value.Bool value => value
  | _ => false

/-- `ClassInstance::HasMethod`. -/
def HasMethod (cls : Class Statement) (method : String) (argument_count : Nat) : Bool :=
  match cls.GetMethod method with
  | some m => decide (m.formal_params.length = argument_count)
  | none => false

/-- The loop of `ClassInstance::Call` that binds the formal parameters. -/
def bindParams : List String → List Value → Closure → Closure
  | p :: ps, a :: as, cl => bindParams ps as (Closure.set cl p a)
  | _, _, cl => cl

/-- The closure `args` that `ClassInstance::Call` builds: `self`, then the formal parameters
in order. -/
def callClosure (ref : Nat) (formal_params : List String) (actual_args : List Value) :
    Closure :=
  bindParams formal_params actual_args (Closure.set [] "self" (Value.ClassInstance ref))

/-- End of a call: whatever the body did, its closure is dropped and the caller goes on with
its own closure. -/
def leaveFrame (caller : Closure) (r : Run Value) : Run Value :=
  match r with
  | Result.ok (f, c1) => Result.ok (f, { c1 with closure := caller })
  | Result.fuel => Result.fuel
  | Result.raise e => Result.raise e

/-- `ClassInstance::Call`, with the evaluator of the method body as a parameter. The body
runs in its own closure; the caller keeps its closure. -/
def Call (ex : Statement → Config → Run Value) (ref : Nat) (method : String)
    (actual_args : List Value) (c : Config) : Run Value :=
  match heapGet c.heap ref with
  | none => Result.ok (Flow.crash, c)
  | some inst =>
    if HasMethod inst.cls method actual_args.length then
      match inst.cls.GetMethod method with
      | some m =>
        leaveFrame c.closure
          (ex m.body { c with closure := callClosure ref m.formal_params actual_args })
      | none => Result.ok (Flow.crash, c)
    else Result.ok (Flow.error ("Method " ++ method ++ " not found"), c)

/-- Library `operator<` of `std::string`: bytes compared as unsigned values, a proper prefix
being smaller. -/
def stringLess : List Nat → List Nat → Bool
  | [], [] => false
  | [], _ :: _ => true
  | _ :: _, [] => false
  | a :: as, b :: bs => if a < b then true else if b < a then false else stringLess as bs

/-- The conversion `.TryAs<Bool>()->GetValue()` of the result of `__eq__` or `__lt__`. -/
def asBool (r : Run Value) : Run Bool :=
  Run.bind r fun v c =>
    match v with
    | Value.Bool b => Result.ok (Flow.value b, c)
    | _ => Result.ok (Flow.crash, c)

/-- `Equal`. -/
def Equal (ex : Statement → Config → Run Value) (lhs rhs : Value) (c : Config) : Run Bool :=
  match lhs, rhs with
  | Value.Number a, Value.Number b => Result.ok (Flow.value (decide (a = b)), c)
  | Value.String a, Value.String b => Result.ok (Flow.value (decide (a = b)), c)
  | Value.Bool a, Value.Bool b => Result.ok (Flow.value (decide (a = b)), c)
  | Value.None, Value.None => Result.ok (Flow.value true, c)
  | Value.ClassInstance ref, _ =>
    match heapGet c.heap ref with
    | none => Result.ok (Flow.crash, c)
    | some inst =>
      if HasMethod inst.cls "__eq__" 1 then asBool (Call ex ref "__eq__" [rhs] c)
      else Result.ok (Flow.error "Cannot compare objects for equality", c)
  | _, _ => Result.ok (Flow.error "Cannot compare objects for equality", c)

/-- `Less`. -/
def Less (ex : Statement → Config → Run Value) (lhs rhs : Value) (c : Config) : Run Bool :=
  match lhs, rhs with
  | Value.Number a, Value.Number b => Result.ok (Flow.value (decide (a < b)), c)
  | Value.String a, Value.String b => Result.ok (Flow.value (stringLess a b), c)
  | Value.Bool a, Value.Bool b => Result.ok (Flow.value (!a && b), c)
  | Value.ClassInstance ref, _ =>
    match heapGet c.heap ref with
    | none => Result.ok (Flow.crash, c)
    | some inst =>
      if HasMethod inst.cls "__lt__" 1 then asBool (Call ex ref "__lt__" [rhs] c)
      else Result.ok (Flow.error "Cannot compare objects for less", c)
  | _, _ => Result.ok (Flow.error "Cannot compare objects for less", c)

/-- `NotEqual`. -/
def NotEqual (ex : Statement → Config → Run Value) (lhs rhs : Value) (c : Config) : Run Bool :=
  Run.bind (Equal ex lhs rhs c) fun b c1 => Result.ok (Flow.value (!b), c1)

/-- `Greater`: `!Less(lhs, rhs) && !Equal(lhs, rhs)`, where `Equal` is only called when
`Less` returned false. -/
def Greater (ex : Statement → Config → Run Value) (lhs rhs : Value) (c : Config) : Run Bool :=
  Run.bind (Less ex lhs rhs c) fun l c1 =>
    if l then Result.ok (Flow.value false, c1)
    else Run.bind (Equal ex lhs rhs c1) fun e c2 => Result.ok (Flow.value (!e), c2)

/-- `LessOrEqual`. -/
def LessOrEqual (ex : Statement → Config → Run Value) (lhs rhs : Value) (c : Config) :
    Run Bool :=
  Run.bind (Greater ex lhs rhs c) fun b c1 => Result.ok (Flow.value (!b), c1)

/-- `GreaterOrEqual`. -/
def GreaterOrEqual (ex : Statement → Config → Run Value) (lhs rhs : Value) (c : Config) :
    Run Bool :=
  Run.bind (Less ex lhs rhs c) fun b c1 => Result.ok (Flow.value (!b), c1)

/-- The function held by a `Comparison` node. -/
def Comparator.apply (cmp : Comparator) (ex : Statement → Config → Run Value)
    (lhs rhs : Value) (c : Config) : Run Bool :=
  match cmp with
  | Comparator.Equal => Mython.Equal ex lhs rhs c
  | Comparator.NotEqual => Mython.NotEqual ex lhs rhs c
  | Comparator.Less => Mython.Less ex lhs rhs c
  | Comparator.Greater => Mython.Greater ex lhs rhs c
  | Comparator.LessOrEqual => Mython.LessOrEqual ex lhs rhs c
  | Comparator.GreaterOrEqual => Mython.GreaterOrEqual ex lhs rhs c

/-- The virtual `Object::Print(os, context)`: the bytes written to `os`. They are written by
the last `Print` of the chain, the one that does not delegate to `__str__`, hence after
everything the calls of `__str__` write to the stream of the context. `Bool::Print` and
`Class::Print` are in `runtime.cpp`; modelled from the spec: `Number.print` writes the
decimal integer, `String.print` the raw bytes. Printing through an empty holder
dereferences a null pointer. -/
def printValue (ex : Statement → Config → Run Value) : Nat → Value → Config → Run (List Nat)
  | 0, _, _ => Result.fuel
  | fuel + 1, v, c =>
    match v with
    | Value.None => Result.ok (Flow.crash, c)
    | Value.Number n => Result.ok (Flow.value (decimal n), c)
    | Value.String s => Result.ok (Flow.value s, c)
    | Value.Bool b => Result.ok (Flow.value (if b then [84, 114, 117, 101]
        else [70, 97, 108, 115, 101]), c)
    | Value.Class (Class.mk name _ _) =>
      Result.ok (Flow.value ([67, 108, 97, 115, 115, 32] ++ bytesOf name), c)
    | Value.ClassInstance ref =>
      match heapGet c.heap ref with
      | none => Result.ok (Flow.crash, c)
      | some inst =>
        if HasMethod inst.cls "__str__" 0 then
          Run.bind (Call ex ref "__str__" [] c) fun r c1 => printValue ex fuel r c1
        else Result.ok (Flow.value (c.addr ref), c)

/-! ## Evaluator (`statement.cpp`) -/

/-- Evaluation of an argument list, left to right (`for (const auto &arg : args_)
... push_back(arg->Execute(closure, context))`). -/
def execArgs (ex : Statement → Config → Run Value) : List Statement → Config → Run (List Value)
  | [], c => Result.ok (Flow.value [], c)
  | a :: rest, c =>
    Run.bind (ex a c) fun v c1 =>
      Run.bind (execArgs ex rest c1) fun vs c2 => Result.ok (Flow.value (v :: vs), c2)

/-- The loop of `Compound::Execute`. -/
def execStatements (ex : Statement → Config → Run Value) : List Statement → Config → Run Unit
  | [], c => Result.ok (Flow.value (), c)
  | s :: rest, c => Run.bind (ex s c) fun _ c1 => execStatements ex rest c1

/-- The loop of `Print::Execute`; `delim` is empty for the first argument and a space for the
others. Each argument is evaluated when its turn to be printed has come. -/
def printArgs (ex : Statement → Config → Run Value) (pv : Value → Config → Run (List Nat)) :
    List Nat → List Statement → Config → Run Unit
  | _, [], c => Result.ok (Flow.value (), c)
  | delim, a :: rest, c =>
    Run.bind (ex a c) fun value c1 =>
      match value with
      | Value.None =>
        printArgs ex pv [32] rest
          { c1 with output := c1.output ++ delim ++ [78, 111, 110, 101] }
      | _ =>
        Run.bind (pv value { c1 with output := c1.output ++ delim }) fun bs c2 =>
          printArgs ex pv [32] rest { c2 with output := c2.output ++ bs }

/-- The part of `VariableValue::Execute` that follows the fields `id1 .. idN` from the value
of `id0`, for `N > 0`. The last step dereferences `TryAs<ClassInstance>()` unchecked. -/
def walkDotted (heap : List Instance) : Value → List String → Flow Value
  | obj, [] => Flow.value obj
  | obj, [last] =>
    match obj with
    | Value.ClassInstance ref =>
      match heapGet heap ref with
      | some inst =>
        match inst.fields.find last with
        | some v => Flow.value v
        | none => Flow.error "Cannot find class"
      | none => Flow.crash
    | _ => Flow.crash
  | obj, id :: rest =>
    match obj with
    | Value.ClassInstance ref =>
      match heapGet heap ref with
      | some inst =>
        match inst.fields.find id with
        | some v => walkDotted heap v rest
        | none => Flow.error "Cannot find class"
      | none => Flow.crash
    | _ => Flow.error "Cannot find class"

/-- `VariableValue::Execute`. -/
def execVariableValue (dotted_ids : List String) (c : Config) : Run Value :=
  match dotted_ids with
  | [] => Result.ok (Flow.error "Dotted ids cannot by empty", c)
  | id0 :: rest =>
    match c.closure.find id0 with
    | none => Result.ok (Flow.error "Cannot find class", c)
    | some obj =>
      match rest with
      | [] => Result.ok (Flow.value obj, c)
      | _ => Result.ok (walkDotted c.heap obj rest, c)

/-- Result of an arithmetic node on two evaluated operands that are not handled by
`__add__`: `op` is applied to two numbers (the result is converted to `int`), otherwise
the error `what` is thrown. -/
def arith (op : Int → Int → Int) (what : String) (lhs rhs : Value) (c : Config) : Run Value :=
  match lhs, rhs with
  | Value.Number a, Value.Number b => Result.ok (Flow.value (Value.Number (toInt32 (op a b))), c)
  | _, _ => Result.ok (Flow.error what, c)

/-- `Execute` of every node class of `statement.cpp`. `ext` gives the `Execute` of the node
classes defined elsewhere. One unit of fuel is used per nested `Execute`. -/
def Execute (ext : Nat → Config → Run Value) : Nat → Statement → Config → Run Value
  | 0, _, _ => Result.fuel
  | fuel + 1, s, c =>
    match s with
    | Statement.VariableValue dotted_ids => execVariableValue dotted_ids c
    | Statement.Assignment var rv =>
      Run.bind (Execute ext fuel rv c) fun v c1 =>
        Result.ok (Flow.value v, { c1 with closure := c1.closure.set var v })
    | Statement.FieldAssignment object field_name rv =>
      Run.bind (execVariableValue object c) fun o c1 =>
        match o with
        | Value.ClassInstance ref =>
          Run.bind (Execute ext fuel rv c1) fun v c2 =>
            match heapGet c2.heap ref with
            | some inst =>
              Result.ok (Flow.value v,
                { c2 with heap := heapSetFields c2.heap ref (inst.fields.set field_name v) })
            | none => Result.ok (Flow.crash, c2)
        | _ => Result.ok (Flow.error "Cannot find class", c1)
    | Statement.Print args =>
      Run.bind (printArgs (Execute ext fuel) (printValue (Execute ext fuel) fuel) [] args c)
        fun _ c1 => Result.ok (Flow.value Value.None, { c1 with output := c1.output ++ [10] })
    | Statement.MethodCall object method args =>
      Run.bind (execArgs (Execute ext fuel) args c) fun object_args c1 =>
        Run.bind (Execute ext fuel object c1) fun o c2 =>
          match o with
          | Value.ClassInstance ref => Call (Execute ext fuel) ref method object_args c2
          | _ => Result.ok (Flow.error "Cannot find class", c2)
    | Statement.Stringify arg =>
      Run.bind (Execute ext fuel arg c) fun obj c1 =>
        match obj with
        | Value.None => Result.ok (Flow.value (Value.String [78, 111, 110, 101]), c1)
        | _ =>
          Run.bind (printValue (Execute ext fuel) fuel obj c1) fun bs c2 =>
            Result.ok (Flow.value (Value.String bs), c2)
    | Statement.Add lhs rhs =>
      Run.bind (Execute ext fuel lhs c) fun obj_lhs c1 =>
        Run.bind (Execute ext fuel rhs c1) fun obj_rhs c2 =>
          match obj_lhs, obj_rhs with
          | Value.ClassInstance ref, _ => Call (Execute ext fuel) ref "__add__" [obj_rhs] c2
          | Value.Number a, Value.Number b =>
            Result.ok (Flow.value (Value.Number (toInt32 (a + b))), c2)
          | Value.String a, Value.String b => Result.ok (Flow.value (Value.String (a ++ b)), c2)
          | _, _ => Result.ok (Flow.error "Cannot sum objects", c2)
    | Statement.Sub lhs rhs =>
      Run.bind (Execute ext fuel lhs c) fun obj_lhs c1 =>
        Run.bind (Execute ext fuel rhs c1) fun obj_rhs c2 =>
          arith (fun a b => a - b) "Cannot sub objects" obj_lhs obj_rhs c2
    | Statement.Mult lhs rhs =>
      Run.bind (Execute ext fuel lhs c) fun obj_lhs c1 =>
        Run.bind (Execute ext fuel rhs c1) fun obj_rhs c2 =>
          arith (fun a b => a * b) "Cannot multiply objects" obj_lhs obj_rhs c2
    | Statement.Div lhs rhs =>
      Run.bind (Execute ext fuel lhs c) fun obj_lhs c1 =>
        Run.bind (Execute ext fuel rhs c1) fun obj_rhs c2 =>
          match obj_lhs, obj_rhs with
          | Value.Number a, Value.Number b =>
            if b = 0 then Result.ok (Flow.error "division by zero", c2)
            else Result.ok (Flow.value (Value.Number (toInt32 (Int.tdiv a b))), c2)
          | _, _ => Result.ok (Flow.error "Cannot division objects", c2)
    | Statement.Compound statements =>
      Run.bind (execStatements (Execute ext fuel) statements c) fun _ c1 =>
        Result.ok (Flow.value Value.None, c1)
    | Statement.Return statement =>
      Run.bind (Execute ext fuel statement c) fun v c1 => Result.ok (Flow.returned v, c1)
    | Statement.ClassDefinition (Class.mk name methods parent) =>
      Result.ok (Flow.value (Value.Class (Class.mk name methods parent)),
        { c with closure := c.closure.set name (Value.Class (Class.mk name methods parent)) })
    | Statement.IfElse condition if_body else_body =>
      Run.bind (Execute ext fuel condition c) fun t c1 =>
        if IsTrue t then Execute ext fuel if_body c1
        else
          match else_body with
          | some e => Execute ext fuel e c1
          | none => Result.ok (Flow.value Value.None, c1)
    | Statement.Or lhs rhs =>
      Run.bind (Execute ext fuel lhs c) fun l c1 =>
        if IsTrue l then Result.ok (Flow.value (Value.Bool true), c1)
        else
          Run.bind (Execute ext fuel rhs c1) fun r c2 =>
            Result.ok (Flow.value (Value.Bool (IsTrue r)), c2)
    | Statement.And lhs rhs =>
      Run.bind (Execute ext fuel lhs c) fun l c1 =>
        if IsTrue l then
          Run.bind (Execute ext fuel rhs c1) fun r c2 =>
            Result.ok (Flow.value (Value.Bool (IsTrue r)), c2)
        else Result.ok (Flow.value (Value.Bool false), c1)
    | Statement.Not arg =>
      Run.bind (Execute ext fuel arg c) fun a c1 =>
        Result.ok (Flow.value (Value.Bool (!IsTrue a)), c1)
    | Statement.Comparison cmp lhs rhs =>
      -- the operands are the arguments of one call of `cmp_`; the order in which a compiler
      -- evaluates them is not fixed by the language, `lhs` comes first here
      Run.bind (Execute ext fuel lhs c) fun l c1 =>
        Run.bind (Execute ext fuel rhs c1) fun r c2 =>
          Run.bind (cmp.apply (Execute ext fuel) l r c2) fun b c3 =>
            Result.ok (Flow.value (Value.Bool b), c3)
    | Statement.NewInstance cls args =>
      if HasMethod cls "__init__" args.length then
        Run.bind (execArgs (Execute ext fuel) args
            { c with heap := c.heap ++ [{ cls := cls, fields := [] }] }) fun new_args c1 =>
          Run.bind (Call (Execute ext fuel) c.heap.length "__init__" new_args c1) fun _ c2 =>
            Result.ok (Flow.value (Value.ClassInstance c.heap.length), c2)
      else
        Result.ok (Flow.value (Value.ClassInstance c.heap.length),
          { c with heap := c.heap ++ [{ cls := cls, fields := [] }] })
    | Statement.MethodBody body =>
      match Execute ext fuel body c with
      | Result.ok (Flow.returned v, c1) => Result.ok (Flow.value v, c1)
      | r => r
    | Statement.Extern id => ext id c

/-! ## Reference functions for the object model claims -/

/-- Exactly one of three booleans is true. -/
def exactlyOne (x y z : Bool) : Bool :=
  (x && !y && !z) || (!x && y && !z) || (!x && !y && z)

/-- What `Print([x])` does, given what `Stringify(x)` does from the same state: after a
`String` result its bytes and a newline are written to the output and the empty holder is
returned; any other end (an exception, for instance) is the same for both. -/
def printAfterStringify : Run Value → Run Value
  | Result.ok (Flow.value (Value.String bs), c) =>
    Result.ok (Flow.value Value.None, { c with output := c.output ++ bs ++ [10] })
  | r => r

/-- How a run ended and what the output stream holds then. -/
def Run.summary (r : Run Value) : Option (Flow Value × List Nat) :=
  match r with
  | Result.ok (f, c) => some (f, c.output)
  | _ => none

/-- No node of a class defined elsewhere occurs: such a node, if met, ends the run. -/
def noExtern : Nat → Config → Run Value := fun _ c => Result.ok (Flow.crash, c)

/-- A class whose `__str__` prints the field `t` of the instance and returns its field `r`. -/
def chattyClass : Class Statement :=
  Class.mk "S"
    [{ name := "__str__", formal_params := [],
       body := Statement.MethodBody (Statement.Compound
         [Statement.Print [Statement.VariableValue ["self", "t"]],
          Statement.Return (Statement.VariableValue ["self", "r"])]) }]
    none

/-- A state in which `p` names an instance of `chattyClass` with `t = "x"` and `r = "hi"`, and
`a` names the number 1; nothing has been written yet. -/
def chattyConfig : Config :=
  { closure := [("p", Value.ClassInstance 0), ("a", Value.Number 1)],
    heap := [{ cls := chattyClass,
               fields := [("t", Value.String [120]), ("r", Value.String [104, 105])] }],
    output := [],
    addr := fun _ => [] }

/-- A state in which `m`, `d` and `z` name the numbers -7, 2 and 0, `s` names the string
`hi` and `n` names the empty holder; nothing has been written yet. -/
def plainConfig : Config :=
  { closure := [("m", Value.Number (-7)), ("d", Value.Number 2), ("z", Value.Number 0),
                ("s", Value.String [104, 105]), ("n", Value.None)],
    heap := [],
    output := [],
    addr := fun _ => [] }

/-- A class with two methods: `f` returns the field `r` from inside an `if` and has
statements after the `return`; `g` calls `f`, prints the field `t`, returns it, and has a
statement after the `return`. -/
def earlyClass : Class Statement :=
  Class.mk "E"
    [{ name := "f", formal_params := [],
       body := Statement.MethodBody (Statement.Compound
         [Statement.IfElse (Statement.VariableValue ["self", "r"])
            (Statement.Compound
              [Statement.Return (Statement.VariableValue ["self", "r"]),
               Statement.Print [Statement.VariableValue ["self", "r"]]])
            none,
          Statement.Print [Statement.VariableValue ["self", "r"]]]) },
     { name := "g", formal_params := [],
       body := Statement.MethodBody (Statement.Compound
         [Statement.MethodCall (Statement.VariableValue ["self"]) "f" [],
          Statement.Print [Statement.VariableValue ["self", "t"]],
          Statement.Return (Statement.VariableValue ["self", "t"]),
          Statement.Print [Statement.VariableValue ["self", "r"]]]) }]
    none

/-- A state in which `p` names an instance of `earlyClass` with `t = "x"` and `r = "hi"`;
nothing has been written yet. -/
def earlyConfig : Config :=
  { closure := [("p", Value.ClassInstance 0)],
    heap := [{ cls := earlyClass,
               fields := [("t", Value.String [120]), ("r", Value.String [104, 105])] }],
    output := [],
    addr := fun _ => [] }

/-- A class whose method `f` has one formal parameter, called `self`, and evaluates `self`. -/
def selfClass : Class Statement :=
  Class.mk "A"
    [{ name := "f", formal_params := ["self"], body := Statement.VariableValue ["self"] }]
    none

/-- A state whose only object is an instance of `selfClass`. -/
def selfConfig : Config :=
  { closure := [], heap := [{ cls := selfClass, fields := [] }], output := [],
    addr := fun _ => [] }

/-! ## Instances kept by a run -/

/-- The state with a new instance of `cls`, without fields, added to the heap. -/
def withNewInstance (c : Config) (cls : Class Statement) : Config :=
  { c with heap := c.heap ++ [{ cls := cls, fields := [] }] }

/-- Every instance of the heap `h` is still in the heap `h1`, at the same place and with
the same class. -/
def HeapKeeps (h h1 : List Instance) : Prop :=
  ∀ i inst, heapGet h i = some inst → ∃ inst1, heapGet h1 i = some inst1 ∧ inst1.cls = inst.cls

/-- A run that, when it ends, has kept every instance of the heap `h`. -/
def Run.Keeps {α : Type} (h : List Instance) (r : Run α) : Prop :=
  ∀ f c1, r = Result.ok (f, c1) → HeapKeeps h c1.heap

/-- The nodes of classes defined elsewhere keep the instances of the heap. -/
def ExternKeeps (ext : Nat → Config → Run Value) : Prop :=
  ∀ id c, Run.Keeps c.heap (ext id c)

/-! ## Sample classes -/

/-- A class without methods. -/
def bareClass : Class Statement := Class.mk "B" [] none

/-- A class whose `__init__` takes one argument and stores it in the field `v` of the new
instance. -/
def initClass : Class Statement :=
  Class.mk "I"
    [{ name := "__init__", formal_params := ["a"],
       body := Statement.MethodBody
         (Statement.FieldAssignment ["self"] "v" (Statement.VariableValue ["a"])) }]
    none

/-- A class without methods whose parent is `initClass`. -/
def midClass : Class Statement := Class.mk "M" [] (some initClass)

/-- A class without methods whose parent is `midClass`, so that `initClass` is the parent
of its parent. -/
def leafClass : Class Statement := Class.mk "L" [] (some midClass)

/-! ## Theorems -/

/-- C1: on the input `a`, newline, four spaces, `b`, newline, the lexer returns two `Indent`
but only one `Dedent` before `Eof`, so the balance of the whole sequence is 1 while the
previous level held at `Eof` is 0. -/
theorem C1_dedent_lost_at_eof :
    tokensAndLevel (tokenize 50 [97, 10, 32, 32, 32, 32, 98, 10])
      = Result.ok ([Token.Id [97], Token.Newline, Token.Indent, Token.Indent, Token.Id [98],
          Token.Newline, Token.Dedent, Token.Eof], 0)
    ∧ indentBalance [Token.Id [97], Token.Newline, Token.Indent, Token.Indent, Token.Id [98],
          Token.Newline, Token.Dedent, Token.Eof] = 1 := by
  constructor
  · rfl
  · decide

/-- C2: on the input `a`, newline, `# c`, newline, two spaces, `b`, newline, the line of `b`
starts with two spaces while the previous level is 0, yet no `Indent` is returned before
`Id b` and the previous level stays 0. -/
theorem C2_no_indent_after_comment_line :
    tokensAndLevel (tokenize 50 [97, 10, 35, 32, 99, 10, 32, 32, 98, 10])
      = Result.ok ([Token.Id [97], Token.Newline, Token.Id [98], Token.Newline, Token.Eof], 0) := by
  rfl

/-- C3: inserting a line of two spaces between the lines `a` and `b` changes the token
sequence (the inserted line yields `Indent`, `Newline` and `Dedent`), and so does inserting
the comment line `# c` between two lines indented by two spaces (it yields `Dedent`,
`Newline` and `Indent`). -/
theorem C3_blank_line_changes_tokens :
    tokensAndLevel (tokenize 50 [97, 10, 98, 10])
      = Result.ok ([Token.Id [97], Token.Newline, Token.Id [98], Token.Newline, Token.Eof], 0)
    ∧ tokensAndLevel (tokenize 50 [97, 10, 32, 32, 10, 98, 10])
      = Result.ok ([Token.Id [97], Token.Newline, Token.Indent, Token.Newline, Token.Dedent,
          Token.Id [98], Token.Newline, Token.Eof], 0)
    ∧ tokensAndLevel (tokenize 50 [32, 32, 97, 10, 32, 32, 98, 10])
      = Result.ok ([Token.Indent, Token.Id [97], Token.Newline, Token.Id [98], Token.Newline,
          Token.Dedent, Token.Eof], 0)
    ∧ tokensAndLevel (tokenize 50 [32, 32, 97, 10, 35, 32, 99, 10, 32, 32, 98, 10])
      = Result.ok ([Token.Indent, Token.Id [97], Token.Newline, Token.Dedent, Token.Newline,
          Token.Indent, Token.Id [98], Token.Newline, Token.Dedent, Token.Eof], 0) := by
  refine ⟨?_, ?_, ?_, ?_⟩ <;> rfl

/-- C4: on the one-line input `a # c` followed by a newline, the lexer returns `Id a` and
then `Eof`, with no `Newline` after the last content token; the same line without the
comment, and the same line followed by another line, do get their `Newline`. -/
theorem C4_no_newline_after_last_line_comment :
    tokensAndLevel (tokenize 50 [97, 32, 35, 32, 99, 10])
      = Result.ok ([Token.Id [97], Token.Eof], 0)
    ∧ tokensAndLevel (tokenize 50 [97, 10])
      = Result.ok ([Token.Id [97], Token.Newline, Token.Eof], 0)
    ∧ tokensAndLevel (tokenize 50 [97, 32, 35, 32, 99, 10, 98, 10])
      = Result.ok ([Token.Id [97], Token.Newline, Token.Id [98], Token.Newline, Token.Eof], 0) := by
  refine ⟨?_, ?_, ?_⟩ <;> rfl

/-- C5: where the claim fails. The input `a` followed by one space ends in a final line
that has content and no newline, yet the lexer returns `Id a` and then `Eof`, without any
`Newline`; the input `a` alone gets its `Newline` from the same code after the token
loop. -/
theorem C5_no_newline_after_trailing_space :
    tokensAndLevel (tokenize 50 [97, 32]) = Result.ok ([Token.Id [97], Token.Eof], 0)
    ∧ Token.Newline ∉ [Token.Id [97], Token.Eof]
    ∧ tokensAndLevel (tokenize 50 [97])
      = Result.ok ([Token.Id [97], Token.Newline, Token.Eof], 0) := by
  refine ⟨?_, ?_, ?_⟩
  · rfl
  · decide
  · rfl

/-- C8 (counterexample): for the literal `"\\n"` (quote, backslash, backslash, `n`, quote)
the lexer returns the value backslash, line feed; reading the body as two-byte escapes gives
a value that ends in the byte `n`, whether or not the backslash of an unrecognised escape
is kept. -/
theorem C8_backslash_rescanned_counterexample :
    tokensAndLevel (tokenize 50 [34, 92, 92, 110, 34])
      = Result.ok ([Token.String [92, 10], Token.Newline, Token.Eof], 0)
    ∧ unescapePairs false [92, 92, 110] = [92, 110]
    ∧ unescapePairs true [92, 92, 110] = [92, 92, 110]
    ∧ [92, 10] ≠ unescapePairs false [92, 92, 110]
    ∧ [92, 10] ≠ unescapePairs true [92, 92, 110] := by
  refine ⟨?_, ?_, ?_, ?_, ?_⟩
  · rfl
  · rfl
  · rfl
  · decide
  · decide

/-- C10: with a class `C` whose parent `B` has the parent `A`, and a method `f` defined only
in `A`, `GetMethod` finds `f` from `B` but returns null from `C`, although the search up the
whole chain finds it. -/
theorem C10_grandparent_method_not_found :
    (Class.mk "C" [] (some (Class.mk "B" [] (some (Class.mk "A" [⟨"f", [], ()⟩] none))))).GetMethod "f"
      = none
    ∧ (Class.mk "B" [] (some (Class.mk "A" [⟨"f", [], ()⟩] none))).GetMethod "f"
      = some ⟨"f", [], ()⟩
    ∧ (Class.mk "C" [] (some (Class.mk "B" [] (some (Class.mk "A" [⟨"f", [], ()⟩] none))))).resolve "f"
      = some ⟨"f", [], ()⟩ := by
  decide


/-! ### Stream primitives on a good stream -/

theorem consValue_eq_some {c : Nat} {o : Option (List Nat × List Nat)} {v tail : List Nat}
    (h : consValue c o = some (v, tail)) : ∃ v1, o = some (v1, tail) ∧ v = c :: v1 := by
  cases o with
  | none => simp [consValue] at h
  | some p =>
    obtain ⟨v1, t1⟩ := p
    simp only [consValue, Option.some.injEq, Prod.mk.injEq] at h
    exact ⟨v1, by rw [h.2], h.1.symm⟩

theorem GetStringLoop_scan (q : Nat) (hq : q = 34 ∨ q = 39) :
    ∀ (fuel : Nat) (r b acc v tail : List Nat),
      scanString q r = some (v, tail) → r.length < fuel →
      ∃ b1, GetStringLoop fuel q ⟨b, r, false, false, false⟩ acc
        = Result.ok (acc ++ v, ⟨b1, q :: tail, false, false, false⟩) := by
  have hq128 : q < 128 := by rcases hq with h | h <;> omega
  intro fuel
  induction fuel with
  | zero => intro r b acc v tail _ hlen; omega
  | succ n ih =>
    intro r b acc v tail hscan hlen
    match r, hscan, hlen with
    | [], hscan, _ => simp [scanString] at hscan
    | [c], hscan, _ =>
      by_cases hc : c = q
      · subst hc
        simp [scanString] at hscan
        obtain ⟨rfl, rfl⟩ := hscan
        exact ⟨b, by simp [GetStringLoop, IStream.peek, IStream.good, eqIntChar, hq128]⟩
      · simp [scanString, hc] at hscan
    | c :: e :: r1, hscan, hlen =>
      simp only [List.length_cons] at hlen
      by_cases hc : c = q
      · subst hc
        simp [scanString] at hscan
        obtain ⟨rfl, rfl⟩ := hscan
        exact ⟨b, by simp [GetStringLoop, IStream.peek, IStream.good, eqIntChar, hq128]⟩
      · by_cases h92 : c = 92
        · subst h92
          by_cases h1 : e = 110
          · subst h1
            simp [scanString, hc] at hscan
            obtain ⟨v1, hv1, rfl⟩ := consValue_eq_some hscan
            obtain ⟨b1, hb1⟩ := ih r1 (110 :: 92 :: b) (acc ++ [10]) v1 tail hv1 (by omega)
            exact ⟨b1, by simp [GetStringLoop, IStream.peek, IStream.get, IStream.good, eqIntChar, toChar, hc, hb1, Ne.symm hc]⟩
          · by_cases h2 : e = 116
            · subst h2
              simp [scanString, hc] at hscan
              obtain ⟨v1, hv1, rfl⟩ := consValue_eq_some hscan
              obtain ⟨b1, hb1⟩ := ih r1 (116 :: 92 :: b) (acc ++ [9]) v1 tail hv1 (by omega)
              exact ⟨b1, by simp [GetStringLoop, IStream.peek, IStream.get, IStream.good, eqIntChar, toChar, hc, hb1, Ne.symm hc]⟩
            · by_cases h3 : e = 34
              · subst h3
                simp [scanString, hc] at hscan
                obtain ⟨v1, hv1, rfl⟩ := consValue_eq_some hscan
                obtain ⟨b1, hb1⟩ := ih r1 (34 :: 92 :: b) (acc ++ [34]) v1 tail hv1 (by omega)
                exact ⟨b1, by simp [GetStringLoop, IStream.peek, IStream.get, IStream.good, eqIntChar, toChar, hc, hb1, Ne.symm hc]⟩
              · by_cases h4 : e = 39
                · subst h4
                  simp [scanString, hc] at hscan
                  obtain ⟨v1, hv1, rfl⟩ := consValue_eq_some hscan
                  obtain ⟨b1, hb1⟩ := ih r1 (39 :: 92 :: b) (acc ++ [39]) v1 tail hv1 (by omega)
                  exact ⟨b1, by simp [GetStringLoop, IStream.peek, IStream.get, IStream.good, eqIntChar, toChar, hc, hb1, Ne.symm hc]⟩
                · simp [scanString, hc, h1, h2, h3, h4] at hscan
                  obtain ⟨v1, hv1, rfl⟩ := consValue_eq_some hscan
                  obtain ⟨b1, hb1⟩ := ih (e :: r1) (92 :: b) (acc ++ [92]) v1 tail hv1
                    (by simp only [List.length_cons]; omega)
                  exact ⟨b1, by simp [GetStringLoop, IStream.peek, IStream.get, IStream.unget, IStream.good, eqIntChar, toChar, hc, hb1, Ne.symm hc, h1, h2, h3, h4]⟩
        · simp [scanString, hc, h92] at hscan
          obtain ⟨v1, hv1, rfl⟩ := consValue_eq_some hscan
          obtain ⟨b1, hb1⟩ := ih (e :: r1) (c :: b) (acc ++ [c]) v1 tail hv1
            (by simp only [List.length_cons]; omega)
          exact ⟨b1, by simp [GetStringLoop, IStream.peek, IStream.get, IStream.good, eqIntChar, toChar, hb1, hc, h92]⟩

theorem consValue_eq_none {c : Nat} {o : Option (List Nat × List Nat)}
    (h : consValue c o = none) : o = none := by
  cases o with
  | none => rfl
  | some p => obtain ⟨v1, t1⟩ := p; simp [consValue] at h

theorem GetStringLoop_stuck (q : Nat) (hq : q = 34 ∨ q = 39) :
    ∀ (fuel : Nat) (s : IStream) (acc : List Nat), s.good = false →
      GetStringLoop fuel q s acc = Result.fuel := by
  have hq255 : q ≠ 255 := by rcases hq with h | h <;> omega
  intro fuel
  induction fuel with
  | zero => intro s acc _; rfl
  | succ n ih =>
    intro s acc hs
    have h1 : ({ s with failbit := true } : IStream).good = false := by simp [IStream.good]
    simp [GetStringLoop, IStream.peek, IStream.get, hs, h1, eqIntChar, hq255, toChar]
    exact ih _ _ (by simp [IStream.good])

theorem GetStringLoop_unterminated (q : Nat) (hq : q = 34 ∨ q = 39) :
    ∀ (fuel : Nat) (r b acc : List Nat), scanString q r = none →
      GetStringLoop fuel q ⟨b, r, false, false, false⟩ acc = Result.fuel := by
  have hq255 : q ≠ 255 := by rcases hq with h | h <;> omega
  intro fuel
  induction fuel with
  | zero => intro r b acc _; rfl
  | succ n ih =>
    intro r b acc hscan
    match r, hscan with
    | [], _ =>
      simp [GetStringLoop, IStream.peek, IStream.get, IStream.good, eqIntChar, hq255, toChar]
      exact GetStringLoop_stuck q hq n _ _ (by simp [IStream.good])
    | [c], hscan =>
      have hc : c ≠ q := by
        intro h; simp [scanString, h] at hscan
      by_cases h92 : c = 92
      · subst h92
        simp [GetStringLoop, IStream.peek, IStream.get, IStream.unget, IStream.good, eqIntChar,
          hc, toChar]
        exact GetStringLoop_stuck q hq n _ _ (by simp [IStream.good])
      · simp [GetStringLoop, IStream.peek, IStream.get, IStream.good, eqIntChar, hc, toChar, h92]
        exact ih [] _ _ (by simp [scanString])
    | c :: e :: r1, hscan =>
      by_cases hc : c = q
      · simp [scanString, hc] at hscan
      · by_cases h92 : c = 92
        · subst h92
          by_cases h1 : e = 110
          · subst h1
            simp [scanString, hc] at hscan
            simp [GetStringLoop, IStream.peek, IStream.get, IStream.good, eqIntChar, hc, toChar]
            exact ih r1 _ _ (consValue_eq_none hscan)
          · by_cases h2 : e = 116
            · subst h2
              simp [scanString, hc] at hscan
              simp [GetStringLoop, IStream.peek, IStream.get, IStream.good, eqIntChar, hc, toChar]
              exact ih r1 _ _ (consValue_eq_none hscan)
            · by_cases h3 : e = 34
              · subst h3
                simp [scanString, hc] at hscan
                simp [GetStringLoop, IStream.peek, IStream.get, IStream.good, eqIntChar, hc, toChar]
                exact ih r1 _ _ (consValue_eq_none hscan)
              · by_cases h4 : e = 39
                · subst h4
                  simp [scanString, hc] at hscan
                  simp [GetStringLoop, IStream.peek, IStream.get, IStream.good, eqIntChar, hc,
                    toChar]
                  exact ih r1 _ _ (consValue_eq_none hscan)
                · simp [scanString, hc, h1, h2, h3, h4] at hscan
                  simp [GetStringLoop, IStream.peek, IStream.get, IStream.unget, IStream.good,
                    eqIntChar, hc, toChar, h1, h2, h3, h4]
                  exact ih (e :: r1) _ _ (consValue_eq_none hscan)
        · simp [scanString, hc, h92] at hscan
          simp [GetStringLoop, IStream.peek, IStream.get, IStream.good, eqIntChar, hc, toChar, h92]
          exact ih (e :: r1) _ _ (consValue_eq_none hscan)

/-- C9: on the input `"abc` (an opening quote and no closing quote) the lexer never
returns: whatever the number of loop iterations allowed, the loop of `GetString` is still
running, so no token is produced and no `LexerError` is raised. -/
theorem C9_unterminated_string_never_returns (fuel : Nat) :
    tokenize fuel [34, 97, 98, 99] = Result.fuel := by
  cases fuel with
  | zero => rfl
  | succ n =>
    have h := GetStringLoop_unterminated 34 (Or.inl rfl) n [97, 98, 99] [34] [] (by decide)
    simp [tokenize, Lexer.new, GetNextToken, IStream.ofBytes, IStream.toBool, IgnoreEmptyLines,
      IStream.peek, IStream.good, GetIndent, GetIndentLevel, countSpaces, toInt32, toSizeT,
      GetNextTokenBody, GetNextTokenLoop, toChar, ispunct, onInput, GetString, IStream.get, h]

/-! ### Stream invariants -/

theorem WF_peek {s : IStream} (h : s.WF) : (s.peek).2.WF := by
  rcases s with ⟨b, r, e, f, bd⟩
  cases e <;> cases f <;> cases bd <;> cases r <;> simp_all [IStream.WF, IStream.peek, IStream.good]

theorem WF_get {s : IStream} (h : s.WF) : (s.get).2.WF := by
  rcases s with ⟨b, r, e, f, bd⟩
  cases e <;> cases f <;> cases bd <;> cases r <;> simp_all [IStream.WF, IStream.get, IStream.good]

theorem WF_unget (s : IStream) : s.unget.WF := by
  rcases s with ⟨b, r, e, f, bd⟩
  cases f <;> cases bd <;> cases b <;> simp [IStream.WF, IStream.unget]

theorem WF_clear_unget_get (s : IStream) : (s.clear.unget.get).2.WF := WF_get (WF_unget _)

theorem skipLine_eof (d : Nat) : ∀ (r b : List Nat), (IStream.skipLine d b r).2.2 = true →
    (IStream.skipLine d b r).2.1 = [] := by
  intro r
  induction r with
  | nil => intro b _; rfl
  | cons c r ih =>
    intro b h
    by_cases hc : c = d
    · simp [IStream.skipLine, hc] at h
    · simp only [IStream.skipLine, hc, if_false] at h ⊢
      exact ih _ h

theorem WF_ignore {s : IStream} (d : Nat) (h : s.WF) : (s.ignore d).WF := by
  unfold IStream.ignore
  by_cases hg : s.good = true
  · simp only [hg, if_true]
    intro he
    exact skipLine_eof d s.rest s.before he
  · simp only [hg]
    exact h

theorem digitRun_rest_nil : ∀ (r b : List Nat) (acc : Nat),
    (IStream.digitRun b r acc).2.1.isEmpty = true → (IStream.digitRun b r acc).2.1 = [] := by
  intro r b acc h
  exact List.isEmpty_iff.mp h

theorem WF_extractInt {s : IStream} (h : s.WF) : (s.extractInt).2.WF := by
  unfold IStream.extractInt
  by_cases hg : s.good = true
  · simp only [hg, if_true]
    cases hr : s.rest with
    | nil => simp [IStream.WF, hr]
    | cons c r =>
      simp only
      by_cases hd : isdigit c = true
      · simp only [hd, if_true]
        split_ifs
        · intro he; exact List.isEmpty_iff.mp he
        · intro he; exact List.isEmpty_iff.mp he
      · simp only [hd]
        intro he
        have := h he
        simp [hr] at this
  · simp only [hg]
    exact h

theorem Settled_of_WF_toBool {s : IStream} (h : s.WF) (hb : s.toBool = true) : s.Settled := by
  rcases s with ⟨b, r, e, f, bd⟩
  cases e <;> cases f <;> cases bd <;> simp_all [IStream.WF, IStream.Settled, IStream.good, IStream.toBool]

theorem WF_of_Settled {s : IStream} (h : s.Settled) : s.WF := by
  rcases s with ⟨b, r, e, f, bd⟩
  cases e <;> cases f <;> cases bd <;> simp_all [IStream.WF, IStream.Settled, IStream.good]

theorem Settled_peek {s : IStream} (h : s.Settled) : (s.peek).2.Settled := by
  rcases s with ⟨b, r, e, f, bd⟩
  cases e <;> cases f <;> cases bd <;> cases r <;>
    simp_all [IStream.Settled, IStream.peek, IStream.good]

theorem Settled_get {s : IStream} (h : s.Settled) : (s.get).2.Settled := by
  rcases s with ⟨b, r, e, f, bd⟩
  cases e <;> cases f <;> cases bd <;> cases r <;>
    simp_all [IStream.Settled, IStream.get, IStream.good]

theorem Settled_ignore {s : IStream} (d : Nat) (h : s.Settled) : (s.ignore d).Settled := by
  unfold IStream.ignore
  by_cases hg : s.good = true
  · simp only [hg, if_true]
    intro hn
    have he : (IStream.skipLine d s.before s.rest).2.2 = true := by
      rcases s with ⟨b, r, e, f, bd⟩
      cases f <;> cases bd <;> simp_all [IStream.good]
    exact skipLine_eof d s.rest s.before he
  · simp only [hg]
    intro _
    have : s.good = false := by simpa using hg
    exact h this

theorem IgnoreEmptyLines_Settled : ∀ (fuel : Nat) (s s1 : IStream), s.Settled →
    IgnoreEmptyLines fuel s = Result.ok s1 → s1.Settled := by
  intro fuel
  induction fuel with
  | zero => intro s s1 _ h; simp [IgnoreEmptyLines] at h
  | succ n ih =>
    intro s s1 hs h
    simp only [IgnoreEmptyLines] at h
    split_ifs at h
    · exact ih _ _ (Settled_get (Settled_peek hs)) h
    · simp only [Result.ok.injEq] at h
      subst h
      exact Settled_peek hs

theorem IgnoreEmptyLines_WF : ∀ (fuel : Nat) (s s1 : IStream), s.WF →
    IgnoreEmptyLines fuel s = Result.ok s1 → s1.WF := by
  intro fuel
  induction fuel with
  | zero => intro s s1 _ h; simp [IgnoreEmptyLines] at h
  | succ n ih =>
    intro s s1 hs h
    simp only [IgnoreEmptyLines] at h
    split_ifs at h
    · exact ih _ _ (WF_get (WF_peek hs)) h
    · simp only [Result.ok.injEq] at h
      subst h
      exact WF_peek hs

theorem countSpaces_Settled : ∀ (fuel : Nat) (s s1 : IStream) (k k1 : Nat), s.Settled →
    countSpaces fuel s k = Result.ok (k1, s1) → s1.Settled := by
  intro fuel
  induction fuel with
  | zero => intro s s1 k k1 _ h; simp [countSpaces] at h
  | succ n ih =>
    intro s s1 k k1 hs h
    simp only [countSpaces] at h
    split_ifs at h
    · exact ih _ _ _ _ (Settled_get (Settled_peek hs)) h
    · simp only [Result.ok.injEq, Prod.mk.injEq] at h
      rw [← h.2]
      exact Settled_peek hs

theorem GetIdLoop_WF : ∀ (fuel : Nat) (s s1 : IStream) (w w1 : List Nat), s.WF →
    GetIdLoop fuel s w = Result.ok (w1, s1) → s1.WF := by
  intro fuel
  induction fuel with
  | zero => intro s s1 w w1 _ h; simp [GetIdLoop] at h
  | succ n ih =>
    intro s s1 w w1 hs h
    simp only [GetIdLoop] at h
    split_ifs at h
    · simp only [Result.ok.injEq, Prod.mk.injEq] at h
      rw [← h.2]; exact WF_peek hs
    · simp only [Result.ok.injEq, Prod.mk.injEq] at h
      rw [← h.2]; exact WF_peek (WF_peek hs)
    · exact ih _ _ _ _ (WF_get (WF_peek (WF_peek hs))) h

theorem GetStringLoop_WF : ∀ (fuel q : Nat) (s s1 : IStream) (w w1 : List Nat), s.WF →
    GetStringLoop fuel q s w = Result.ok (w1, s1) → s1.WF := by
  intro fuel
  induction fuel with
  | zero => intro q s s1 w w1 _ h; simp [GetStringLoop] at h
  | succ n ih =>
    intro q s s1 w w1 hs h
    simp only [GetStringLoop] at h
    split_ifs at h
    · simp only [Result.ok.injEq, Prod.mk.injEq] at h
      rw [← h.2]; exact WF_peek hs
    · exact ih _ _ _ _ _ (WF_get (WF_get (WF_peek hs))) h
    · exact ih _ _ _ _ _ (WF_get (WF_get (WF_peek hs))) h
    · exact ih _ _ _ _ _ (WF_get (WF_get (WF_peek hs))) h
    · exact ih _ _ _ _ _ (WF_get (WF_get (WF_peek hs))) h
    · exact ih _ _ _ _ _ (WF_unget _) h
    · exact ih _ _ _ _ _ (WF_get (WF_peek hs)) h

theorem lookupKey_mem {k : List Nat} {t : Token} :
    ∀ (l : List (List Nat × Token)), lookupKey k l = some t → (k, t) ∈ l := by
  intro l
  induction l with
  | nil => intro h; simp [lookupKey] at h
  | cons p l ih =>
    obtain ⟨k1, t1⟩ := p
    intro h
    simp only [lookupKey] at h
    split_ifs at h with hk
    · simp only [Option.some.injEq] at h
      rw [hk, h]; exact List.mem_cons_self _ _
    · exact List.mem_cons_of_mem _ (ih h)

theorem keywords_ne_Eof : ∀ p ∈ keywords, p.2 ≠ Token.Eof := by decide

theorem lookupKey_keywords_ne_Eof {k : List Nat} {t : Token}
    (h : lookupKey k keywords = some t) : t ≠ Token.Eof :=
  keywords_ne_Eof (k, t) (lookupKey_mem keywords h)

theorem GetId_spec {fuel : Nat} {s s1 : IStream} {t : Token} (hs : s.WF)
    (h : GetId fuel s = Result.ok (t, s1)) : s1.WF ∧ t ≠ Token.Eof := by
  unfold GetId at h
  cases hl : GetIdLoop fuel s [] with
  | fuel => simp [hl] at h
  | raise e => simp [hl] at h
  | ok p =>
    obtain ⟨w, s2⟩ := p
    have hw := GetIdLoop_WF fuel s s2 [] w hs hl
    simp only [hl] at h
    cases hk : lookupKey w keywords with
    | none =>
      simp only [hk, Result.ok.injEq, Prod.mk.injEq] at h
      exact ⟨h.2 ▸ hw, by rw [← h.1]; simp⟩
    | some t1 =>
      simp only [hk, Result.ok.injEq, Prod.mk.injEq] at h
      exact ⟨h.2 ▸ hw, by rw [← h.1]; exact lookupKey_keywords_ne_Eof hk⟩

theorem GetString_spec {fuel : Nat} {s s1 : IStream} {t : Token} (hs : s.WF)
    (h : GetString fuel s = Result.ok (t, s1)) : s1.WF ∧ t ≠ Token.Eof := by
  unfold GetString at h
  cases hl : GetStringLoop fuel (toChar (s.get).1) (s.get).2 [] with
  | fuel => simp [hl] at h
  | raise e => simp [hl] at h
  | ok p =>
    obtain ⟨w, s2⟩ := p
    have hw := GetStringLoop_WF fuel _ _ s2 [] w (WF_get hs) hl
    simp only [hl, Result.ok.injEq, Prod.mk.injEq] at h
    exact ⟨h.2 ▸ WF_get hw, by rw [← h.1]; simp⟩

theorem GetCompOperator_spec {s s1 : IStream} {t : Token} (hs : s.WF)
    (h : GetCompOperator s = Result.ok (t, s1)) : s1.WF ∧ t ≠ Token.Eof := by
  unfold GetCompOperator at h
  simp only at h
  split_ifs at h
  · cases hk : lookupKey [toChar (s.get).1, toChar (((s.get).2.peek).2.get).1] keywords with
    | none => simp [hk] at h
    | some t1 =>
      simp only [hk, Result.ok.injEq, Prod.mk.injEq] at h
      exact ⟨h.2 ▸ WF_get (WF_peek (WF_get hs)), by rw [← h.1]; exact lookupKey_keywords_ne_Eof hk⟩
  · simp only [Result.ok.injEq, Prod.mk.injEq] at h
    exact ⟨h.2 ▸ WF_peek (WF_get hs), by rw [← h.1]; simp⟩

theorem GetDigit_spec {s s1 : IStream} {t : Token} (hs : s.WF)
    (h : GetDigit s = Result.ok (t, s1)) : s1.WF ∧ t ≠ Token.Eof := by
  unfold GetDigit at h
  simp only [Result.ok.injEq, Prod.mk.injEq] at h
  exact ⟨h.2 ▸ WF_extractInt hs, by rw [← h.1]; simp⟩

theorem onInput_ok {lx lx1 : Lexer} {r : Result (Token × IStream)} {o : Option Token}
    (h : onInput lx r = Result.ok (o, lx1)) :
    ∃ t s1, r = Result.ok (t, s1) ∧ o = some t ∧ lx1 = { lx with input_ := s1 } := by
  cases r with
  | fuel => simp [onInput] at h
  | raise e => simp [onInput] at h
  | ok p =>
    obtain ⟨t, s1⟩ := p
    simp only [onInput, Result.ok.injEq, Prod.mk.injEq] at h
    exact ⟨t, s1, rfl, h.1.symm, h.2.symm⟩

theorem not_toBool_of_not_good {s : IStream} (h : s.toBool = false) : s.good = false := by
  rcases s with ⟨b, r, e, f, bd⟩
  cases e <;> cases f <;> cases bd <;> simp_all [IStream.good, IStream.toBool]

/-- What the token loop guarantees: the stream invariant, unchanged lexer members, never an
`Eof` token, and a failed, exhausted stream when the loop is left. -/
theorem GetNextTokenLoop_spec : ∀ (fuel : Nat) (lx lx1 : Lexer) (o : Option Token),
    lx.input_.Settled → GetNextTokenLoop fuel lx = Result.ok (o, lx1) →
    lx1.input_.WF ∧ lx1.current_token_ = lx.current_token_ ∧
      lx1.indent_level_ = lx.indent_level_ ∧ lx1.prev_indent = lx.prev_indent ∧
      o ≠ some Token.Eof ∧ (o = none → lx1.input_.toBool = false ∧ lx1.input_.rest = []) := by
  intro fuel
  induction fuel with
  | zero => intro lx lx1 o _ h; simp [GetNextTokenLoop] at h
  | succ n ih =>
    intro lx lx1 o hs h
    simp only [GetNextTokenLoop] at h
    split_ifs at h with hb h32 h10 h35 hp hq hu hc ha hd
    · -- the stream has failed
      simp only [Result.ok.injEq, Prod.mk.injEq] at h
      obtain ⟨rfl, rfl⟩ := h
      have hb1 : lx.input_.toBool = false := by simpa using hb
      exact ⟨WF_of_Settled hs, rfl, rfl, rfl, by simp, fun _ => ⟨hb1, hs (not_toBool_of_not_good hb1)⟩⟩
    · -- space
      exact ih { lx with input_ := ((lx.input_.peek).2.get).2 } _ _ (Settled_get (Settled_peek hs)) h
    · -- newline
      simp only [Result.ok.injEq, Prod.mk.injEq] at h
      obtain ⟨rfl, rfl⟩ := h
      exact ⟨WF_get (WF_peek (WF_of_Settled hs)), rfl, rfl, rfl, by simp, by simp⟩
    · -- comment
      cases hI : IgnoreEmptyLines n ((lx.input_.peek).2.ignore 10) with
      | fuel => simp [hI] at h
      | raise e => simp [hI] at h
      | ok s1 =>
        have hs1 := IgnoreEmptyLines_Settled n _ s1 (Settled_ignore 10 (Settled_peek hs)) hI
        simp only [hI] at h
        split_ifs at h
        · simp only [Result.ok.injEq, Prod.mk.injEq] at h
          obtain ⟨rfl, rfl⟩ := h
          exact ⟨WF_peek (WF_of_Settled hs1), rfl, rfl, rfl, by simp, by simp⟩
        · exact ih { lx with input_ := (s1.peek).2 } _ _ (Settled_peek hs1) h
    · obtain ⟨t, s1, hr, rfl, rfl⟩ := onInput_ok h
      obtain ⟨h1, h2⟩ := GetString_spec (WF_peek (WF_of_Settled hs)) hr
      exact ⟨h1, rfl, rfl, rfl, by simpa using h2, by simp⟩
    · obtain ⟨t, s1, hr, rfl, rfl⟩ := onInput_ok h
      obtain ⟨h1, h2⟩ := GetId_spec (WF_peek (WF_of_Settled hs)) hr
      exact ⟨h1, rfl, rfl, rfl, by simpa using h2, by simp⟩
    · obtain ⟨t, s1, hr, rfl, rfl⟩ := onInput_ok h
      obtain ⟨h1, h2⟩ := GetCompOperator_spec (WF_peek (WF_of_Settled hs)) hr
      exact ⟨h1, rfl, rfl, rfl, by simpa using h2, by simp⟩
    · simp only [Result.ok.injEq, Prod.mk.injEq] at h
      obtain ⟨rfl, rfl⟩ := h
      exact ⟨WF_get (WF_peek (WF_of_Settled hs)), rfl, rfl, rfl, by simp, by simp⟩
    · obtain ⟨t, s1, hr, rfl, rfl⟩ := onInput_ok h
      obtain ⟨h1, h2⟩ := GetId_spec (WF_peek (WF_of_Settled hs)) hr
      exact ⟨h1, rfl, rfl, rfl, by simpa using h2, by simp⟩
    · obtain ⟨t, s1, hr, rfl, rfl⟩ := onInput_ok h
      obtain ⟨h1, h2⟩ := GetDigit_spec (WF_peek (WF_of_Settled hs)) hr
      exact ⟨h1, rfl, rfl, rfl, by simpa using h2, by simp⟩
    · exact ih { lx with input_ := (lx.input_.peek).2 } _ _ (Settled_peek hs) h

theorem GetNextTokenBody_spec {fuel : Nat} {lx lx1 : Lexer} {t : Token}
    (hs : lx.input_.Settled) (h : GetNextTokenBody fuel lx = Result.ok (t, lx1)) :
    lx1.input_.WF ∧ lx1.indent_level_ = lx.indent_level_ ∧
      (t = Token.Eof → lx1.input_.toBool = false ∨
        (lx1.input_.good = true ∧ lx1.input_.rest = [] ∧
          ∃ c bs, lx1.input_.before = c :: bs ∧ (isalnum c || ispunct c) = false)) := by
  unfold GetNextTokenBody at h
  cases hl : GetNextTokenLoop fuel lx with
  | fuel => simp [hl] at h
  | raise e => simp [hl] at h
  | ok p =>
    obtain ⟨o, lx2⟩ := p
    obtain ⟨hwf, hcur, hind, _, hne, hnone⟩ := GetNextTokenLoop_spec fuel lx lx2 o hs hl
    cases o with
    | some t1 =>
      simp only [hl, Result.ok.injEq, Prod.mk.injEq] at h
      obtain ⟨rfl, rfl⟩ := h
      exact ⟨hwf, hind, fun ht => absurd (congrArg some ht) hne⟩
    | none =>
      obtain ⟨hfail, hrest⟩ := hnone rfl
      simp only [hl] at h
      split_ifs at h with hc hv
      · simp only [Result.ok.injEq, Prod.mk.injEq] at h
        obtain ⟨rfl, rfl⟩ := h
        exact ⟨WF_clear_unget_get _, hind, fun ht => by simp at ht⟩
      · simp only [Result.ok.injEq, Prod.mk.injEq] at h
        obtain ⟨-, rfl⟩ := h
        refine ⟨WF_clear_unget_get _, hind, fun _ => ?_⟩
        rcases hin : lx2.input_ with ⟨b, r, e, f, bd⟩
        rw [hin] at hrest hv
        simp only at hrest
        subst hrest
        cases b with
        | nil => left; simp [hin, IStream.clear, IStream.unget, IStream.get, IStream.good, IStream.toBool]
        | cons c bs =>
          right
          simp only [IStream.clear, IStream.unget, IStream.get, IStream.good, toChar, hin] at hv ⊢
          simp at hv ⊢
          simpa using hv
      · simp only [Result.ok.injEq, Prod.mk.injEq] at h
        obtain ⟨-, rfl⟩ := h
        exact ⟨hwf, hind, fun _ => Or.inl hfail⟩

theorem GetIndent_spec {fuel : Nat} {lx lx1 : Lexer} {tok : Token}
    (hs : lx.input_.Settled) (h : GetIndent fuel lx = Result.ok (tok, lx1)) :
    lx1.input_.Settled ∧ tok ≠ Token.Eof ∧ (tok = Token.None → lx1.indent_level_ = 0) := by
  unfold GetIndent at h
  simp only at h
  have key : ∀ lx2 : Lexer, lx2.input_.Settled →
      (if lx2.indent_level_ > 0 then
          Result.ok (Token.Indent, { lx2 with indent_level_ := toInt32 (lx2.indent_level_ - 1) })
        else if lx2.indent_level_ < 0 then
          Result.ok (Token.Dedent, { lx2 with indent_level_ := toInt32 (lx2.indent_level_ + 1) })
        else Result.ok (Token.None, lx2)) = Result.ok (tok, lx1) →
      lx1.input_.Settled ∧ tok ≠ Token.Eof ∧ (tok = Token.None → lx1.indent_level_ = 0) := by
    intro lx2 hs2 h2
    split_ifs at h2 with hp hn
    · simp only [Result.ok.injEq, Prod.mk.injEq] at h2
      obtain ⟨rfl, rfl⟩ := h2
      exact ⟨hs2, by simp, by simp⟩
    · simp only [Result.ok.injEq, Prod.mk.injEq] at h2
      obtain ⟨rfl, rfl⟩ := h2
      exact ⟨hs2, by simp, by simp⟩
    · simp only [Result.ok.injEq, Prod.mk.injEq] at h2
      obtain ⟨rfl, rfl⟩ := h2
      exact ⟨hs2, by simp, fun _ => by omega⟩
  by_cases h0 : lx.indent_level_ = 0
  · simp only [h0, if_true] at h
    unfold GetIndentLevel at h
    cases hc : countSpaces fuel lx.input_ 0 with
    | fuel => rw [hc] at h; cases h
    | raise e => rw [hc] at h; cases h
    | ok p =>
      obtain ⟨k, s⟩ := p
      rw [hc] at h
      exact key _ (countSpaces_Settled fuel _ _ _ _ hs hc) h
  · simp only [h0, if_false] at h
    exact key lx hs h

theorem GetNextToken_spec {fuel : Nat} {lx lx1 : Lexer} {t : Token}
    (hw : lx.input_.WF) (hb : lx.input_.toBool = true)
    (h : GetNextToken fuel lx = Result.ok (t, lx1)) :
    lx1.input_.WF ∧ (t = Token.Eof → lx1.AtEof) := by
  have hs : lx.input_.Settled := Settled_of_WF_toBool hw hb
  unfold GetNextToken at h
  split_ifs at h with hc
  · cases hI : IgnoreEmptyLines fuel lx.input_ with
    | fuel => simp [hI] at h
    | raise e => simp [hI] at h
    | ok s =>
      have hs1 := IgnoreEmptyLines_Settled fuel _ s hs hI
      simp only [hI] at h
      cases hG : GetIndent fuel { lx with input_ := s } with
      | fuel => simp [hG] at h
      | raise e => simp [hG] at h
      | ok p =>
        obtain ⟨tok, lx2⟩ := p
        obtain ⟨hs2, hne, hnone⟩ := @GetIndent_spec fuel { lx with input_ := s } lx2 tok hs1 hG
        simp only [hG] at h
        split_ifs at h with ht
        · simp only [Result.ok.injEq, Prod.mk.injEq] at h
          obtain ⟨rfl, rfl⟩ := h
          exact ⟨WF_of_Settled hs2, fun he => absurd he hne⟩
        · have ht1 : tok = Token.None := by simpa using ht
          obtain ⟨h1, h2, h3⟩ := GetNextTokenBody_spec hs2 h
          refine ⟨h1, fun he => ?_⟩
          rcases h3 he with h4 | ⟨h4, h5, h6⟩
          · exact Or.inl h4
          · exact Or.inr ⟨h4, h5, by rw [h2]; exact hnone ht1, h6⟩
  · obtain ⟨h1, h2, h3⟩ := GetNextTokenBody_spec hs h
    refine ⟨h1, fun he => ?_⟩
    have h0 : lx.indent_level_ = 0 := by
      by_contra hne; exact hc (Or.inr hne)
    rcases h3 he with h4 | ⟨h4, h5, h6⟩
    · exact Or.inl h4
    · exact Or.inr ⟨h4, h5, by rw [h2]; exact h0, h6⟩

theorem NextToken_Inv {fuel : Nat} {lx lx1 : Lexer} {t : Token}
    (hinv : lx.Inv) (h : NextToken fuel lx = Result.ok (t, lx1)) :
    lx1.Inv ∧ lx1.current_token_ = t := by
  unfold NextToken at h
  split_ifs at h with hb
  · cases hG : GetNextToken fuel lx with
    | fuel => simp [hG] at h
    | raise e => simp [hG] at h
    | ok p =>
      obtain ⟨t1, lx2⟩ := p
      obtain ⟨h1, h2⟩ := GetNextToken_spec hinv.1 hb hG
      simp only [hG, Result.ok.injEq, Prod.mk.injEq] at h
      obtain ⟨rfl, rfl⟩ := h
      exact ⟨⟨h1, fun he => h2 he⟩, rfl⟩
  · simp only [Result.ok.injEq, Prod.mk.injEq] at h
    obtain ⟨rfl, rfl⟩ := h
    have hb1 : lx.input_.toBool = false := by simpa using hb
    exact ⟨⟨hinv.1, fun _ => Or.inl hb1⟩, rfl⟩

theorem Lexer_new_Inv {fuel : Nat} {input : List Nat} {lx : Lexer}
    (h : Lexer.new fuel (IStream.ofBytes input) 0 = Result.ok lx) : lx.Inv := by
  unfold Lexer.new at h
  simp only at h
  cases hG : GetNextToken fuel
      { input_ := IStream.ofBytes input,
        current_token_ := if (IStream.ofBytes input).toBool = true then Token.Newline
          else Token.Number 0,
        indent_level_ := 0, prev_indent := 0 } with
  | fuel => simp [hG] at h
  | raise e => simp [hG] at h
  | ok p =>
    obtain ⟨t1, lx2⟩ := p
    obtain ⟨h1, h2⟩ := GetNextToken_spec (by simp [IStream.WF, IStream.ofBytes])
      (by simp [IStream.toBool, IStream.ofBytes]) hG
    simp only [hG, Result.ok.injEq] at h
    subst h
    exact ⟨h1, fun he => h2 he⟩

theorem NextToken_AtEof {fuel : Nat} {lx : Lexer} (hfuel : 3 ≤ fuel)
    (ha : lx.AtEof) (hc : lx.current_token_ = Token.Eof) :
    ∃ lx1, NextToken fuel lx = Result.ok (Token.Eof, lx1) := by
  obtain ⟨n, rfl⟩ : ∃ n, fuel = n + 3 := ⟨fuel - 3, by omega⟩
  rcases ha with hf | ⟨hg, hr, hi, c, bs, hbf, hv⟩
  · exact ⟨{ lx with current_token_ := Token.Eof }, by simp [NextToken, hf]⟩
  · rcases lx with ⟨⟨b, r, e, f, bd⟩, cur, ind, prev⟩
    simp only at hc hr hi hbf hg
    subst hc hr hi hbf
    have hflags : e = false ∧ f = false ∧ bd = false := by
      cases e <;> cases f <;> cases bd <;> simp_all [IStream.good]
    obtain ⟨rfl, rfl, rfl⟩ := hflags
    refine ⟨⟨⟨c :: bs, [], false, false, false⟩, Token.Eof, 0, prev⟩, ?_⟩
    have e1 : ispunct 255 = false := by decide
    have e2 : isalpha 255 = false := by decide
    have e3 : isdigit 255 = false := by decide
    simp at hv
    simp [NextToken, GetNextToken, GetNextTokenBody, GetNextTokenLoop, IStream.toBool,
      IStream.peek, IStream.good, toChar, e1, e2, e3, IStream.clear,
      IStream.unget, IStream.get, hv]

theorem lexerAfter_Inv {fuel : Nat} {input : List Nat} :
    ∀ (n : Nat) (lx : Lexer), lexerAfter fuel input n = Result.ok lx → lx.Inv := by
  intro n
  induction n with
  | zero => intro lx h; exact Lexer_new_Inv h
  | succ k ih =>
    intro lx h
    simp only [lexerAfter] at h
    cases hk : lexerAfter fuel input k with
    | fuel => rw [hk] at h; cases h
    | raise e => rw [hk] at h; cases h
    | ok lx0 =>
      rw [hk] at h
      simp only at h
      cases hN : NextToken fuel lx0 with
      | fuel => rw [hN] at h; cases h
      | raise e => rw [hN] at h; cases h
      | ok p =>
        obtain ⟨t, lx1⟩ := p
        rw [hN] at h
        simp only [Result.ok.injEq] at h
        subst h
        exact (NextToken_Inv (ih lx0 hk) hN).1

/-- C6: once the current token is `Eof` (after the constructor or after any number of calls
of `NextToken`), every later call of `NextToken` returns `Eof` and the current token stays
`Eof`: this holds before and after the call number `m` that follows, for every `m`. -/
theorem C6_eof_is_final (input : List Nat) (fuel n m : Nat) (lx : Lexer) (hfuel : 3 ≤ fuel)
    (hrun : lexerAfter fuel input n = Result.ok lx)
    (heof : lx.current_token_ = Token.Eof) :
    ∃ lx1 lx2, lexerAfter fuel input (n + m) = Result.ok lx1 ∧
      lx1.current_token_ = Token.Eof ∧
      NextToken fuel lx1 = Result.ok (Token.Eof, lx2) ∧ lx2.current_token_ = Token.Eof := by
  induction m with
  | zero =>
    have hinv := lexerAfter_Inv n lx hrun
    obtain ⟨lx2, h2⟩ := NextToken_AtEof hfuel (hinv.2 heof) heof
    exact ⟨lx, lx2, hrun, heof, h2, (NextToken_Inv hinv h2).2⟩
  | succ k ih =>
    obtain ⟨lx1, lx2, h1, _, h3, h4⟩ := ih
    have hrun2 : lexerAfter fuel input (n + (k + 1)) = Result.ok lx2 := by
      show lexerAfter fuel input (n + k + 1) = Result.ok lx2
      simp only [lexerAfter, h1, h3]
    have hinv := lexerAfter_Inv _ lx2 hrun2
    obtain ⟨lx3, h5⟩ := NextToken_AtEof hfuel (hinv.2 h4) h4
    exact ⟨lx2, lx3, hrun2, h4, h5, (NextToken_Inv hinv h5).2⟩

/-- C6 (witness): for the input `a` followed by a space the current token is `Eof` after one
call of `NextToken`; it is still `Eof` four calls later, and the call after that returns
`Eof` again. -/
theorem C6_eof_is_final_witness :
    ∃ lx1 lx2, lexerAfter 5 [97, 32] (1 + 4) = Result.ok lx1 ∧
      lx1.current_token_ = Token.Eof ∧
      NextToken 5 lx1 = Result.ok (Token.Eof, lx2) ∧ lx2.current_token_ = Token.Eof :=
  C6_eof_is_final [97, 32] 5 1 4 ⟨⟨[32, 97], [], false, false, false⟩, Token.Eof, 0, 0⟩
    (by decide) (by rfl) rfl

theorem toInt32_zero : toInt32 0 = 0 := by decide

theorem toSizeT_zero : toSizeT 0 = 0 := by decide

/-- What the code after the token loop does give: when the whole input has been read
without a stream failure, nothing is pending, the current token is not `Newline` and the
last byte of the input is a letter, a digit or a punctuation character, `NextToken` returns
`Newline`; the call after it returns a token other than `Newline` and the call after that
returns `Eof`. -/
theorem newline_after_visible_last_byte (lx : Lexer) (fuel c : Nat) (bs : List Nat)
    (hfuel : 3 ≤ fuel)
    (hok : lx.input_.toBool = true) (hrest : lx.input_.rest = [])
    (hbefore : lx.input_.before = c :: bs)
    (hc : (isalnum c || ispunct c) = true)
    (hcur : lx.current_token_ ≠ Token.Newline) (hind : lx.indent_level_ = 0) :
    ∃ lx1 t lx2 lx3, NextToken fuel lx = Result.ok (Token.Newline, lx1) ∧
      NextToken fuel lx1 = Result.ok (t, lx2) ∧ t ≠ Token.Newline ∧
      NextToken fuel lx2 = Result.ok (Token.Eof, lx3) := by
  obtain ⟨n, rfl⟩ : ∃ n, fuel = n + 3 := ⟨fuel - 3, by omega⟩
  rcases lx with ⟨⟨b, r, e, f, bd⟩, cur, ind, prev⟩
  simp only at hok hrest hbefore hcur hind
  subst hrest hbefore hind
  have hflags : f = false ∧ bd = false := by
    cases f <;> cases bd <;> simp_all [IStream.toBool]
  obtain ⟨rfl, rfl⟩ := hflags
  have e1 : ispunct 255 = false := by decide
  have e2 : isalpha 255 = false := by decide
  have e3 : isdigit 255 = false := by decide
  have step1 : NextToken (n + 3) ⟨⟨c :: bs, [], e, false, false⟩, cur, 0, prev⟩
      = Result.ok (Token.Newline, ⟨⟨c :: bs, [], false, false, false⟩, Token.Newline, 0, prev⟩) := by
    cases e <;>
      simp [NextToken, GetNextToken, GetNextTokenBody, GetNextTokenLoop, IStream.toBool,
        IStream.peek, IStream.good, toChar, e1, e2, e3, IStream.clear,
        IStream.unget, IStream.get, hcur, hc]
  have step2 : ∃ t ind2, NextToken (n + 3)
        ⟨⟨c :: bs, [], false, false, false⟩, Token.Newline, 0, prev⟩
      = Result.ok (t, ⟨⟨c :: bs, [], true, true, false⟩, t, ind2, 0⟩) ∧ t ≠ Token.Newline := by
    by_cases hp : 0 < toInt32 (-(prev : Int))
    · refine ⟨Token.Indent, toInt32 (toInt32 (-(prev : Int)) - 1), ?_, by simp⟩
      simp [NextToken, GetNextToken, IgnoreEmptyLines, GetIndent, GetIndentLevel, countSpaces,
        IStream.toBool, IStream.peek, IStream.good, toInt32_zero, toSizeT_zero, hp]
    · by_cases hn : toInt32 (-(prev : Int)) < 0
      · refine ⟨Token.Dedent, toInt32 (toInt32 (-(prev : Int)) + 1), ?_, by simp⟩
        simp [NextToken, GetNextToken, IgnoreEmptyLines, GetIndent, GetIndentLevel, countSpaces,
          IStream.toBool, IStream.peek, IStream.good, toInt32_zero, toSizeT_zero, hp, hn]
      · refine ⟨Token.Eof, toInt32 (-(prev : Int)), ?_, by simp⟩
        simp [NextToken, GetNextToken, IgnoreEmptyLines, GetIndent, GetIndentLevel, countSpaces,
          IStream.toBool, IStream.peek, IStream.good, toInt32_zero, toSizeT_zero, hp, hn,
          GetNextTokenBody, GetNextTokenLoop]
  obtain ⟨t, ind2, h2, ht⟩ := step2
  exact ⟨_, t, _, ⟨⟨c :: bs, [], true, true, false⟩, Token.Eof, ind2, 0⟩, step1, h2, ht,
    by simp [NextToken, IStream.toBool]⟩

/-! ### Reaching a content token -/

theorem GetNextTokenLoop_spaces (lx : Lexer) (r : List Nat) :
    ∀ (k fuel : Nat) (b : List Nat), ∃ b1,
      GetNextTokenLoop (fuel + k)
          { lx with input_ := ⟨b, List.replicate k 32 ++ r, false, false, false⟩ }
        = GetNextTokenLoop fuel { lx with input_ := ⟨b1, r, false, false, false⟩ } := by
  intro k
  induction k with
  | zero => intro fuel b; exact ⟨b, by simp⟩
  | succ k ih =>
    intro fuel b
    obtain ⟨b1, hb1⟩ := ih fuel (32 :: b)
    refine ⟨b1, ?_⟩
    rw [← hb1]
    show GetNextTokenLoop (fuel + k + 1) _ = _
    simp [GetNextTokenLoop, List.replicate_succ, IStream.toBool, IStream.peek, IStream.good,
      IStream.get, toChar]

theorem countSpaces_replicate (c : Nat) (r : List Nat) (hc : c ≠ 32) :
    ∀ (k fuel acc : Nat) (b : List Nat), k < fuel → acc + k < 18446744073709551616 →
      ∃ b1, countSpaces fuel ⟨b, List.replicate k 32 ++ c :: r, false, false, false⟩ acc
        = Result.ok (acc + k, ⟨b1, c :: r, false, false, false⟩) := by
  intro k
  induction k with
  | zero =>
    intro fuel acc b hf _
    obtain ⟨n, rfl⟩ : ∃ n, fuel = n + 1 := ⟨fuel - 1, by omega⟩
    exact ⟨b, by simp [countSpaces, IStream.peek, IStream.good, hc]⟩
  | succ k ih =>
    intro fuel acc b hf hacc
    obtain ⟨n, rfl⟩ : ∃ n, fuel = n + 1 := ⟨fuel - 1, by omega⟩
    obtain ⟨b1, hb1⟩ := ih n (acc + 1) (32 :: b) (by omega) (by omega)
    refine ⟨b1, ?_⟩
    have hmod : (acc + 1) % 18446744073709551616 = acc + 1 := Nat.mod_eq_of_lt (by omega)
    simp [countSpaces, List.replicate_succ, IStream.peek, IStream.good, IStream.get, hmod, hb1]
    omega

theorem toInt32_of_small (x : Int) (h0 : 0 ≤ x) (h1 : x < 2147483648) : toInt32 x = x := by
  unfold toInt32
  omega

theorem toSizeT_of_small (x : Nat) (h1 : x < 2147483648) : toSizeT (x : Int) = x := by
  unfold toSizeT
  omega

theorem GetIndentLevel_same (lx : Lexer) (k fuel : Nat) (s : IStream)
    (hcs : countSpaces fuel lx.input_ 0 = Result.ok (k, s)) (hprev : lx.prev_indent = k / 2)
    (hk : k < 4294967296) :
    GetIndentLevel fuel lx = Result.ok (0, { lx with input_ := s }) := by
  have h1 : toInt32 ((k / 2 : Nat) : Int) = ((k / 2 : Nat) : Int) :=
    toInt32_of_small _ (by omega) (by omega)
  have h2 : toSizeT ((k / 2 : Nat) : Int) = k / 2 := toSizeT_of_small _ (by omega)
  unfold GetIndentLevel
  rw [hcs]
  show Result.ok (toInt32 (toInt32 ((k / 2 : Nat) : Int) - (lx.prev_indent : Int)),
    ({ lx with input_ := s, prev_indent := toSizeT (toInt32 ((k / 2 : Nat) : Int)) } : Lexer)) = _
  rw [h1, h2, hprev, sub_self, toInt32_zero]

theorem GetIndent_same (lx : Lexer) (k fuel : Nat) (s : IStream)
    (hind : lx.indent_level_ = 0)
    (hcs : countSpaces fuel lx.input_ 0 = Result.ok (k, s)) (hprev : lx.prev_indent = k / 2)
    (hk : k < 4294967296) :
    GetIndent fuel lx = Result.ok (Token.None, { lx with input_ := s }) := by
  unfold GetIndent
  rw [if_pos hind, GetIndentLevel_same lx k fuel s hcs hprev hk]
  show (if (0 : Int) > 0 then _ else if (0 : Int) < 0 then _ else Result.ok (Token.None, _)) = _
  rw [if_neg (by decide), if_neg (by decide)]
  rcases lx with ⟨s0, cur, ind, prev⟩
  simp only at hind
  subst hind
  rfl

theorem GetNextToken_line_start (lx : Lexer) (k fuel c : Nat) (b r : List Nat)
    (hcur : lx.current_token_ = Token.Newline) (hind : lx.indent_level_ = 0)
    (hprev : lx.prev_indent = k / 2) (hk : k < 4294967296)
    (hin : lx.input_ = ⟨b, List.replicate k 32 ++ c :: r, false, false, false⟩)
    (hc32 : c ≠ 32) (hc10 : c ≠ 10) (hfuel : k < fuel) :
    ∃ b1, GetNextToken fuel lx
      = GetNextTokenBody fuel { lx with input_ := ⟨b1, c :: r, false, false, false⟩ } := by
  obtain ⟨n, rfl⟩ : ∃ n, fuel = n + 1 := ⟨fuel - 1, by omega⟩
  obtain ⟨b1, hb1⟩ := countSpaces_replicate c r hc32 k (n + 1) 0 b hfuel (by omega)
  refine ⟨b1, ?_⟩
  have hI : IgnoreEmptyLines (n + 1) lx.input_ = Result.ok lx.input_ := by
    rw [hin]
    cases k with
    | zero => simp [IgnoreEmptyLines, IStream.peek, IStream.good, hc10]
    | succ k => simp [IgnoreEmptyLines, IStream.peek, IStream.good, List.replicate_succ]
  simp only [Nat.zero_add] at hb1
  have hG := GetIndent_same { lx with input_ := lx.input_ } k (n + 1)
    ⟨b1, c :: r, false, false, false⟩ hind (by rw [← hb1, hin]) hprev hk
  unfold GetNextToken
  rw [if_pos (Or.inl hcur), hI]
  show (match GetIndent (n + 1) { lx with input_ := lx.input_ } with
    | Result.ok (indent_token, lx1) =>
      if indent_token ≠ Token.None then Result.ok (indent_token, lx1)
      else GetNextTokenBody (n + 1) lx1
    | Result.fuel => Result.fuel
    | Result.raise e => Result.raise e) = _
  rw [hG]
  show (if Token.None ≠ Token.None then _ else GetNextTokenBody (n + 1) _) = _
  rw [if_neg (by simp)]

theorem NextToken_content (lx : Lexer) (k fuel c : Nat) (b r tail : List Nat) (t : Token)
    (hlay : lx.NoLayoutDue k)
    (hin : lx.input_ = ⟨b, List.replicate k 32 ++ c :: r, false, false, false⟩)
    (hc32 : c ≠ 32) (hc10 : c ≠ 10) (hfuel : k < fuel)
    (hloop : ∀ f, fuel - k ≤ f → ∀ b1, ∃ lx2,
      GetNextTokenLoop f { lx with input_ := ⟨b1, c :: r, false, false, false⟩ }
        = Result.ok (some t, lx2) ∧ lx2.input_.rest = tail) :
    ∃ lx1, NextToken fuel lx = Result.ok (t, lx1) ∧ lx1.input_.rest = tail ∧
      lx1.current_token_ = t := by
  have hb : lx.input_.toBool = true := by rw [hin]; rfl
  have hbody : ∃ lx2, GetNextToken fuel lx = Result.ok (t, lx2) ∧ lx2.input_.rest = tail := by
    by_cases hcur : lx.current_token_ = Token.Newline
    · obtain ⟨hprev, hk⟩ := hlay.2 hcur
      obtain ⟨b1, hb1⟩ := GetNextToken_line_start lx k fuel c b r hcur hlay.1 hprev hk hin
        hc32 hc10 hfuel
      obtain ⟨lx2, h2, h3⟩ := hloop fuel (by omega) b1
      refine ⟨lx2, ?_, h3⟩
      rw [hb1]
      unfold GetNextTokenBody
      rw [h2]
    · obtain ⟨b1, hb1⟩ := GetNextTokenLoop_spaces lx (c :: r) k (fuel - k) b
      obtain ⟨lx2, h2, h3⟩ := hloop (fuel - k) (le_refl _) b1
      refine ⟨lx2, ?_, h3⟩
      have hlx : lx = { lx with input_ := ⟨b, List.replicate k 32 ++ c :: r, false, false, false⟩ } := by
        rw [← hin]
      have hf : fuel - k + k = fuel := by omega
      rw [hf, ← hlx] at hb1
      unfold GetNextToken
      rw [if_neg (by
        intro h
        rcases h with h | h
        · exact hcur h
        · exact h hlay.1)]
      unfold GetNextTokenBody
      rw [hb1, h2]
  obtain ⟨lx2, h2, h3⟩ := hbody
  refine ⟨{ lx2 with current_token_ := t }, ?_, h3, rfl⟩
  unfold NextToken
  rw [if_pos hb, h2]

/-! ### Words -/

theorem isWordByte_continue {x : Nat} (h : isWordByte x = true) :
    (iscntrl x || isspace x || (ispunct x && x != 95)) = false := by
  have h1 : ((65 ≤ x ∧ x ≤ 90) ∨ (97 ≤ x ∧ x ≤ 122)) ∨ (48 ≤ x ∧ x ≤ 57) ∨ x = 95 := by
    simpa [isWordByte, isalnum, isalpha, isdigit, or_assoc] using h
  have h2 : iscntrl x = false := by
    simp only [iscntrl, decide_eq_false_iff_not]; omega
  have h3 : isspace x = false := by
    simp only [isspace, decide_eq_false_iff_not]; omega
  have h4 : (ispunct x && x != 95) = false := by
    by_cases h95 : x = 95
    · simp [h95]
    · have : ispunct x = false := by
        simp only [ispunct, decide_eq_false_iff_not]; omega
      simp [this]
  simp [h2, h3, h4]

theorem GetIdLoop_word (tail : List Nat)
    (htail : tail = [] ∨ ∃ d t, tail = d :: t ∧ (d = 32 ∨ d = 10 ∨ (ispunct d = true ∧ d ≠ 95))) :
    ∀ (w : List Nat) (fuel : Nat) (b acc : List Nat), (∀ x ∈ w, isWordByte x = true) →
      w.length < fuel →
      ∃ s1, GetIdLoop fuel ⟨b, w ++ tail, false, false, false⟩ acc = Result.ok (acc ++ w, s1) ∧
        s1.rest = tail := by
  intro w
  induction w with
  | nil =>
    intro fuel b acc _ hf
    obtain ⟨n, rfl⟩ : ∃ n, fuel = n + 1 := ⟨fuel - 1, by omega⟩
    rcases htail with rfl | ⟨d, t, rfl, hd⟩
    · exact ⟨⟨b, [], true, false, false⟩, by simp [GetIdLoop, IStream.peek, IStream.good], rfl⟩
    · refine ⟨⟨b, d :: t, false, false, false⟩, ?_, rfl⟩
      have hstop : (iscntrl d || isspace d || (ispunct d && d != 95)) = true := by
        rcases hd with rfl | rfl | ⟨h1, h2⟩
        · decide
        · decide
        · simp [h1, h2]
      simp only [GetIdLoop, IStream.peek, IStream.good, List.nil_append, Bool.not_false,
        Bool.and_self, if_true, toChar, hstop]
      simp
  | cons x w ih =>
    intro fuel b acc hw hf
    obtain ⟨n, rfl⟩ : ∃ n, fuel = n + 1 := ⟨fuel - 1, by simp only [List.length_cons] at hf; omega⟩
    have hx := isWordByte_continue (hw x (List.mem_cons_self _ _))
    obtain ⟨s1, h1, h2⟩ := ih n (x :: b) (acc ++ [x])
      (fun y hy => hw y (List.mem_cons_of_mem _ hy))
      (by simp only [List.length_cons] at hf; omega)
    refine ⟨s1, ?_, h2⟩
    simp only [GetIdLoop, IStream.peek, IStream.good, List.cons_append, Bool.not_false,
      Bool.and_self, if_true, toChar, hx, IStream.get]
    simp only [List.append_assoc, List.singleton_append] at h1
    simpa using h1

theorem lookupKey_keywords_unfold (w : List Nat) :
    lookupKey w keywords =
      if w = [99, 108, 97, 115, 115] then some Token.Class
      else if w = [114, 101, 116, 117, 114, 110] then some Token.Return
      else if w = [105, 102] then some Token.If
      else if w = [101, 108, 115, 101] then some Token.Else
      else if w = [100, 101, 102] then some Token.Def
      else if w = [112, 114, 105, 110, 116] then some Token.Print
      else if w = [111, 114] then some Token.Or
      else if w = [78, 111, 110, 101] then some Token.None
      else if w = [97, 110, 100] then some Token.And
      else if w = [84, 114, 117, 101] then some Token.True
      else if w = [70, 97, 108, 115, 101] then some Token.False
      else if w = [110, 111, 116] then some Token.Not
      else if w = [61, 61] then some Token.Eq
      else if w = [33, 61] then some Token.NotEq
      else if w = [62, 61] then some Token.GreaterOrEq
      else if w = [60, 61] then some Token.LessOrEq
      else none := rfl

theorem lookupKey_word (c : Nat) (w : List Nat) (hc : isalpha c = true ∨ c = 95) :
    lookupKey (c :: w) keywords = reservedWord (c :: w) := by
  have hc1 : c ≠ 61 ∧ c ≠ 33 ∧ c ≠ 62 ∧ c ≠ 60 := by
    rcases hc with h | h
    · simp only [isalpha, decide_eq_true_eq] at h
      omega
    · omega
  rw [lookupKey_keywords_unfold]
  unfold reservedWord
  by_cases h0 : c :: w = [99, 108, 97, 115, 115]
  · rw [h0]; rfl
  by_cases h1 : c :: w = [114, 101, 116, 117, 114, 110]
  · rw [h1]; rfl
  by_cases h2 : c :: w = [105, 102]
  · rw [h2]; rfl
  by_cases h3 : c :: w = [101, 108, 115, 101]
  · rw [h3]; rfl
  by_cases h4 : c :: w = [100, 101, 102]
  · rw [h4]; rfl
  by_cases h5 : c :: w = [112, 114, 105, 110, 116]
  · rw [h5]; rfl
  by_cases h6 : c :: w = [111, 114]
  · rw [h6]; rfl
  by_cases h7 : c :: w = [78, 111, 110, 101]
  · rw [h7]; rfl
  by_cases h8 : c :: w = [97, 110, 100]
  · rw [h8]; rfl
  by_cases h9 : c :: w = [84, 114, 117, 101]
  · rw [h9]; rfl
  by_cases h10 : c :: w = [70, 97, 108, 115, 101]
  · rw [h10]; rfl
  by_cases h11 : c :: w = [110, 111, 116]
  · rw [h11]; rfl
  simp only [h0, h1, h2, h3, h4, h5, h6, h7, h8, h9, h10, h11, if_false]
  simp [hc1]

theorem isWordByte_of_start {c : Nat} (hc : isalpha c = true ∨ c = 95) : isWordByte c = true := by
  rcases hc with h | h
  · simp [isWordByte, isalnum, h]
  · simp [isWordByte, h]

theorem GetId_word (c fuel : Nat) (b w tail : List Nat)
    (hc : isalpha c = true ∨ c = 95) (hw : ∀ x ∈ w, isWordByte x = true)
    (htail : tail = [] ∨ ∃ d t, tail = d :: t ∧ (d = 32 ∨ d = 10 ∨ (ispunct d = true ∧ d ≠ 95)))
    (hfuel : w.length + 1 < fuel) :
    ∃ s1, GetId fuel ⟨b, c :: (w ++ tail), false, false, false⟩
      = Result.ok (wordToken (c :: w), s1) ∧ s1.rest = tail := by
  obtain ⟨s1, h1, h2⟩ := GetIdLoop_word tail htail (c :: w) fuel b []
    (fun x hx => by
      rcases List.mem_cons.mp hx with h | h
      · rw [h]; exact isWordByte_of_start hc
      · exact hw x h)
    (by simp only [List.length_cons]; omega)
  refine ⟨s1, ?_, h2⟩
  simp only [List.cons_append, List.nil_append] at h1
  unfold GetId
  rw [h1]
  simp only [lookupKey_word c w hc, wordToken]
  cases reservedWord (c :: w) <;> rfl

theorem not_ispunct_of_isalpha {c : Nat} (h : isalpha c = true) : ispunct c = false := by
  simp only [isalpha, decide_eq_true_eq] at h
  simp only [ispunct, decide_eq_false_iff_not]
  omega

/-- C7: a word made of a letter or `_` followed by letters, digits and `_`, delimited by a
space, a newline, a punctuation byte other than `_` or the end of the input, is returned as
its keyword token when it is one of the twelve reserved words and as `Id` of the word
otherwise. -/
theorem C7_word_token (lx : Lexer) (k fuel c : Nat) (b w tail : List Nat)
    (hlay : lx.NoLayoutDue k)
    (hin : lx.input_ = ⟨b, List.replicate k 32 ++ c :: (w ++ tail), false, false, false⟩)
    (hc : isalpha c = true ∨ c = 95) (hw : ∀ x ∈ w, isWordByte x = true)
    (htail : tail = [] ∨ ∃ d t, tail = d :: t ∧ (d = 32 ∨ d = 10 ∨ (ispunct d = true ∧ d ≠ 95)))
    (hfuel : k + w.length + 3 ≤ fuel) :
    ∃ lx1, NextToken fuel lx = Result.ok (wordToken (c :: w), lx1) ∧
      lx1.input_.rest = tail ∧ lx1.current_token_ = wordToken (c :: w) := by
  have hc32 : c ≠ 32 := by
    rcases hc with h | h
    · simp only [isalpha, decide_eq_true_eq] at h; omega
    · omega
  have hc10 : c ≠ 10 := by
    rcases hc with h | h
    · simp only [isalpha, decide_eq_true_eq] at h; omega
    · omega
  have hc35 : c ≠ 35 := by
    rcases hc with h | h
    · simp only [isalpha, decide_eq_true_eq] at h; omega
    · omega
  refine NextToken_content lx k fuel c b (w ++ tail) tail _ hlay hin hc32 hc10 (by omega) ?_
  intro f hf b1
  obtain ⟨n, rfl⟩ : ∃ n, f = n + 1 := ⟨f - 1, by omega⟩
  obtain ⟨s1, h1, h2⟩ := GetId_word c n b1 w tail hc hw htail (by omega)
  refine ⟨{ lx with input_ := s1 }, ?_, h2⟩
  rcases hc with h | h
  · have hp := not_ispunct_of_isalpha h
    simp [GetNextTokenLoop, IStream.toBool, IStream.peek, IStream.good, toChar, hc32, hc10,
      hc35, hp, h, h1, onInput]
  · subst h
    have hp : ispunct 95 = true := by decide
    simp [GetNextTokenLoop, IStream.toBool, IStream.peek, IStream.good, toChar, hp, h1, onInput]

/-! ### String literals -/

theorem GetString_scan (q fuel : Nat) (b r v tail : List Nat) (hq : q = 34 ∨ q = 39)
    (hscan : scanString q r = some (v, tail)) (hfuel : r.length < fuel) :
    ∃ s1, GetString fuel ⟨b, q :: r, false, false, false⟩ = Result.ok (Token.String v, s1) ∧
      s1.rest = tail := by
  obtain ⟨b1, h1⟩ := GetStringLoop_scan q hq fuel r (q :: b) [] v tail hscan hfuel
  refine ⟨⟨q :: b1, tail, false, false, false⟩, ?_, rfl⟩
  simp only [List.nil_append] at h1
  simp [GetString, IStream.get, IStream.good, toChar, h1]

/-- C8 (as amended): a string literal opened by a quote `q` and closed by the first later
`q` that is not preceded by a backslash is returned as `String v`, where `v` is the value
`scanString` computes: backslash-`n`, backslash-`t` and a backslash followed by either
quote are decoded, any other backslash is
copied and the byte after it is read again as ordinary input, and all other bytes are
copied. -/
theorem C8_string_literal (lx : Lexer) (k fuel q : Nat) (b r v tail : List Nat)
    (hlay : lx.NoLayoutDue k)
    (hin : lx.input_ = ⟨b, List.replicate k 32 ++ q :: r, false, false, false⟩)
    (hq : q = 34 ∨ q = 39)
    (hscan : scanString q r = some (v, tail))
    (hfuel : k + r.length + 2 ≤ fuel) :
    ∃ lx1, NextToken fuel lx = Result.ok (Token.String v, lx1) ∧
      lx1.input_.rest = tail ∧ lx1.current_token_ = Token.String v := by
  have hq32 : q ≠ 32 := by rcases hq with h | h <;> omega
  have hq10 : q ≠ 10 := by rcases hq with h | h <;> omega
  have hq35 : q ≠ 35 := by rcases hq with h | h <;> omega
  have hp : ispunct q = true := by rcases hq with h | h <;> subst h <;> decide
  refine NextToken_content lx k fuel q b r tail _ hlay hin hq32 hq10 (by omega) ?_
  intro f hf b1
  obtain ⟨n, rfl⟩ : ∃ n, f = n + 1 := ⟨f - 1, by omega⟩
  obtain ⟨s1, h1, h2⟩ := GetString_scan q n b1 r v tail hq hscan (by omega)
  refine ⟨{ lx with input_ := s1 }, ?_, h2⟩
  simp [GetNextTokenLoop, IStream.toBool, IStream.peek, IStream.good, toChar, hq32, hq10,
    hq35, hp, hq, h1, onInput]

/-- After the one-byte input `a` the lexer, asked again, returns `Newline` and then `Eof`. -/
theorem newline_after_visible_last_byte_example :
    ∃ lx1 t lx2 lx3,
      NextToken 3 ⟨⟨[97], [], true, false, false⟩, Token.Id [97], 0, 0⟩
        = Result.ok (Token.Newline, lx1) ∧
      NextToken 3 lx1 = Result.ok (t, lx2) ∧ t ≠ Token.Newline ∧
      NextToken 3 lx2 = Result.ok (Token.Eof, lx3) :=
  newline_after_visible_last_byte ⟨⟨[97], [], true, false, false⟩, Token.Id [97], 0, 0⟩
    3 97 [] (by decide) rfl rfl rfl (by decide) (by decide) rfl

/-- C7 (witness): at the start of a line indented by two spaces, with previous level 1, the
word `print` followed by a space is returned as the `Print` token. -/
theorem C7_word_token_witness :
    ∃ lx1, NextToken 9 ⟨⟨[10], [32, 32, 112, 114, 105, 110, 116, 32, 120], false, false, false⟩,
        Token.Newline, 0, 1⟩
        = Result.ok (wordToken [112, 114, 105, 110, 116], lx1) ∧
      lx1.input_.rest = [32, 120] ∧ lx1.current_token_ = wordToken [112, 114, 105, 110, 116] :=
  C7_word_token ⟨⟨[10], [32, 32, 112, 114, 105, 110, 116, 32, 120], false, false, false⟩,
      Token.Newline, 0, 1⟩ 2 9 112 [10] [114, 105, 110, 116] [32, 120]
    ⟨rfl, fun _ => ⟨rfl, by decide⟩⟩ rfl (Or.inl (by decide)) (by decide)
    (Or.inr ⟨32, [120], rfl, Or.inl rfl⟩) (by decide)

/-- C8 (witness): after `print` and a space, the literal `"it\'s"` is returned as the
string `it's`. -/
theorem C8_string_literal_witness :
    ∃ lx1, NextToken 10 ⟨⟨[32, 116, 110, 105, 114, 112],
          [34, 105, 116, 92, 39, 115, 34, 32, 120], false, false, false⟩, Token.Print, 0, 0⟩
        = Result.ok (Token.String [105, 116, 39, 115], lx1) ∧
      lx1.input_.rest = [32, 120] ∧ lx1.current_token_ = Token.String [105, 116, 39, 115] :=
  C8_string_literal ⟨⟨[32, 116, 110, 105, 114, 112],
        [34, 105, 116, 92, 39, 115, 34, 32, 120], false, false, false⟩, Token.Print, 0, 0⟩
    0 10 34 [32, 116, 110, 105, 114, 112] [105, 116, 92, 39, 115, 34, 32, 120]
    [105, 116, 39, 115] [32, 120]
    ⟨rfl, fun h => by simp at h⟩ rfl (Or.inl rfl) (by decide) (by decide)

/-! ### Object model -/

/-- C11: `IsTrue` holds exactly for a number other than 0, a string of positive length and
`Bool(true)`; it is false for the empty holder, for every class and for every instance. -/
theorem C11_IsTrue_iff (h : Value) :
    (IsTrue h = true ↔
      ((∃ n, h = Value.Number n ∧ n ≠ 0) ∨ (∃ s, h = Value.String s ∧ 0 < s.length) ∨
        h = Value.Bool true)) ∧
    IsTrue Value.None = false ∧
    (∀ cls, IsTrue (Value.Class cls) = false) ∧
    (∀ ref, IsTrue (Value.ClassInstance ref) = false) := by
  refine ⟨?_, rfl, fun _ => rfl, fun _ => rfl⟩
  cases h with
  | None => simp [IsTrue]
  | Number n => simp [IsTrue]
  | String s => cases s <;> simp [IsTrue]
  | Bool b => simp [IsTrue]
  | Class cls => simp [IsTrue]
  | ClassInstance ref => simp [IsTrue]

/-- C12: for two holders neither of which holds a class instance, `Equal(a, b)` and
`Equal(b, a)` end the same way: both return the same boolean, or both throw the error
"Cannot compare objects for equality"; the state is left as it was. -/
theorem C12_Equal_symmetric (ex : Statement → Config → Run Value) (a b : Value) (c : Config)
    (ha : ∀ ref, a ≠ Value.ClassInstance ref) (hb : ∀ ref, b ≠ Value.ClassInstance ref) :
    Equal ex a b c = Equal ex b a c ∧
      ((∃ r, Equal ex a b c = Result.ok (Flow.value r, c)) ∨
        Equal ex a b c = Result.ok (Flow.error "Cannot compare objects for equality", c)) := by
  cases a with
  | ClassInstance ref => exact absurd rfl (ha ref)
  | None =>
    cases b with
    | ClassInstance ref => exact absurd rfl (hb ref)
    | _ => simp [Equal]
  | Number x =>
    cases b with
    | ClassInstance ref => exact absurd rfl (hb ref)
    | Number y => simp [Equal, eq_comm]
    | _ => simp [Equal]
  | String x =>
    cases b with
    | ClassInstance ref => exact absurd rfl (hb ref)
    | String y => simp [Equal, eq_comm]
    | _ => simp [Equal]
  | Bool x =>
    cases b with
    | ClassInstance ref => exact absurd rfl (hb ref)
    | Bool y => simp [Equal, eq_comm]
    | _ => simp [Equal]
  | Class x =>
    cases b with
    | ClassInstance ref => exact absurd rfl (hb ref)
    | _ => simp [Equal]

/-- C12 (witness): a number and a string cannot be compared, in either order. -/
theorem C12_Equal_symmetric_witness :
    Equal (fun _ c => Result.ok (Flow.value Value.None, c)) (Value.Number 1)
        (Value.String [97]) ⟨[], [], [], fun _ => []⟩
      = Equal (fun _ c => Result.ok (Flow.value Value.None, c)) (Value.String [97])
        (Value.Number 1) ⟨[], [], [], fun _ => []⟩ ∧
      ((∃ r, Equal (fun _ c => Result.ok (Flow.value Value.None, c)) (Value.Number 1)
          (Value.String [97]) ⟨[], [], [], fun _ => []⟩
            = Result.ok (Flow.value r, ⟨[], [], [], fun _ => []⟩)) ∨
        Equal (fun _ c => Result.ok (Flow.value Value.None, c)) (Value.Number 1)
          (Value.String [97]) ⟨[], [], [], fun _ => []⟩
            = Result.ok (Flow.error "Cannot compare objects for equality",
                ⟨[], [], [], fun _ => []⟩)) :=
  C12_Equal_symmetric _ (Value.Number 1) (Value.String [97]) ⟨[], [], [], fun _ => []⟩
    (fun _ h => by cases h) (fun _ h => by cases h)

theorem stringLess_irrefl : ∀ s : List Nat, stringLess s s = false := by
  intro s
  induction s with
  | nil => rfl
  | cons a s ih => simp [stringLess, ih]

theorem stringLess_iff_lex : ∀ s t : List Nat,
    stringLess s t = true ↔ List.Lex (fun x y => x < y) s t := by
  intro s
  induction s with
  | nil =>
    intro t
    cases t with
    | nil => simp [stringLess]
    | cons b t => simp [stringLess, List.Lex.nil]
  | cons a s ih =>
    intro t
    cases t with
    | nil => simp [stringLess]
    | cons b t =>
      rcases Nat.lt_trichotomy a b with h | h | h
      · simp only [stringLess, h, if_true, true_iff]
        exact List.Lex.rel h
      · subst h
        simp only [stringLess, Nat.lt_irrefl, if_false, ih t]
        exact List.Lex.cons_iff.symm
      · have h1 : ¬ a < b := by omega
        simp only [stringLess, h1, h, if_false, if_true]
        constructor
        · intro hf; cases hf
        · intro hl
          cases hl with
          | cons hl => omega
          | rel hl => omega

theorem stringLess_trichotomy : ∀ s t : List Nat,
    (stringLess s t = true ∧ s ≠ t ∧ stringLess t s = false) ∨
    (stringLess s t = false ∧ s = t ∧ stringLess t s = false) ∨
    (stringLess s t = false ∧ s ≠ t ∧ stringLess t s = true) := by
  intro s
  induction s with
  | nil =>
    intro t
    cases t with
    | nil => simp [stringLess]
    | cons b t => simp [stringLess]
  | cons a s ih =>
    intro t
    cases t with
    | nil => simp [stringLess]
    | cons b t =>
      rcases Nat.lt_trichotomy a b with h | h | h
      · have h1 : ¬ b < a := by omega
        have h2 : a ≠ b := by omega
        simp [stringLess, h, h1, h2]
      · subst h
        simpa [stringLess] using ih t
      · have h1 : ¬ a < b := by omega
        have h2 : a ≠ b := by omega
        simp [stringLess, h, h1, h2]

/-- Exactly one of three booleans is true. -/
theorem exactlyOne_iff (x y z : Bool) :
    exactlyOne x y z = true ↔
      (x = true ∧ y = false ∧ z = false) ∨ (x = false ∧ y = true ∧ z = false) ∨
        (x = false ∧ y = false ∧ z = true) := by
  cases x <;> cases y <;> cases z <;> simp [exactlyOne]

/-- C13: on two numbers, two strings or two bools none of the six comparison functions
throws; they return `a == b`, `a < b`, `a != b`, `a > b`, `a <= b` and `a >= b` (strings in
the byte-wise lexicographic order, bools with `False < True`), and exactly one of `Less`,
`Equal` and `Greater` returns true. The state is left as it was. -/
theorem C13_comparisons (ex : Statement → Config → Run Value) (c : Config) :
    (∀ a b : Int,
      Equal ex (Value.Number a) (Value.Number b) c = Result.ok (Flow.value (decide (a = b)), c) ∧
      Less ex (Value.Number a) (Value.Number b) c = Result.ok (Flow.value (decide (a < b)), c) ∧
      NotEqual ex (Value.Number a) (Value.Number b) c
        = Result.ok (Flow.value (decide (a ≠ b)), c) ∧
      Greater ex (Value.Number a) (Value.Number b) c
        = Result.ok (Flow.value (decide (b < a)), c) ∧
      LessOrEqual ex (Value.Number a) (Value.Number b) c
        = Result.ok (Flow.value (decide (a ≤ b)), c) ∧
      GreaterOrEqual ex (Value.Number a) (Value.Number b) c
        = Result.ok (Flow.value (decide (b ≤ a)), c) ∧
      exactlyOne (decide (a < b)) (decide (a = b)) (decide (b < a)) = true) ∧
    (∀ s t : List Nat,
      Equal ex (Value.String s) (Value.String t) c = Result.ok (Flow.value (decide (s = t)), c) ∧
      Less ex (Value.String s) (Value.String t) c = Result.ok (Flow.value (stringLess s t), c) ∧
      NotEqual ex (Value.String s) (Value.String t) c
        = Result.ok (Flow.value (decide (s ≠ t)), c) ∧
      Greater ex (Value.String s) (Value.String t) c
        = Result.ok (Flow.value (stringLess t s), c) ∧
      LessOrEqual ex (Value.String s) (Value.String t) c
        = Result.ok (Flow.value (!stringLess t s), c) ∧
      GreaterOrEqual ex (Value.String s) (Value.String t) c
        = Result.ok (Flow.value (!stringLess s t), c) ∧
      (stringLess s t = true ↔ List.Lex (fun x y => x < y) s t) ∧
      exactlyOne (stringLess s t) (decide (s = t)) (stringLess t s) = true) ∧
    (∀ p q : Bool,
      Equal ex (Value.Bool p) (Value.Bool q) c = Result.ok (Flow.value (decide (p = q)), c) ∧
      Less ex (Value.Bool p) (Value.Bool q) c = Result.ok (Flow.value (decide (p < q)), c) ∧
      NotEqual ex (Value.Bool p) (Value.Bool q) c
        = Result.ok (Flow.value (decide (p ≠ q)), c) ∧
      Greater ex (Value.Bool p) (Value.Bool q) c
        = Result.ok (Flow.value (decide (q < p)), c) ∧
      LessOrEqual ex (Value.Bool p) (Value.Bool q) c
        = Result.ok (Flow.value (decide (p ≤ q)), c) ∧
      GreaterOrEqual ex (Value.Bool p) (Value.Bool q) c
        = Result.ok (Flow.value (decide (q ≤ p)), c) ∧
      exactlyOne (decide (p < q)) (decide (p = q)) (decide (q < p)) = true) := by
  refine ⟨?_, ?_, ?_⟩
  · intro a b
    rcases lt_trichotomy a b with h | h | h
    · have h1 : ¬ b < a := by omega
      have h2 : a ≠ b := by omega
      have h3 : a ≤ b := by omega
      have h4 : ¬ b ≤ a := by omega
      simp [Equal, Less, NotEqual, Greater, LessOrEqual, GreaterOrEqual, Run.bind, exactlyOne,
        h, h1, h2, h3, h4]
    · subst h
      simp [Equal, Less, NotEqual, Greater, LessOrEqual, GreaterOrEqual, Run.bind, exactlyOne]
    · have h1 : ¬ a < b := by omega
      have h2 : a ≠ b := by omega
      have h3 : ¬ a ≤ b := by omega
      have h4 : b ≤ a := by omega
      simp [Equal, Less, NotEqual, Greater, LessOrEqual, GreaterOrEqual, Run.bind, exactlyOne,
        h, h1, h2, h3, h4]
  · intro s t
    refine ⟨?_, ?_, ?_, ?_, ?_, ?_, stringLess_iff_lex s t, ?_⟩
    · simp [Equal]
    · simp [Less]
    · simp [NotEqual, Equal, Run.bind]
    · rcases stringLess_trichotomy s t with ⟨h1, h2, h3⟩ | ⟨h1, h2, h3⟩ | ⟨h1, h2, h3⟩ <;>
        simp [Greater, Less, Equal, Run.bind, h1, h2, h3, stringLess_irrefl]
    · rcases stringLess_trichotomy s t with ⟨h1, h2, h3⟩ | ⟨h1, h2, h3⟩ | ⟨h1, h2, h3⟩ <;>
        simp [LessOrEqual, Greater, Less, Equal, Run.bind, h1, h2, h3, stringLess_irrefl]
    · simp [GreaterOrEqual, Less, Run.bind]
    · rcases stringLess_trichotomy s t with ⟨h1, h2, h3⟩ | ⟨h1, h2, h3⟩ | ⟨h1, h2, h3⟩ <;>
        simp [exactlyOne, h1, h2, h3, stringLess_irrefl]
  · intro p q
    cases p <;> cases q <;>
      simp [Equal, Less, NotEqual, Greater, LessOrEqual, GreaterOrEqual, Run.bind, exactlyOne]

/-! ### Calls -/

theorem Closure_find_set_same : ∀ (cl : Closure) (k : String) (v : Value),
    (Closure.set cl k v).find k = some v := by
  intro cl
  induction cl with
  | nil => intro k v; simp [Closure.set, Closure.find]
  | cons p cl ih =>
    obtain ⟨k1, w⟩ := p
    intro k v
    by_cases h : k1 = k
    · simp [Closure.set, Closure.find, h]
    · simp [Closure.set, Closure.find, h, ih]

theorem Closure_find_set_other : ∀ (cl : Closure) (k k2 : String) (v : Value), k ≠ k2 →
    (Closure.set cl k v).find k2 = cl.find k2 := by
  intro cl
  induction cl with
  | nil => intro k k2 v h; simp [Closure.set, Closure.find, h]
  | cons p cl ih =>
    obtain ⟨k1, w⟩ := p
    intro k k2 v h
    by_cases h1 : k1 = k
    · subst h1
      simp [Closure.set, Closure.find, h]
    · by_cases h2 : k1 = k2
      · subst h2
        simp [Closure.set, Closure.find, h1]
      · simp [Closure.set, Closure.find, h1, h2, ih k k2 v h]

theorem bindParams_find_other : ∀ (ps : List String) (as : List Value) (cl : Closure)
    (k : String), k ∉ ps → (bindParams ps as cl).find k = cl.find k := by
  intro ps
  induction ps with
  | nil => intro as cl k _; rfl
  | cons p ps ih =>
    intro as cl k hk
    cases as with
    | nil => rfl
    | cons a as =>
      have h1 : p ≠ k := fun h => hk (h ▸ List.mem_cons_self _ _)
      have h2 : k ∉ ps := fun h => hk (List.mem_cons_of_mem _ h)
      simp only [bindParams]
      rw [ih as _ k h2, Closure_find_set_other cl p k a h1]

theorem bindParams_find_zip : ∀ (ps : List String) (as : List Value) (cl : Closure),
    ps.Nodup → ∀ p a, (p, a) ∈ ps.zip as → (bindParams ps as cl).find p = some a := by
  intro ps
  induction ps with
  | nil => intro as cl _ p a h; simp at h
  | cons p0 ps ih =>
    intro as cl hnd p a h
    cases as with
    | nil => simp at h
    | cons a0 as =>
      have hnd1 := List.nodup_cons.mp hnd
      simp only [List.zip_cons_cons, List.mem_cons, Prod.mk.injEq] at h
      simp only [bindParams]
      rcases h with ⟨rfl, rfl⟩ | h
      · rw [bindParams_find_other ps as _ p hnd1.1, Closure_find_set_same]
      · exact ih as _ hnd1.2 p a h

/-- C14 (as amended): `ClassInstance::Call` throws `Method <name> not found` exactly when
`HasMethod(name, |args|)` is false, that is when `GetMethod(name)` finds no method or one
with another number of formal parameters; otherwise it runs the body of the method found in
a fresh closure, made by binding `self` to the instance and then each formal parameter, in
order, to the actual argument of its position, a later binding replacing an earlier one of
the same name, and it ends as the body ends, the caller keeping its own closure. When the
formal parameters are pairwise distinct and none is called `self`, `self` is bound to the
instance and each formal parameter to the actual argument of its position. -/
theorem C14_Call (ex : Statement → Config → Run Value) (ref : Nat) (name : String)
    (args : List Value) (c : Config) (inst : Instance)
    (hinst : heapGet c.heap ref = some inst) :
    (HasMethod inst.cls name args.length = false ↔
      (inst.cls.GetMethod name = none ∨
        ∃ m, inst.cls.GetMethod name = some m ∧ m.formal_params.length ≠ args.length)) ∧
    (HasMethod inst.cls name args.length = false →
      Call ex ref name args c
        = Result.ok (Flow.error ("Method " ++ name ++ " not found"), c)) ∧
    (HasMethod inst.cls name args.length = true →
      ∃ m, inst.cls.GetMethod name = some m ∧ m.formal_params.length = args.length ∧
        Call ex ref name args c
          = leaveFrame c.closure
              (ex m.body { c with closure := callClosure ref m.formal_params args }) ∧
        (m.formal_params.Nodup → "self" ∉ m.formal_params →
          (callClosure ref m.formal_params args).find "self" = some (Value.ClassInstance ref) ∧
          ∀ p a, (p, a) ∈ m.formal_params.zip args →
            (callClosure ref m.formal_params args).find p = some a)) := by
  refine ⟨?_, ?_, ?_⟩
  · unfold HasMethod
    cases hm : inst.cls.GetMethod name with
    | none => simp
    | some m => simp
  · intro h
    simp [Call, hinst, h]
  · intro h
    have h0 := h
    unfold HasMethod at h0
    cases hm : inst.cls.GetMethod name with
    | none => simp [hm] at h0
    | some m =>
      simp only [hm, decide_eq_true_eq] at h0
      refine ⟨m, rfl, h0, ?_, ?_⟩
      · simp [Call, hinst, h, hm]
      · intro hnd hself
        constructor
        · unfold callClosure
          rw [bindParams_find_other _ _ _ _ hself, Closure_find_set_same]
        · intro p a hpa
          exact bindParams_find_zip _ _ _ hnd p a hpa

/-- C14, witness: an instance of `earlyClass` has no method `h`. -/
theorem C14_Call_witness :
    Call (Execute noExtern 3) 0 "h" [] earlyConfig
      = Result.ok (Flow.error ("Method " ++ "h" ++ " not found"), earlyConfig) :=
  (C14_Call (Execute noExtern 3) 0 "h" [] earlyConfig
    { cls := earlyClass,
      fields := [("t", Value.String [120]), ("r", Value.String [104, 105])] } rfl).2.1 rfl

/-- C14, counterexample: a method declared with the formal parameter `self` and called
with the argument 5 runs in a closure in which `self` is 5, not the instance. -/
theorem C14_formal_named_self_counterexample :
    HasMethod selfClass "f" 1 = true ∧
      (callClosure 0 ["self"] [Value.Number 5]).find "self" = some (Value.Number 5) ∧
      Call (Execute noExtern 3) 0 "f" [Value.Number 5] selfConfig
        = Result.ok (Flow.value (Value.Number 5), selfConfig) :=
  ⟨rfl, rfl, rfl⟩

/-! ### Print and Stringify -/

theorem Config_output_append_nil (c : Config) : { c with output := c.output ++ [] } = c := by
  cases c
  simp

theorem Print_after_Stringify (ext : Nat → Config → Run Value) (fuel : Nat)
    (x : Statement) (c : Config) :
    Execute ext (fuel + 1) (Statement.Print [x]) c
      = printAfterStringify (Execute ext (fuel + 1) (Statement.Stringify x) c) := by
  simp only [Execute, printArgs]
  cases hx : Execute ext fuel x c with
  | fuel => rfl
  | raise e => rfl
  | ok p =>
    obtain ⟨f, c1⟩ := p
    cases f with
    | error e => rfl
    | returned v => rfl
    | crash => rfl
    | value v =>
      have key : ∀ w : Value, (∀ h : w = Value.None, False) →
          Run.bind (Run.bind (printValue (Execute ext fuel) fuel w { c1 with output := c1.output ++ [] })
              fun bs c2 => Result.ok (Flow.value (), { c2 with output := c2.output ++ bs }))
            (fun _ c3 => Result.ok (Flow.value Value.None,
              { c3 with output := c3.output ++ [10] }))
          = printAfterStringify (Run.bind (printValue (Execute ext fuel) fuel w c1)
              fun bs c2 => Result.ok (Flow.value (Value.String bs), c2)) := by
        intro w _
        rw [Config_output_append_nil]
        cases hp : printValue (Execute ext fuel) fuel w c1 with
        | fuel => rfl
        | raise e => rfl
        | ok q =>
          obtain ⟨g, c2⟩ := q
          cases g with
          | error e => rfl
          | returned v => rfl
          | crash => rfl
          | value bs => simp [Run.bind, printAfterStringify]
      cases v with
      | None => simp [Run.bind, printAfterStringify]
      | Number n => exact key _ (fun h => by cases h)
      | String s => exact key _ (fun h => by cases h)
      | Bool b => exact key _ (fun h => by cases h)
      | Class cls => exact key _ (fun h => by cases h)
      | ClassInstance ref => exact key _ (fun h => by cases h)

theorem Stringify_forms (ext : Nat → Config → Run Value) (fuel : Nat) (x : Statement)
    (c c1 : Config) (v : Value)
    (h : Execute ext fuel x c = Result.ok (Flow.value v, c1)) :
    (v = Value.None → Execute ext (fuel + 1) (Statement.Stringify x) c
        = Result.ok (Flow.value (Value.String [78, 111, 110, 101]), c1)) ∧
      (v = Value.Bool true → Execute ext (fuel + 1) (Statement.Stringify x) c
        = Result.ok (Flow.value (Value.String [84, 114, 117, 101]), c1)) ∧
      (v = Value.Bool false → Execute ext (fuel + 1) (Statement.Stringify x) c
        = Result.ok (Flow.value (Value.String [70, 97, 108, 115, 101]), c1)) ∧
      (∀ n, v = Value.Number n → Execute ext (fuel + 1) (Statement.Stringify x) c
        = Result.ok (Flow.value (Value.String (decimal n)), c1)) ∧
      (∀ s, v = Value.String s → Execute ext (fuel + 1) (Statement.Stringify x) c
        = Result.ok (Flow.value (Value.String s), c1)) ∧
      (∀ name methods parent, v = Value.Class (Class.mk name methods parent) →
        Execute ext (fuel + 1) (Statement.Stringify x) c
          = Result.ok (Flow.value
              (Value.String ([67, 108, 97, 115, 115, 32] ++ bytesOf name)), c1)) ∧
      (∀ ref inst r c2 bs c3, v = Value.ClassInstance ref →
        heapGet c1.heap ref = some inst → HasMethod inst.cls "__str__" 0 = true →
        Call (Execute ext fuel) ref "__str__" [] c1 = Result.ok (Flow.value r, c2) →
        printValue (Execute ext fuel) (fuel - 1) r c2 = Result.ok (Flow.value bs, c3) →
        Execute ext (fuel + 1) (Statement.Stringify x) c
          = Result.ok (Flow.value (Value.String bs), c3)) := by
  cases fuel with
  | zero => rw [Execute] at h; cases h
  | succ k =>
    refine ⟨?_, ?_, ?_, ?_, ?_, ?_, ?_⟩
    · intro hv; subst hv
      rw [Execute, h]; rfl
    · intro hv; subst hv
      rw [Execute, h]; rfl
    · intro hv; subst hv
      rw [Execute, h]; rfl
    · intro n hv; subst hv
      rw [Execute, h]; rfl
    · intro s hv; subst hv
      rw [Execute, h]; rfl
    · intro name methods parent hv; subst hv
      rw [Execute, h]; rfl
    · intro ref inst r c2 bs c3 hv hinst hhas hcall hprint
      subst hv
      rw [Execute, h]
      simp only [Run.bind, printValue, hinst, hhas, if_true, hcall]
      rw [Nat.add_sub_cancel] at hprint
      rw [hprint]

/-- C15 (as amended): `Print([x])` ends as `Stringify(x)` does from the same state, except
that after a `String` result its bytes, followed by a newline, are written to the output
stream and the empty holder is returned. So the bytes of the `String` are exactly the bytes
that `Print([x])` writes, without the final newline, after everything that the evaluation
of `x` and the bodies of `__str__` write; `Stringify` writes the latter to the output
stream as well, but none of the bytes of the `String`. The `String` is `None` for the
empty holder, `True` or `False` for a Bool, the decimal digits for a Number, the bytes
themselves for a String, `Class` and the name for a Class, and the printed result of
`__str__` for an instance that defines it without parameters. -/
theorem C15_Print_after_Stringify (ext : Nat → Config → Run Value) (fuel : Nat)
    (x : Statement) (c : Config) :
    Execute ext (fuel + 1) (Statement.Print [x]) c
        = printAfterStringify (Execute ext (fuel + 1) (Statement.Stringify x) c) ∧
      ∀ v c1, Execute ext fuel x c = Result.ok (Flow.value v, c1) →
        (v = Value.None → Execute ext (fuel + 1) (Statement.Stringify x) c
          = Result.ok (Flow.value (Value.String [78, 111, 110, 101]), c1)) ∧
        (v = Value.Bool true → Execute ext (fuel + 1) (Statement.Stringify x) c
          = Result.ok (Flow.value (Value.String [84, 114, 117, 101]), c1)) ∧
        (v = Value.Bool false → Execute ext (fuel + 1) (Statement.Stringify x) c
          = Result.ok (Flow.value (Value.String [70, 97, 108, 115, 101]), c1)) ∧
        (∀ n, v = Value.Number n → Execute ext (fuel + 1) (Statement.Stringify x) c
          = Result.ok (Flow.value (Value.String (decimal n)), c1)) ∧
        (∀ s, v = Value.String s → Execute ext (fuel + 1) (Statement.Stringify x) c
          = Result.ok (Flow.value (Value.String s), c1)) ∧
        (∀ name methods parent, v = Value.Class (Class.mk name methods parent) →
          Execute ext (fuel + 1) (Statement.Stringify x) c
            = Result.ok (Flow.value
                (Value.String ([67, 108, 97, 115, 115, 32] ++ bytesOf name)), c1)) ∧
        (∀ ref inst r c2 bs c3, v = Value.ClassInstance ref →
          heapGet c1.heap ref = some inst → HasMethod inst.cls "__str__" 0 = true →
          Call (Execute ext fuel) ref "__str__" [] c1 = Result.ok (Flow.value r, c2) →
          printValue (Execute ext fuel) (fuel - 1) r c2 = Result.ok (Flow.value bs, c3) →
          Execute ext (fuel + 1) (Statement.Stringify x) c
            = Result.ok (Flow.value (Value.String bs), c3)) :=
  ⟨Print_after_Stringify ext fuel x c, fun v c1 h => Stringify_forms ext fuel x c c1 v h⟩

/-- C15, witness: the number -7 is printed and stringified as `-7`. -/
theorem C15_Print_after_Stringify_witness :
    Execute noExtern 3 (Statement.Stringify (Statement.VariableValue ["m"])) plainConfig
      = Result.ok (Flow.value (Value.String (decimal (-7))), plainConfig) :=
  ((C15_Print_after_Stringify noExtern 2 (Statement.VariableValue ["m"]) plainConfig).2
    (Value.Number (-7)) plainConfig rfl).2.2.2.1 (-7) rfl

/-- C15, counterexample: for an instance whose `__str__` prints `x` and returns `hi`,
`Print` writes `x`, a newline, `hi` and a newline, so what it writes without the final
newline is not the text `hi` of the `String` that `Stringify` returns; and `Stringify`
wrote `x` and a newline to the output stream. -/
theorem C15_str_that_prints_counterexample :
    (Execute noExtern 10 (Statement.Stringify (Statement.VariableValue ["p"])) chattyConfig).summary
        = some (Flow.value (Value.String [104, 105]), [120, 10]) ∧
      (Execute noExtern 10 (Statement.Print [Statement.VariableValue ["p"]]) chattyConfig).summary
        = some (Flow.value Value.None, [120, 10, 104, 105, 10]) :=
  ⟨rfl, rfl⟩

theorem execStatements_append_returned (ex : Statement → Config → Run Value) :
    ∀ (pre : List Statement) (s : Statement) (post : List Statement) (c c0 c1 : Config)
      (v : Value),
      execStatements ex pre c = Result.ok (Flow.value (), c0) →
      ex s c0 = Result.ok (Flow.returned v, c1) →
      execStatements ex (pre ++ s :: post) c = Result.ok (Flow.returned v, c1) := by
  intro pre
  induction pre with
  | nil =>
    intro s post c c0 c1 v hpre hs
    simp only [execStatements] at hpre
    cases hpre
    simp only [List.nil_append, execStatements, hs, Run.bind]
  | cons a rest ih =>
    intro s post c c0 c1 v hpre hs
    simp only [execStatements] at hpre
    simp only [List.cons_append, execStatements]
    cases ha : ex a c with
    | fuel => rw [ha] at hpre; cases hpre
    | raise e => rw [ha] at hpre; cases hpre
    | ok p =>
      obtain ⟨f, ca⟩ := p
      rw [ha] at hpre
      cases f with
      | error e => cases hpre
      | returned w => cases hpre
      | crash => cases hpre
      | value w =>
        simp only [Run.bind] at hpre ⊢
        exact ih s post ca c0 c1 v hpre hs

theorem MethodBody_not_returned (ext : Nat → Config → Run Value) (fuel : Nat)
    (body : Statement) (c c1 : Config) (v : Value) :
    Execute ext fuel (Statement.MethodBody body) c ≠ Result.ok (Flow.returned v, c1) := by
  cases fuel with
  | zero => intro h; rw [Execute] at h; cases h
  | succ n =>
    rw [Execute]
    cases hb : Execute ext n body c with
    | fuel => intro h; cases h
    | raise e => intro h; cases h
    | ok p =>
      obtain ⟨f, cb⟩ := p
      cases f <;> (intro h; cases h)

/-- C17: the return signal of a `Return(e)` carries the value of `e`; a `Compound` and an
`IfElse` forward it, and the statements placed after the one that raised it are not
executed; the nearest enclosing `MethodBody` catches it and returns its payload, and no
signal leaves a `MethodBody`. So a call of a method whose body is a `MethodBody` in which a
`Return` happens ends with the payload as its value, in the caller's closure, and the
outer body goes on with its next statement. -/
theorem C17_return_signal (ext : Nat → Config → Run Value) :
    (∀ fuel e c c1 v, Execute ext fuel e c = Result.ok (Flow.value v, c1) →
        Execute ext (fuel + 1) (Statement.Return e) c = Result.ok (Flow.returned v, c1)) ∧
      (∀ fuel pre s post c c0 c1 v,
        execStatements (Execute ext fuel) pre c = Result.ok (Flow.value (), c0) →
        Execute ext fuel s c0 = Result.ok (Flow.returned v, c1) →
        Execute ext (fuel + 1) (Statement.Compound (pre ++ s :: post)) c
            = Result.ok (Flow.returned v, c1) ∧
          Execute ext (fuel + 2) (Statement.MethodBody (Statement.Compound (pre ++ s :: post))) c
            = Result.ok (Flow.value v, c1)) ∧
      (∀ fuel condition if_body else_body c c0 c1 t v,
        Execute ext fuel condition c = Result.ok (Flow.value t, c0) →
        (IsTrue t = true ∧ Execute ext fuel if_body c0 = Result.ok (Flow.returned v, c1)) ∨
          (IsTrue t = false ∧ ∃ e, else_body = some e ∧
            Execute ext fuel e c0 = Result.ok (Flow.returned v, c1)) →
        Execute ext (fuel + 1) (Statement.IfElse condition if_body else_body) c
          = Result.ok (Flow.returned v, c1)) ∧
      (∀ fuel body c c1 v, Execute ext fuel body c = Result.ok (Flow.returned v, c1) →
        Execute ext (fuel + 1) (Statement.MethodBody body) c = Result.ok (Flow.value v, c1)) ∧
      (∀ fuel body c c1 v,
        Execute ext fuel (Statement.MethodBody body) c ≠ Result.ok (Flow.returned v, c1)) ∧
      (∀ fuel ref name args c inst m body c1 v,
        heapGet c.heap ref = some inst →
        inst.cls.GetMethod name = some m →
        m.formal_params.length = args.length →
        m.body = Statement.MethodBody body →
        Execute ext fuel body { c with closure := callClosure ref m.formal_params args }
          = Result.ok (Flow.returned v, c1) →
        Call (Execute ext (fuel + 1)) ref name args c
          = Result.ok (Flow.value v, { c1 with closure := c.closure })) ∧
      (∀ fuel s rest c c1 w, Execute ext fuel s c = Result.ok (Flow.value w, c1) →
        execStatements (Execute ext fuel) (s :: rest) c
          = execStatements (Execute ext fuel) rest c1) := by
  refine ⟨?_, ?_, ?_, ?_, ?_, ?_, ?_⟩
  · intro fuel e c c1 v h
    rw [Execute, h, Run.bind]
  · intro fuel pre s post c c0 c1 v hpre hs
    have h1 : Execute ext (fuel + 1) (Statement.Compound (pre ++ s :: post)) c
        = Result.ok (Flow.returned v, c1) := by
      rw [Execute, execStatements_append_returned (Execute ext fuel) pre s post c c0 c1 v hpre hs,
        Run.bind]
    refine ⟨h1, ?_⟩
    rw [Execute, h1]
  · intro fuel condition if_body else_body c c0 c1 t v hc h
    rw [Execute, hc, Run.bind]
    rcases h with ⟨ht, hb⟩ | ⟨ht, e, he, hb⟩
    · show (if IsTrue t = true then _ else _) = _
      rw [if_pos ht, hb]
    · subst he
      show (if IsTrue t = true then _ else _) = _
      rw [if_neg (by rw [ht]; exact Bool.false_ne_true)]
      exact hb
  · intro fuel body c c1 v h
    rw [Execute, h]
  · intro fuel body c c1 v
    exact MethodBody_not_returned ext fuel body c c1 v
  · intro fuel ref name args c inst m body c1 v hinst hm hlen hbody hret
    have hhas : HasMethod inst.cls name args.length = true := by
      unfold HasMethod
      rw [hm]
      exact decide_eq_true hlen
    unfold Call
    rw [hinst]
    show (if HasMethod inst.cls name args.length = true then _ else _) = _
    rw [if_pos hhas]
    show (match inst.cls.GetMethod name with
      | some m => leaveFrame c.closure
          (Execute ext (fuel + 1) m.body { c with closure := callClosure ref m.formal_params args })
      | none => Result.ok (Flow.crash, c)) = _
    rw [hm]
    show leaveFrame c.closure
      (Execute ext (fuel + 1) m.body { c with closure := callClosure ref m.formal_params args }) = _
    rw [hbody, Execute, hret]
    rfl
  · intro fuel s rest c c1 w h
    rw [execStatements, h, Run.bind]

/-- C17, witness: `g` calls `f`, whose `return` sits inside an `if` and is followed by
other statements; the call of `g` from the top level returns what `g` returns, and the
only text written is the one that `g` prints after the call of `f` has returned. -/
theorem C17_return_signal_witness :
    (Execute noExtern 12 (Statement.MethodCall (Statement.VariableValue ["p"]) "g" [])
        earlyConfig).summary
        = some (Flow.value (Value.String [120]), [120, 10]) ∧
      Execute noExtern 3 (Statement.Return (Statement.VariableValue ["p"])) earlyConfig
        = Result.ok (Flow.returned (Value.ClassInstance 0), earlyConfig) :=
  ⟨rfl, (C17_return_signal noExtern).1 2 (Statement.VariableValue ["p"]) earlyConfig
    earlyConfig (Value.ClassInstance 0) rfl⟩

/-- C18 (as amended): when executing the body of a `MethodBody` ends without a return
signal and without an error, `MethodBody` returns the value that the body evaluated to;
that value is the empty holder `None` when the body is a `Compound`. -/
theorem C18_MethodBody_value (ext : Nat → Config → Run Value) (fuel : Nat)
    (body : Statement) (c c1 : Config) (v : Value)
    (h : Execute ext fuel body c = Result.ok (Flow.value v, c1)) :
    Execute ext (fuel + 1) (Statement.MethodBody body) c = Result.ok (Flow.value v, c1) ∧
      ((∃ statements, body = Statement.Compound statements) → v = Value.None) := by
  refine ⟨?_, ?_⟩
  · rw [Execute, h]
  · rintro ⟨statements, rfl⟩
    cases fuel with
    | zero => rw [Execute] at h; cases h
    | succ n =>
      rw [Execute] at h
      cases hs : execStatements (Execute ext n) statements c with
      | fuel => rw [hs] at h; cases h
      | raise e => rw [hs] at h; cases h
      | ok p =>
        obtain ⟨f, cs⟩ := p
        rw [hs] at h
        cases f with
        | error e => cases h
        | returned w => cases h
        | crash => cases h
        | value u =>
          simp only [Run.bind] at h
          cases h
          rfl

/-- C18, witness: a body that is an assignment of the number 2. -/
theorem C18_MethodBody_value_witness :
    Execute noExtern 3
        (Statement.MethodBody (Statement.Assignment "x" (Statement.VariableValue ["d"])))
        plainConfig
      = Result.ok (Flow.value (Value.Number 2),
          { plainConfig with closure := plainConfig.closure.set "x" (Value.Number 2) }) :=
  (C18_MethodBody_value noExtern 2
    (Statement.Assignment "x" (Statement.VariableValue ["d"])) plainConfig
    { plainConfig with closure := plainConfig.closure.set "x" (Value.Number 2) }
    (Value.Number 2) rfl).1

/-- C18, counterexample: the body `x = d`, where `d` is 2, ends without a return signal,
and the `MethodBody` around it returns the number 2, not the empty holder. -/
theorem C18_body_value_returned_counterexample :
    (Execute noExtern 3
        (Statement.MethodBody (Statement.Assignment "x" (Statement.VariableValue ["d"])))
        plainConfig).summary
      = some (Flow.value (Value.Number 2), []) :=
  rfl

/-! ### Arithmetic -/

theorem toInt32_of_range (x : Int) (h0 : -2147483648 ≤ x) (h1 : x < 2147483648) :
    toInt32 x = x := by
  unfold toInt32
  omega

theorem tdiv_range (a b : Int) (ha0 : -2147483648 ≤ a) (ha1 : a < 2147483648)
    (hb : b ≠ 0) (hov : ¬ (a = -2147483648 ∧ b = -1)) :
    -2147483648 ≤ Int.tdiv a b ∧ Int.tdiv a b < 2147483648 := by
  rcases Int.lt_or_le a 0 with han | hap
  · rcases Int.lt_or_le b 0 with hbn | hbp
    · -- both negative: the quotient is `(-a) / (-b)`
      have e : Int.tdiv a b = (-a) / (-b) := by
        rw [← Int.neg_tdiv_neg a b]
        exact Int.tdiv_eq_ediv (by omega) (by omega)
      rw [e]
      have h1 : 0 ≤ (-a) / (-b) := Int.ediv_nonneg (by omega) (by omega)
      have h2 : (-a) / (-b) * (-b) ≤ -a := Int.ediv_mul_le (-a) (by omega)
      by_cases hb1 : b = -1
      · subst hb1
        have : a ≠ -2147483648 := fun h => hov ⟨h, rfl⟩
        simp at h2 ⊢
        omega
      · have h3 : (-a) / (-b) * 2 ≤ (-a) / (-b) * (-b) :=
          Int.mul_le_mul_of_nonneg_left (by omega) h1
        omega
    · -- negative by positive: the quotient is `-((-a) / b)`
      have e : Int.tdiv a b = -((-a) / b) := by
        have h := Int.neg_tdiv (-a) b
        rw [Int.neg_neg] at h
        rw [h, Int.tdiv_eq_ediv (by omega) hbp]
      rw [e]
      have h1 : 0 ≤ (-a) / b := Int.ediv_nonneg (by omega) hbp
      have h2 : (-a) / b ≤ -a := Int.ediv_le_self b (by omega)
      omega
  · rcases Int.lt_or_le b 0 with hbn | hbp
    · have e : Int.tdiv a b = -(a / (-b)) := by
        have h := Int.tdiv_neg a (-b)
        rw [Int.neg_neg] at h
        rw [h, Int.tdiv_eq_ediv hap (by omega)]
      rw [e]
      have h1 : 0 ≤ a / (-b) := Int.ediv_nonneg hap (by omega)
      have h2 : a / (-b) ≤ a := Int.ediv_le_self (-b) hap
      omega
    · rw [Int.tdiv_eq_ediv hap hbp]
      have h1 : 0 ≤ a / b := Int.ediv_nonneg hap hbp
      have h2 : a / b ≤ a := Int.ediv_le_self b hap
      omega

/-- C19: when both operands evaluate to Numbers `a` and `b`, `Div` raises the runtime
error `division by zero` if `b = 0` and otherwise, the overflowing case `a = -2^31`,
`b = -1` apart, returns the Number whose value is the quotient of `a` by `b` truncated
toward zero; when an operand evaluates to something that is not a Number, `Sub`, `Mult`
and `Div` each raise a runtime error. -/
theorem C19_Div_Sub_Mult (ext : Nat → Config → Run Value) (fuel : Nat) (lhs rhs : Statement)
    (c c1 c2 : Config) (x y : Value)
    (hl : Execute ext fuel lhs c = Result.ok (Flow.value x, c1))
    (hr : Execute ext fuel rhs c1 = Result.ok (Flow.value y, c2)) :
    (∀ a b : Int, x = Value.Number a → y = Value.Number b →
        (b = 0 → Execute ext (fuel + 1) (Statement.Div lhs rhs) c
            = Result.ok (Flow.error "division by zero", c2)) ∧
        (b ≠ 0 → -2147483648 ≤ a → a < 2147483648 → ¬ (a = -2147483648 ∧ b = -1) →
          Execute ext (fuel + 1) (Statement.Div lhs rhs) c
            = Result.ok (Flow.value (Value.Number (Int.tdiv a b)), c2))) ∧
      ((∀ a, x ≠ Value.Number a) ∨ (∀ b, y ≠ Value.Number b) →
        Execute ext (fuel + 1) (Statement.Sub lhs rhs) c
            = Result.ok (Flow.error "Cannot sub objects", c2) ∧
          Execute ext (fuel + 1) (Statement.Mult lhs rhs) c
            = Result.ok (Flow.error "Cannot multiply objects", c2) ∧
          Execute ext (fuel + 1) (Statement.Div lhs rhs) c
            = Result.ok (Flow.error "Cannot division objects", c2)) := by
  refine ⟨?_, ?_⟩
  · intro a b hx hy
    subst hx; subst hy
    refine ⟨?_, ?_⟩
    · intro hb
      rw [Execute, hl, Run.bind, hr, Run.bind]
      show (if b = 0 then (Result.ok (Flow.error "division by zero", c2) : Run Value)
        else Result.ok (Flow.value (Value.Number (toInt32 (Int.tdiv a b))), c2)) = _
      rw [if_pos hb]
    · intro hb ha0 ha1 hov
      rw [Execute, hl, Run.bind, hr, Run.bind]
      have hq := tdiv_range a b ha0 ha1 hb hov
      show (if b = 0 then (Result.ok (Flow.error "division by zero", c2) : Run Value)
        else Result.ok (Flow.value (Value.Number (toInt32 (Int.tdiv a b))), c2)) = _
      rw [if_neg hb, toInt32_of_range _ hq.1 hq.2]
  · intro h
    refine ⟨?_, ?_, ?_⟩
    · rw [Execute, hl, Run.bind, hr, Run.bind]
      cases x <;> cases y <;> first
        | rfl
        | (rcases h with h | h <;> exact absurd rfl (h _))
    · rw [Execute, hl, Run.bind, hr, Run.bind]
      cases x <;> cases y <;> first
        | rfl
        | (rcases h with h | h <;> exact absurd rfl (h _))
    · rw [Execute, hl, Run.bind, hr, Run.bind]
      cases x <;> cases y <;> first
        | rfl
        | (rcases h with h | h <;> exact absurd rfl (h _))

/-- C19, witness: -7 divided by 2 is -3. -/
theorem C19_Div_Sub_Mult_witness :
    Execute noExtern 3
        (Statement.Div (Statement.VariableValue ["m"]) (Statement.VariableValue ["d"]))
        plainConfig
      = Result.ok (Flow.value (Value.Number (Int.tdiv (-7) 2)), plainConfig) :=
  ((C19_Div_Sub_Mult noExtern 2 (Statement.VariableValue ["m"])
      (Statement.VariableValue ["d"]) plainConfig plainConfig plainConfig
      (Value.Number (-7)) (Value.Number 2) rfl rfl).1 (-7) 2 rfl rfl).2
    (by decide) (by decide) (by decide) (by decide)

/-- C20: when `lhs` and `rhs` evaluate to values, `Add` returns what calling `__add__` on
the instance with the single argument `rhs` returns when `lhs` is a class instance (the
runtime error `Method __add__ not found` when the instance resolves no `__add__` with one
parameter), the Number `a + b` when both are Numbers, the String `s ++ t` when both are
Strings, and raises a runtime error in every other case. -/
theorem C20_Add (ext : Nat → Config → Run Value) (fuel : Nat) (lhs rhs : Statement)
    (c c1 c2 : Config) (x y : Value)
    (hl : Execute ext fuel lhs c = Result.ok (Flow.value x, c1))
    (hr : Execute ext fuel rhs c1 = Result.ok (Flow.value y, c2)) :
    (∀ ref, x = Value.ClassInstance ref →
        Execute ext (fuel + 1) (Statement.Add lhs rhs) c
            = Call (Execute ext fuel) ref "__add__" [y] c2 ∧
          ∀ inst, heapGet c2.heap ref = some inst →
            HasMethod inst.cls "__add__" 1 = false →
            Execute ext (fuel + 1) (Statement.Add lhs rhs) c
              = Result.ok (Flow.error "Method __add__ not found", c2)) ∧
      (∀ a b : Int, x = Value.Number a → y = Value.Number b →
        Execute ext (fuel + 1) (Statement.Add lhs rhs) c
            = Result.ok (Flow.value (Value.Number (toInt32 (a + b))), c2) ∧
          (-2147483648 ≤ a + b → a + b < 2147483648 →
            Execute ext (fuel + 1) (Statement.Add lhs rhs) c
              = Result.ok (Flow.value (Value.Number (a + b)), c2))) ∧
      (∀ s t : List Nat, x = Value.String s → y = Value.String t →
        Execute ext (fuel + 1) (Statement.Add lhs rhs) c
          = Result.ok (Flow.value (Value.String (s ++ t)), c2)) ∧
      ((∀ ref, x ≠ Value.ClassInstance ref) →
        ¬ (∃ a b, x = Value.Number a ∧ y = Value.Number b) →
        ¬ (∃ s t, x = Value.String s ∧ y = Value.String t) →
        Execute ext (fuel + 1) (Statement.Add lhs rhs) c
          = Result.ok (Flow.error "Cannot sum objects", c2)) := by
  refine ⟨?_, ?_, ?_, ?_⟩
  · intro ref hx
    subst hx
    have h1 : Execute ext (fuel + 1) (Statement.Add lhs rhs) c
        = Call (Execute ext fuel) ref "__add__" [y] c2 := by
      rw [Execute, hl, Run.bind, hr, Run.bind]
    refine ⟨h1, ?_⟩
    intro inst hinst hno
    rw [h1]
    unfold Call
    rw [hinst]
    show (if HasMethod inst.cls "__add__" 1 = true then _ else _) = _
    rw [if_neg (by rw [hno]; exact Bool.false_ne_true)]
    rfl
  · intro a b hx hy
    subst hx; subst hy
    have h1 : Execute ext (fuel + 1) (Statement.Add lhs rhs) c
        = Result.ok (Flow.value (Value.Number (toInt32 (a + b))), c2) := by
      rw [Execute, hl, Run.bind, hr, Run.bind]
    refine ⟨h1, ?_⟩
    intro h0 h2
    rw [h1, toInt32_of_range _ h0 h2]
  · intro s t hx hy
    subst hx; subst hy
    rw [Execute, hl, Run.bind, hr, Run.bind]
  · intro hi hn hs
    rw [Execute, hl, Run.bind, hr, Run.bind]
    cases x with
    | ClassInstance ref => exact absurd rfl (hi ref)
    | Number a =>
      cases y with
      | Number b => exact absurd ⟨a, b, rfl, rfl⟩ hn
      | _ => rfl
    | String s =>
      cases y with
      | String t => exact absurd ⟨s, t, rfl, rfl⟩ hs
      | _ => rfl
    | None => cases y <;> rfl
    | Bool p => cases y <;> rfl
    | Class cls => cases y <;> rfl

/-- C20, witness: the sum of the numbers -7 and 2 is -5. -/
theorem C20_Add_witness :
    Execute noExtern 3
        (Statement.Add (Statement.VariableValue ["m"]) (Statement.VariableValue ["d"]))
        plainConfig
      = Result.ok (Flow.value (Value.Number (-7 + 2)), plainConfig) :=
  ((C20_Add noExtern 2 (Statement.VariableValue ["m"]) (Statement.VariableValue ["d"])
      plainConfig plainConfig plainConfig (Value.Number (-7)) (Value.Number 2) rfl rfl).2.1
    (-7) 2 rfl rfl).2 (by decide) (by decide)

/-! ### Instances are kept -/

theorem HeapKeeps_refl (h : List Instance) : HeapKeeps h h :=
  fun _ inst hi => ⟨inst, hi, rfl⟩

theorem HeapKeeps_trans {h1 h2 h3 : List Instance} (h12 : HeapKeeps h1 h2)
    (h23 : HeapKeeps h2 h3) : HeapKeeps h1 h3 := by
  intro i inst hi
  obtain ⟨inst2, hi2, hc2⟩ := h12 i inst hi
  obtain ⟨inst3, hi3, hc3⟩ := h23 i inst2 hi2
  exact ⟨inst3, hi3, hc3.trans hc2⟩

theorem heapGet_append_left : ∀ (h : List Instance) (x : Instance) (i : Nat) (inst : Instance),
    heapGet h i = some inst → heapGet (h ++ [x]) i = some inst := by
  intro h
  induction h with
  | nil => intro x i inst hi; cases i <;> cases hi
  | cons a rest ih =>
    intro x i inst hi
    cases i with
    | zero => exact hi
    | succ n => exact ih x n inst hi

theorem heapGet_append_length : ∀ (h : List Instance) (x : Instance),
    heapGet (h ++ [x]) h.length = some x := by
  intro h
  induction h with
  | nil => intro x; rfl
  | cons a rest ih => intro x; exact ih x

theorem heapGet_length : ∀ (h : List Instance), heapGet h h.length = none := by
  intro h
  induction h with
  | nil => rfl
  | cons a rest ih => exact ih

theorem HeapKeeps_append (h : List Instance) (x : Instance) : HeapKeeps h (h ++ [x]) :=
  fun i inst hi => ⟨inst, heapGet_append_left h x i inst hi, rfl⟩

theorem HeapKeeps_setFields : ∀ (h : List Instance) (ref : Nat) (f : Closure),
    HeapKeeps h (heapSetFields h ref f) := by
  intro h
  induction h with
  | nil => intro ref f i inst hi; cases i <;> cases hi
  | cons a rest ih =>
    intro ref f i inst hi
    cases ref with
    | zero =>
      cases i with
      | zero =>
        simp only [heapGet, Option.some.injEq] at hi
        subst hi
        exact ⟨_, rfl, rfl⟩
      | succ n => exact ⟨inst, hi, rfl⟩
    | succ r =>
      cases i with
      | zero => exact ⟨inst, hi, rfl⟩
      | succ n => exact ih r f n inst hi

theorem Keeps_ok {α : Type} (h : List Instance) (f : Flow α) (c : Config)
    (hk : HeapKeeps h c.heap) : Run.Keeps h (Result.ok (f, c) : Run α) := by
  intro g c1 e
  cases e
  exact hk

theorem Keeps_fuel {α : Type} (h : List Instance) : Run.Keeps h (Result.fuel : Run α) := by
  intro g c1 e
  cases e

theorem Keeps_of_heap {α : Type} {h h1 : List Instance} {r : Run α} (hk : HeapKeeps h h1)
    (hr : Run.Keeps h1 r) : Run.Keeps h r :=
  fun f c1 e => HeapKeeps_trans hk (hr f c1 e)

theorem Keeps_bind {α β : Type} (h : List Instance) (r : Run α) (k : α → Config → Run β)
    (hr : Run.Keeps h r) (hk : ∀ a c1, Run.Keeps c1.heap (k a c1)) :
    Run.Keeps h (Run.bind r k) := by
  cases r with
  | fuel => exact Keeps_fuel h
  | raise e => intro g c1 e1; cases e1
  | ok p =>
    obtain ⟨f, c0⟩ := p
    have h0 : HeapKeeps h c0.heap := hr f c0 rfl
    cases f with
    | value a => exact Keeps_of_heap h0 (hk a c0)
    | error e => exact Keeps_ok h _ c0 h0
    | returned v => exact Keeps_ok h _ c0 h0
    | crash => exact Keeps_ok h _ c0 h0

theorem Keeps_leaveFrame (h : List Instance) (caller : Closure) (r : Run Value)
    (hr : Run.Keeps h r) : Run.Keeps h (leaveFrame caller r) := by
  cases r with
  | fuel => exact Keeps_fuel h
  | raise e => intro g c1 e1; cases e1
  | ok p =>
    obtain ⟨f, c0⟩ := p
    exact Keeps_ok h _ _ (hr f c0 rfl)

theorem Keeps_Call (ex : Statement → Config → Run Value)
    (hex : ∀ s c, Run.Keeps c.heap (ex s c)) (ref : Nat) (method : String)
    (actual_args : List Value) (c : Config) :
    Run.Keeps c.heap (Call ex ref method actual_args c) := by
  unfold Call
  cases heapGet c.heap ref with
  | none => exact Keeps_ok _ _ c (HeapKeeps_refl _)
  | some inst =>
    simp only []
    split
    · cases inst.cls.GetMethod method with
      | none => exact Keeps_ok _ _ c (HeapKeeps_refl _)
      | some m => exact Keeps_leaveFrame _ _ _ (hex m.body _)
    · exact Keeps_ok _ _ c (HeapKeeps_refl _)

theorem Keeps_asBool (h : List Instance) (r : Run Value) (hr : Run.Keeps h r) :
    Run.Keeps h (asBool r) := by
  unfold asBool
  refine Keeps_bind h r _ hr ?_
  intro v c1
  cases v <;> exact Keeps_ok _ _ c1 (HeapKeeps_refl _)

theorem Keeps_Equal (ex : Statement → Config → Run Value)
    (hex : ∀ s c, Run.Keeps c.heap (ex s c)) (lhs rhs : Value) (c : Config) :
    Run.Keeps c.heap (Equal ex lhs rhs c) := by
  unfold Equal
  split
  · exact Keeps_ok _ _ c (HeapKeeps_refl _)
  · exact Keeps_ok _ _ c (HeapKeeps_refl _)
  · exact Keeps_ok _ _ c (HeapKeeps_refl _)
  · exact Keeps_ok _ _ c (HeapKeeps_refl _)
  · split
    · exact Keeps_ok _ _ c (HeapKeeps_refl _)
    · split
      · exact Keeps_asBool _ _ (Keeps_Call ex hex _ _ _ c)
      · exact Keeps_ok _ _ c (HeapKeeps_refl _)
  · exact Keeps_ok _ _ c (HeapKeeps_refl _)

theorem Keeps_Less (ex : Statement → Config → Run Value)
    (hex : ∀ s c, Run.Keeps c.heap (ex s c)) (lhs rhs : Value) (c : Config) :
    Run.Keeps c.heap (Less ex lhs rhs c) := by
  unfold Less
  split
  · exact Keeps_ok _ _ c (HeapKeeps_refl _)
  · exact Keeps_ok _ _ c (HeapKeeps_refl _)
  · exact Keeps_ok _ _ c (HeapKeeps_refl _)
  · split
    · exact Keeps_ok _ _ c (HeapKeeps_refl _)
    · split
      · exact Keeps_asBool _ _ (Keeps_Call ex hex _ _ _ c)
      · exact Keeps_ok _ _ c (HeapKeeps_refl _)
  · exact Keeps_ok _ _ c (HeapKeeps_refl _)

theorem Keeps_Comparator (cmp : Comparator) (ex : Statement → Config → Run Value)
    (hex : ∀ s c, Run.Keeps c.heap (ex s c)) (lhs rhs : Value) (c : Config) :
    Run.Keeps c.heap (cmp.apply ex lhs rhs c) := by
  have hpure : ∀ (g : Bool → Bool) (b : Bool) (c1 : Config),
      Run.Keeps c1.heap (Result.ok (Flow.value (g b), c1) : Run Bool) :=
    fun g b c1 => Keeps_ok _ _ c1 (HeapKeeps_refl _)
  have hgreater : ∀ c0 : Config, Run.Keeps c0.heap (Greater ex lhs rhs c0) := by
    intro c0
    unfold Greater
    refine Keeps_bind _ _ _ (Keeps_Less ex hex lhs rhs c0) ?_
    intro l c1
    cases l with
    | true => exact Keeps_ok _ _ c1 (HeapKeeps_refl _)
    | false =>
      exact Keeps_bind _ _ _ (Keeps_Equal ex hex lhs rhs c1)
        (fun e c2 => Keeps_ok _ _ c2 (HeapKeeps_refl _))
  cases cmp with
  | Equal => exact Keeps_Equal ex hex lhs rhs c
  | Less => exact Keeps_Less ex hex lhs rhs c
  | NotEqual =>
    exact Keeps_bind _ _ _ (Keeps_Equal ex hex lhs rhs c)
      (fun b c1 => Keeps_ok _ _ c1 (HeapKeeps_refl _))
  | Greater => exact hgreater c
  | LessOrEqual =>
    exact Keeps_bind _ _ _ (hgreater c) (fun b c1 => Keeps_ok _ _ c1 (HeapKeeps_refl _))
  | GreaterOrEqual =>
    exact Keeps_bind _ _ _ (Keeps_Less ex hex lhs rhs c)
      (fun b c1 => Keeps_ok _ _ c1 (HeapKeeps_refl _))

theorem Keeps_printValue (ex : Statement → Config → Run Value)
    (hex : ∀ s c, Run.Keeps c.heap (ex s c)) :
    ∀ (fuel : Nat) (v : Value) (c : Config), Run.Keeps c.heap (printValue ex fuel v c) := by
  intro fuel
  induction fuel with
  | zero => intro v c; exact Keeps_fuel _
  | succ n ih =>
    intro v c
    cases v with
    | None => exact Keeps_ok _ _ c (HeapKeeps_refl _)
    | Number k => exact Keeps_ok _ _ c (HeapKeeps_refl _)
    | String s => exact Keeps_ok _ _ c (HeapKeeps_refl _)
    | Bool b => exact Keeps_ok _ _ c (HeapKeeps_refl _)
    | Class cls =>
      cases cls with
      | mk name ms p => exact Keeps_ok _ _ c (HeapKeeps_refl _)
    | ClassInstance ref =>
      rw [printValue]
      cases heapGet c.heap ref with
      | none => exact Keeps_ok _ _ c (HeapKeeps_refl _)
      | some inst =>
        simp only []
        split
        · exact Keeps_bind _ _ _ (Keeps_Call ex hex _ _ _ c) (fun r c1 => ih r c1)
        · exact Keeps_ok _ _ c (HeapKeeps_refl _)

theorem Keeps_execArgs (ex : Statement → Config → Run Value)
    (hex : ∀ s c, Run.Keeps c.heap (ex s c)) :
    ∀ (args : List Statement) (c : Config), Run.Keeps c.heap (execArgs ex args c) := by
  intro args
  induction args with
  | nil => intro c; exact Keeps_ok _ _ c (HeapKeeps_refl _)
  | cons a rest ih =>
    intro c
    rw [execArgs]
    refine Keeps_bind _ _ _ (hex a c) ?_
    intro v c1
    exact Keeps_bind _ _ _ (ih c1) (fun vs c2 => Keeps_ok _ _ c2 (HeapKeeps_refl _))

theorem Keeps_execStatements (ex : Statement → Config → Run Value)
    (hex : ∀ s c, Run.Keeps c.heap (ex s c)) :
    ∀ (statements : List Statement) (c : Config),
      Run.Keeps c.heap (execStatements ex statements c) := by
  intro statements
  induction statements with
  | nil => intro c; exact Keeps_ok _ _ c (HeapKeeps_refl _)
  | cons a rest ih =>
    intro c
    rw [execStatements]
    exact Keeps_bind _ _ _ (hex a c) (fun _ c1 => ih c1)

theorem Keeps_printArgs (ex : Statement → Config → Run Value)
    (pv : Value → Config → Run (List Nat))
    (hex : ∀ s c, Run.Keeps c.heap (ex s c)) (hpv : ∀ v c, Run.Keeps c.heap (pv v c)) :
    ∀ (args : List Statement) (delim : List Nat) (c : Config),
      Run.Keeps c.heap (printArgs ex pv delim args c) := by
  intro args
  induction args with
  | nil => intro delim c; exact Keeps_ok _ _ c (HeapKeeps_refl _)
  | cons a rest ih =>
    intro delim c
    rw [printArgs]
    refine Keeps_bind _ _ _ (hex a c) ?_
    intro value c1
    have hnone : Run.Keeps c1.heap (printArgs ex pv [32] rest
        { c1 with output := c1.output ++ delim ++ [78, 111, 110, 101] }) :=
      ih [32] { c1 with output := c1.output ++ delim ++ [78, 111, 110, 101] }
    have hsome : Run.Keeps c1.heap
        (Run.bind (pv value { c1 with output := c1.output ++ delim }) fun bs c2 =>
          printArgs ex pv [32] rest { c2 with output := c2.output ++ bs }) :=
      Keeps_bind c1.heap _ _ (hpv value { c1 with output := c1.output ++ delim })
        (fun bs c2 => ih [32] { c2 with output := c2.output ++ bs })
    cases value with
    | None => exact hnone
    | Number n => exact hsome
    | String s => exact hsome
    | Bool b => exact hsome
    | Class cls => exact hsome
    | ClassInstance ref => exact hsome

theorem Keeps_execVariableValue (dotted_ids : List String) (c : Config) :
    Run.Keeps c.heap (execVariableValue dotted_ids c) := by
  unfold execVariableValue
  cases dotted_ids with
  | nil => exact Keeps_ok _ _ c (HeapKeeps_refl _)
  | cons id0 rest =>
    simp only []
    cases c.closure.find id0 with
    | none => exact Keeps_ok _ _ c (HeapKeeps_refl _)
    | some obj =>
      cases rest with
      | nil => exact Keeps_ok _ _ c (HeapKeeps_refl _)
      | cons id1 more => exact Keeps_ok _ _ c (HeapKeeps_refl _)

theorem Keeps_arith (op : Int → Int → Int) (what : String) (lhs rhs : Value) (c : Config) :
    Run.Keeps c.heap (arith op what lhs rhs c) := by
  unfold arith
  split <;> exact Keeps_ok _ _ c (HeapKeeps_refl _)

theorem Keeps_Execute (ext : Nat → Config → Run Value) (hext : ExternKeeps ext) :
    ∀ (fuel : Nat) (s : Statement) (c : Config), Run.Keeps c.heap (Execute ext fuel s c) := by
  intro fuel
  induction fuel with
  | zero => intro s c; exact Keeps_fuel _
  | succ n ih =>
    intro s c
    have hsame : ∀ (f : Flow Value) (c1 : Config),
        Run.Keeps c1.heap (Result.ok (f, c1) : Run Value) :=
      fun f c1 => Keeps_ok _ _ c1 (HeapKeeps_refl _)
    cases s with
    | VariableValue dotted_ids =>
      rw [Execute]
      exact Keeps_execVariableValue dotted_ids c
    | Assignment var rv =>
      rw [Execute]
      exact Keeps_bind _ _ _ (ih rv c) (fun v c1 => Keeps_ok _ _ _ (HeapKeeps_refl _))
    | FieldAssignment object field_name rv =>
      rw [Execute]
      refine Keeps_bind _ _ _ (Keeps_execVariableValue object c) ?_
      intro o c1
      cases o with
      | ClassInstance ref =>
        refine Keeps_bind _ _ _ (ih rv c1) ?_
        intro v c2
        cases heapGet c2.heap ref with
        | none => exact hsame _ c2
        | some inst => exact Keeps_ok _ _ _ (HeapKeeps_setFields _ _ _)
      | None => exact hsame _ c1
      | Number k => exact hsame _ c1
      | String t => exact hsame _ c1
      | Bool b => exact hsame _ c1
      | Class cls => exact hsame _ c1
    | Print args =>
      rw [Execute]
      exact Keeps_bind _ _ _
        (Keeps_printArgs _ _ ih (Keeps_printValue _ ih n) args [] c)
        (fun _ c1 => Keeps_ok _ _ _ (HeapKeeps_refl _))
    | MethodCall object method args =>
      rw [Execute]
      refine Keeps_bind _ _ _ (Keeps_execArgs _ ih args c) ?_
      intro object_args c1
      refine Keeps_bind _ _ _ (ih object c1) ?_
      intro o c2
      cases o with
      | ClassInstance ref => exact Keeps_Call _ ih ref method object_args c2
      | None => exact hsame _ c2
      | Number k => exact hsame _ c2
      | String t => exact hsame _ c2
      | Bool b => exact hsame _ c2
      | Class cls => exact hsame _ c2
    | Stringify arg =>
      rw [Execute]
      refine Keeps_bind _ _ _ (ih arg c) ?_
      intro obj c1
      have hp : Run.Keeps c1.heap
          (Run.bind (printValue (Execute ext n) n obj c1) fun bs c2 =>
            (Result.ok (Flow.value (Value.String bs), c2) : Run Value)) :=
        Keeps_bind _ _ _ (Keeps_printValue _ ih n obj c1) (fun bs c2 => hsame _ c2)
      cases obj with
      | None => exact hsame _ c1
      | Number k => exact hp
      | String t => exact hp
      | Bool b => exact hp
      | Class cls => exact hp
      | ClassInstance ref => exact hp
    | Add lhs rhs =>
      rw [Execute]
      refine Keeps_bind _ _ _ (ih lhs c) ?_
      intro obj_lhs c1
      refine Keeps_bind _ _ _ (ih rhs c1) ?_
      intro obj_rhs c2
      split
      · exact Keeps_Call _ ih _ _ _ c2
      · exact hsame _ c2
      · exact hsame _ c2
      · exact hsame _ c2
    | Sub lhs rhs =>
      rw [Execute]
      refine Keeps_bind _ _ _ (ih lhs c) ?_
      intro obj_lhs c1
      exact Keeps_bind _ _ _ (ih rhs c1) (fun obj_rhs c2 => Keeps_arith _ _ _ _ c2)
    | Mult lhs rhs =>
      rw [Execute]
      refine Keeps_bind _ _ _ (ih lhs c) ?_
      intro obj_lhs c1
      exact Keeps_bind _ _ _ (ih rhs c1) (fun obj_rhs c2 => Keeps_arith _ _ _ _ c2)
    | Div lhs rhs =>
      rw [Execute]
      refine Keeps_bind _ _ _ (ih lhs c) ?_
      intro obj_lhs c1
      refine Keeps_bind _ _ _ (ih rhs c1) ?_
      intro obj_rhs c2
      split
      · split
        · exact hsame _ c2
        · exact hsame _ c2
      · exact hsame _ c2
    | Compound statements =>
      rw [Execute]
      exact Keeps_bind _ _ _ (Keeps_execStatements _ ih statements c)
        (fun _ c1 => hsame _ c1)
    | Return statement =>
      rw [Execute]
      exact Keeps_bind _ _ _ (ih statement c) (fun v c1 => hsame _ c1)
    | ClassDefinition cls =>
      cases cls with
      | mk name methods parent =>
        rw [Execute]
        exact Keeps_ok _ _ _ (HeapKeeps_refl _)
    | IfElse condition if_body else_body =>
      rw [Execute]
      refine Keeps_bind _ _ _ (ih condition c) ?_
      intro t c1
      split
      · exact ih if_body c1
      · cases else_body with
        | none => exact hsame _ c1
        | some e => exact ih e c1
    | Or lhs rhs =>
      rw [Execute]
      refine Keeps_bind _ _ _ (ih lhs c) ?_
      intro l c1
      split
      · exact hsame _ c1
      · exact Keeps_bind _ _ _ (ih rhs c1) (fun r c2 => hsame _ c2)
    | And lhs rhs =>
      rw [Execute]
      refine Keeps_bind _ _ _ (ih lhs c) ?_
      intro l c1
      split
      · exact Keeps_bind _ _ _ (ih rhs c1) (fun r c2 => hsame _ c2)
      · exact hsame _ c1
    | Not arg =>
      rw [Execute]
      exact Keeps_bind _ _ _ (ih arg c) (fun a c1 => hsame _ c1)
    | Comparison cmp lhs rhs =>
      rw [Execute]
      refine Keeps_bind _ _ _ (ih lhs c) ?_
      intro l c1
      refine Keeps_bind _ _ _ (ih rhs c1) ?_
      intro r c2
      exact Keeps_bind _ _ _ (Keeps_Comparator cmp _ ih l r c2) (fun b c3 => hsame _ c3)
    | NewInstance cls args =>
      rw [Execute]
      split
      · refine Keeps_of_heap (HeapKeeps_append c.heap { cls := cls, fields := [] }) ?_
        refine Keeps_bind (c.heap ++ [{ cls := cls, fields := [] }]) _ _
          (Keeps_execArgs _ ih args { c with heap := c.heap ++ [{ cls := cls, fields := [] }] })
          ?_
        intro new_args c1
        exact Keeps_bind _ _ _ (Keeps_Call _ ih _ _ _ c1) (fun _ c2 => hsame _ c2)
      · exact Keeps_ok _ _ _ (HeapKeeps_append c.heap _)
    | MethodBody body =>
      rw [Execute]
      have hb := ih body c
      cases hr : Execute ext n body c with
      | fuel => exact Keeps_fuel _
      | raise e => intro g c1 e1; cases e1
      | ok p =>
        obtain ⟨f, c0⟩ := p
        have h0 : HeapKeeps c.heap c0.heap := hb f c0 hr
        cases f <;> exact Keeps_ok _ _ c0 h0
    | Extern id =>
      rw [Execute]
      exact hext id c

/-! ### New instances -/

theorem ExternKeeps_noExtern : ExternKeeps noExtern :=
  fun _ c => Keeps_ok _ _ c (HeapKeeps_refl _)

/-- What `NewInstance` does, in terms of `HasMethod`: it creates an instance of the class,
without fields, that did not exist before. When `GetMethod` finds no `__init__`, or one
whose number of formal parameters is not the number of arguments, the instance is returned
as it is: no argument is evaluated and no error is raised. Otherwise the arguments are
evaluated from left to right and `__init__` is called on the new instance with their
values; an error of an argument ends the execution. Whenever `NewInstance` returns, the
value is the new instance, it has the class given, and the instances that existed before
are kept. -/
theorem NewInstance_by_HasMethod (ext : Nat → Config → Run Value) (hext : ExternKeeps ext)
    (fuel : Nat) (cls : Class Statement) (args : List Statement) (c : Config) :
    heapGet c.heap c.heap.length = none ∧
      heapGet (withNewInstance c cls).heap c.heap.length
        = some { cls := cls, fields := [] } ∧
      (HasMethod cls "__init__" args.length = true ↔
        ∃ m, cls.GetMethod "__init__" = some m ∧ m.formal_params.length = args.length) ∧
      (HasMethod cls "__init__" args.length = false →
        Execute ext (fuel + 1) (Statement.NewInstance cls args) c
          = Result.ok (Flow.value (Value.ClassInstance c.heap.length),
              withNewInstance c cls)) ∧
      (HasMethod cls "__init__" args.length = true →
        (∀ e c1, execArgs (Execute ext fuel) args (withNewInstance c cls)
            = Result.ok (Flow.error e, c1) →
          Execute ext (fuel + 1) (Statement.NewInstance cls args) c
            = Result.ok (Flow.error e, c1)) ∧
        (∀ vs c1, execArgs (Execute ext fuel) args (withNewInstance c cls)
            = Result.ok (Flow.value vs, c1) →
          Execute ext (fuel + 1) (Statement.NewInstance cls args) c
            = Run.bind (Call (Execute ext fuel) c.heap.length "__init__" vs c1)
                fun _ c2 => Result.ok (Flow.value (Value.ClassInstance c.heap.length), c2))) ∧
      (∀ v c2, Execute ext (fuel + 1) (Statement.NewInstance cls args) c
          = Result.ok (Flow.value v, c2) →
        v = Value.ClassInstance c.heap.length ∧
          (∃ inst, heapGet c2.heap c.heap.length = some inst ∧ inst.cls = cls) ∧
          HeapKeeps c.heap c2.heap) := by
  have hnew : heapGet (withNewInstance c cls).heap c.heap.length
      = some { cls := cls, fields := [] } := heapGet_append_length c.heap _
  have hyes : HasMethod cls "__init__" args.length = true →
      Execute ext (fuel + 1) (Statement.NewInstance cls args) c
        = Run.bind (execArgs (Execute ext fuel) args (withNewInstance c cls))
            fun new_args c1 =>
              Run.bind (Call (Execute ext fuel) c.heap.length "__init__" new_args c1)
                fun _ c2 => Result.ok (Flow.value (Value.ClassInstance c.heap.length), c2) := by
    intro h
    rw [Execute, if_pos h]
    rfl
  have hno : HasMethod cls "__init__" args.length = false →
      Execute ext (fuel + 1) (Statement.NewInstance cls args) c
        = Result.ok (Flow.value (Value.ClassInstance c.heap.length),
            withNewInstance c cls) := by
    intro h
    rw [Execute, if_neg (by rw [h]; exact Bool.false_ne_true)]
    rfl
  refine ⟨heapGet_length c.heap, hnew, ?_, hno, ?_, ?_⟩
  · unfold HasMethod
    cases cls.GetMethod "__init__" with
    | none => simp
    | some m => simp
  · intro h
    refine ⟨?_, ?_⟩
    · intro e c1 he
      rw [hyes h, he, Run.bind]
    · intro vs c1 hv
      rw [hyes h, hv, Run.bind]
  · intro v c2 hres
    have hkeep : HeapKeeps (withNewInstance c cls).heap c2.heap →
        (∃ inst, heapGet c2.heap c.heap.length = some inst ∧ inst.cls = cls) ∧
          HeapKeeps c.heap c2.heap := by
      intro hk
      obtain ⟨inst, hi, hc⟩ := hk c.heap.length _ hnew
      exact ⟨⟨inst, hi, hc⟩, HeapKeeps_trans (HeapKeeps_append c.heap _) hk⟩
    cases hh : HasMethod cls "__init__" args.length with
    | false =>
      rw [hno hh] at hres
      cases hres
      exact ⟨rfl, hkeep (HeapKeeps_refl _)⟩
    | true =>
      rw [hyes hh] at hres
      have ha := Keeps_execArgs (Execute ext fuel) (Keeps_Execute ext hext fuel) args
        (withNewInstance c cls)
      cases hx : execArgs (Execute ext fuel) args (withNewInstance c cls) with
      | fuel => rw [hx] at hres; cases hres
      | raise e => rw [hx] at hres; cases hres
      | ok p =>
        obtain ⟨f, c1⟩ := p
        rw [hx] at hres
        have h1 : HeapKeeps (withNewInstance c cls).heap c1.heap := ha f c1 hx
        cases f with
        | error e => cases hres
        | returned w => cases hres
        | crash => cases hres
        | value vs =>
          simp only [Run.bind] at hres
          have hcall := Keeps_Call (Execute ext fuel) (Keeps_Execute ext hext fuel)
            c.heap.length "__init__" vs c1
          cases hy : Call (Execute ext fuel) c.heap.length "__init__" vs c1 with
          | fuel => rw [hy] at hres; cases hres
          | raise e => rw [hy] at hres; cases hres
          | ok q =>
            obtain ⟨g, c3⟩ := q
            rw [hy] at hres
            have h2 : HeapKeeps c1.heap c3.heap := hcall g c3 hy
            cases g with
            | error e => cases hres
            | returned w => cases hres
            | crash => cases hres
            | value r =>
              simp only [Run.bind] at hres
              cases hres
              exact ⟨rfl, hkeep (HeapKeeps_trans h1 h2)⟩

/-- The class `B` has no `__init__`, so its instance is returned and the argument, which
divides by zero, is not evaluated; the class `I` has an `__init__` with one parameter,
which is called with the value 2 of the argument `d` and stores it in the field `v` of the
new instance. -/
theorem NewInstance_by_HasMethod_example :
    Execute noExtern 3
        (Statement.NewInstance bareClass
          [Statement.Div (Statement.VariableValue ["m"]) (Statement.VariableValue ["z"])])
        plainConfig
        = Result.ok (Flow.value (Value.ClassInstance 0),
            withNewInstance plainConfig bareClass) ∧
      Execute noExtern 6 (Statement.NewInstance initClass [Statement.VariableValue ["d"]])
        plainConfig
        = Result.ok (Flow.value (Value.ClassInstance 0),
            { plainConfig with
              heap := [{ cls := initClass, fields := [("v", Value.Number 2)] }] }) :=
  ⟨(NewInstance_by_HasMethod noExtern ExternKeeps_noExtern 2 bareClass
      [Statement.Div (Statement.VariableValue ["m"]) (Statement.VariableValue ["z"])]
      plainConfig).2.2.2.1 rfl, rfl⟩

/-- C21: where the claim fails. The class `L` inherits `__init__`, with one formal
parameter, from the parent `I` of its parent `M`, but `GetMethod` does not find it:
`NewInstance` of `L` with one argument returns an instance without fields, and the
argument `x = d` is not evaluated, so `x` is not bound. For the class `M`, whose parent is
`I`, the argument is evaluated and `__init__` stores its value 2 in the field `v`. -/
theorem C21_grandparent_init_not_called :
    (Class.resolve leafClass "__init__").map (fun m => m.formal_params.length) = some 1 ∧
      leafClass.GetMethod "__init__" = none ∧
      HasMethod leafClass "__init__" 1 = false ∧
      Execute noExtern 6
          (Statement.NewInstance leafClass
            [Statement.Assignment "x" (Statement.VariableValue ["d"])]) plainConfig
        = Result.ok (Flow.value (Value.ClassInstance 0),
            { plainConfig with heap := [{ cls := leafClass, fields := [] }] }) ∧
      Execute noExtern 6
          (Statement.NewInstance midClass
            [Statement.Assignment "x" (Statement.VariableValue ["d"])]) plainConfig
        = Result.ok (Flow.value (Value.ClassInstance 0),
            { plainConfig with
              closure := plainConfig.closure.set "x" (Value.Number 2),
              heap := [{ cls := midClass, fields := [("v", Value.Number 2)] }] }) :=
  ⟨rfl, rfl, rfl, rfl, rfl⟩

/-! ### Variables and method calls -/

/-- C22: where the claim fails. For a path `id0.idN` whose `id0` is bound to a value that
is not a class instance, `VariableValue::Execute` skips the loop over the inner names and
calls `Fields()` through the null pointer that `TryAs<ClassInstance>()` returned: the
behaviour is undefined, and no runtime error is raised. -/
theorem C22_last_step_unchecked (ext : Nat → Config → Run Value) (fuel : Nat) (c : Config)
    (id0 idN : String) (v : Value)
    (h0 : c.closure.find id0 = some v) (hv : ∀ ref, v ≠ Value.ClassInstance ref) :
    Execute ext (fuel + 1) (Statement.VariableValue [id0, idN]) c
      = Result.ok (Flow.crash, c) := by
  rw [Execute]
  unfold execVariableValue
  simp only [h0]
  cases v with
  | ClassInstance ref => exact absurd rfl (hv ref)
  | None => rfl
  | Number n => rfl
  | String s => rfl
  | Bool b => rfl
  | Class cls => rfl

/-- C22, witness: `m.f`, where `m` is the number -7; the same happens at the last step of
`p.t.f`, where the field `t` of the instance `p` is a string. -/
theorem C22_last_step_unchecked_witness :
    Execute noExtern 1 (Statement.VariableValue ["m", "f"]) plainConfig
        = Result.ok (Flow.crash, plainConfig) ∧
      Execute noExtern 1 (Statement.VariableValue ["p", "t", "f"]) chattyConfig
        = Result.ok (Flow.crash, chattyConfig) :=
  ⟨C22_last_step_unchecked noExtern 0 plainConfig "m" "f" (Value.Number (-7)) rfl
    (fun _ h => by cases h), rfl⟩

/-- C23 (as amended): `MethodCall` evaluates its arguments from left to right and then its
object. When an argument ends with an error, the call ends with that error in the state
reached so far, and neither the later arguments nor the object are evaluated. When the
arguments evaluate to values and the object then evaluates to something that is not a class
instance, the call raises `Cannot find class` in the state that the arguments and the
object left, so what the arguments printed or bound is kept; when the object evaluates to
an instance, the method is called on it with the values of the arguments. -/
theorem C23_MethodCall_order (ext : Nat → Config → Run Value) (fuel : Nat)
    (object : Statement) (method : String) (args : List Statement) (c : Config) :
    (∀ e c1, execArgs (Execute ext fuel) args c = Result.ok (Flow.error e, c1) →
        Execute ext (fuel + 1) (Statement.MethodCall object method args) c
          = Result.ok (Flow.error e, c1)) ∧
      (∀ vs c1 o c2, execArgs (Execute ext fuel) args c = Result.ok (Flow.value vs, c1) →
        Execute ext fuel object c1 = Result.ok (Flow.value o, c2) →
        (∀ ref, o ≠ Value.ClassInstance ref) →
        Execute ext (fuel + 1) (Statement.MethodCall object method args) c
          = Result.ok (Flow.error "Cannot find class", c2)) ∧
      (∀ vs c1 ref c2, execArgs (Execute ext fuel) args c = Result.ok (Flow.value vs, c1) →
        Execute ext fuel object c1 = Result.ok (Flow.value (Value.ClassInstance ref), c2) →
        Execute ext (fuel + 1) (Statement.MethodCall object method args) c
          = Call (Execute ext fuel) ref method vs c2) ∧
      (∀ a rest e c1, Execute ext fuel a c = Result.ok (Flow.error e, c1) →
        execArgs (Execute ext fuel) (a :: rest) c = Result.ok (Flow.error e, c1)) ∧
      (∀ a rest v c1 vs c2, Execute ext fuel a c = Result.ok (Flow.value v, c1) →
        execArgs (Execute ext fuel) rest c1 = Result.ok (Flow.value vs, c2) →
        execArgs (Execute ext fuel) (a :: rest) c = Result.ok (Flow.value (v :: vs), c2)) := by
  refine ⟨?_, ?_, ?_, ?_, ?_⟩
  · intro e c1 h
    rw [Execute, h, Run.bind]
  · intro vs c1 o c2 h ho hn
    rw [Execute, h, Run.bind, ho, Run.bind]
    cases o with
    | ClassInstance ref => exact absurd rfl (hn ref)
    | None => rfl
    | Number n => rfl
    | String s => rfl
    | Bool b => rfl
    | Class cls => rfl
  · intro vs c1 ref c2 h ho
    rw [Execute, h, Run.bind, ho, Run.bind]
  · intro a rest e c1 h
    rw [execArgs, h, Run.bind]
  · intro a rest v c1 vs c2 h hrest
    rw [execArgs, h, Run.bind, hrest, Run.bind]

/-- C23, witness: a call on the number -7 whose only argument is the assignment `x = d`
raises `Cannot find class` in a state in which `x` is bound. -/
theorem C23_MethodCall_order_witness :
    Execute noExtern 4
        (Statement.MethodCall (Statement.VariableValue ["m"]) "f"
          [Statement.Assignment "x" (Statement.VariableValue ["d"])]) plainConfig
      = Result.ok (Flow.error "Cannot find class",
          { plainConfig with closure := plainConfig.closure.set "x" (Value.Number 2) }) :=
  (C23_MethodCall_order noExtern 3 (Statement.VariableValue ["m"]) "f"
    [Statement.Assignment "x" (Statement.VariableValue ["d"])] plainConfig).2.1
    [Value.Number 2]
    { plainConfig with closure := plainConfig.closure.set "x" (Value.Number 2) }
    (Value.Number (-7))
    { plainConfig with closure := plainConfig.closure.set "x" (Value.Number 2) }
    rfl rfl (fun _ h => by cases h)

/-- C23, counterexample: the object of each call is the number -7, which is not a class
instance. An argument that prints `hi` has printed it when `Cannot find class` is raised;
an argument that assigns `x` has bound it; and an argument that divides by zero ends the
call with `division by zero` instead. -/
theorem C23_arguments_evaluated_first_counterexample :
    (Execute noExtern 5
        (Statement.MethodCall (Statement.VariableValue ["m"]) "f"
          [Statement.Print [Statement.VariableValue ["s"]]]) plainConfig).summary
        = some (Flow.error "Cannot find class", [104, 105, 10]) ∧
      Execute noExtern 5
        (Statement.MethodCall (Statement.VariableValue ["m"]) "f"
          [Statement.Assignment "x" (Statement.VariableValue ["d"])]) plainConfig
        = Result.ok (Flow.error "Cannot find class",
            { plainConfig with closure := plainConfig.closure.set "x" (Value.Number 2) }) ∧
      (Execute noExtern 5
        (Statement.MethodCall (Statement.VariableValue ["m"]) "f"
          [Statement.Div (Statement.VariableValue ["m"]) (Statement.VariableValue ["z"])])
        plainConfig).summary
        = some (Flow.error "division by zero", []) :=
  ⟨rfl, rfl, rfl⟩

/-! ### Boolean operators -/

/-- C24: `Or` and `And` short-circuit. When the value of `lhs` is true, `Or` returns
`Bool(true)` in the state that `lhs` left, whatever `rhs` is; when it is not, `And`
returns `Bool(false)` in that state, whatever `rhs` is. In the other cases the result is
the Bool of `IsTrue` of the value of `rhs`, and `Not` returns the Bool of the negation of
`IsTrue` of the value of its argument. A value returned by `Or`, `And` or `Not` is always
a Bool. -/
theorem C24_Or_And_Not (ext : Nat → Config → Run Value) (fuel : Nat) (lhs : Statement)
    (c c1 : Config) (l : Value)
    (hl : Execute ext fuel lhs c = Result.ok (Flow.value l, c1)) :
    (IsTrue l = true → ∀ rhs, Execute ext (fuel + 1) (Statement.Or lhs rhs) c
        = Result.ok (Flow.value (Value.Bool true), c1)) ∧
      (IsTrue l = false → ∀ rhs, Execute ext (fuel + 1) (Statement.And lhs rhs) c
        = Result.ok (Flow.value (Value.Bool false), c1)) ∧
      (IsTrue l = false → ∀ rhs r c2, Execute ext fuel rhs c1 = Result.ok (Flow.value r, c2) →
        Execute ext (fuel + 1) (Statement.Or lhs rhs) c
          = Result.ok (Flow.value (Value.Bool (IsTrue r)), c2)) ∧
      (IsTrue l = true → ∀ rhs r c2, Execute ext fuel rhs c1 = Result.ok (Flow.value r, c2) →
        Execute ext (fuel + 1) (Statement.And lhs rhs) c
          = Result.ok (Flow.value (Value.Bool (IsTrue r)), c2)) ∧
      Execute ext (fuel + 1) (Statement.Not lhs) c
        = Result.ok (Flow.value (Value.Bool (!IsTrue l)), c1) ∧
      (∀ rhs v c2, (Execute ext (fuel + 1) (Statement.Or lhs rhs) c
            = Result.ok (Flow.value v, c2) ∨
          Execute ext (fuel + 1) (Statement.And lhs rhs) c
            = Result.ok (Flow.value v, c2) ∨
          Execute ext (fuel + 1) (Statement.Not lhs) c
            = Result.ok (Flow.value v, c2)) → ∃ b, v = Value.Bool b) := by
  have hor : ∀ rhs, Execute ext (fuel + 1) (Statement.Or lhs rhs) c
      = (if IsTrue l = true then Result.ok (Flow.value (Value.Bool true), c1)
        else Run.bind (Execute ext fuel rhs c1) fun r c2 =>
          Result.ok (Flow.value (Value.Bool (IsTrue r)), c2)) := by
    intro rhs
    rw [Execute, hl, Run.bind]
  have hand : ∀ rhs, Execute ext (fuel + 1) (Statement.And lhs rhs) c
      = (if IsTrue l = true then Run.bind (Execute ext fuel rhs c1) fun r c2 =>
          Result.ok (Flow.value (Value.Bool (IsTrue r)), c2)
        else Result.ok (Flow.value (Value.Bool false), c1)) := by
    intro rhs
    rw [Execute, hl, Run.bind]
  have hnot : Execute ext (fuel + 1) (Statement.Not lhs) c
      = Result.ok (Flow.value (Value.Bool (!IsTrue l)), c1) := by
    rw [Execute, hl, Run.bind]
  have hbind : ∀ rhs v c2, (Run.bind (Execute ext fuel rhs c1) fun r c2 =>
        (Result.ok (Flow.value (Value.Bool (IsTrue r)), c2) : Run Value))
      = Result.ok (Flow.value v, c2) → ∃ b, v = Value.Bool b := by
    intro rhs v c2 h
    cases hr : Execute ext fuel rhs c1 with
    | fuel => rw [hr] at h; cases h
    | raise e => rw [hr] at h; cases h
    | ok p =>
      obtain ⟨f, c3⟩ := p
      rw [hr] at h
      cases f with
      | error e => cases h
      | returned w => cases h
      | crash => cases h
      | value r =>
        simp only [Run.bind] at h
        cases h
        exact ⟨_, rfl⟩
  refine ⟨?_, ?_, ?_, ?_, hnot, ?_⟩
  · intro ht rhs
    rw [hor, if_pos ht]
  · intro ht rhs
    rw [hand, if_neg (by rw [ht]; exact Bool.false_ne_true)]
  · intro ht rhs r c2 hr
    rw [hor, if_neg (by rw [ht]; exact Bool.false_ne_true), hr, Run.bind]
  · intro ht rhs r c2 hr
    rw [hand, if_pos ht, hr, Run.bind]
  · intro rhs v c2 h
    rcases h with h | h | h
    · rw [hor] at h
      by_cases ht : IsTrue l = true
      · rw [if_pos ht] at h
        cases h
        exact ⟨_, rfl⟩
      · rw [if_neg ht] at h
        exact hbind rhs v c2 h
    · rw [hand] at h
      by_cases ht : IsTrue l = true
      · rw [if_pos ht] at h
        exact hbind rhs v c2 h
      · rw [if_neg ht] at h
        cases h
        exact ⟨_, rfl⟩
    · rw [hnot] at h
      cases h
      exact ⟨_, rfl⟩

/-- C24, witness: with the number -7 on the left, `Or` returns `Bool(true)` although the
right operand divides by zero. -/
theorem C24_Or_And_Not_witness :
    Execute noExtern 3
        (Statement.Or (Statement.VariableValue ["m"])
          (Statement.Div (Statement.VariableValue ["m"]) (Statement.VariableValue ["z"])))
        plainConfig
      = Result.ok (Flow.value (Value.Bool true), plainConfig) :=
  (C24_Or_And_Not noExtern 2 (Statement.VariableValue ["m"]) plainConfig plainConfig
    (Value.Number (-7)) rfl).1 rfl
    (Statement.Div (Statement.VariableValue ["m"]) (Statement.VariableValue ["z"]))

end Mython
